import Mathlib

/-!
# Layer0 environment scaler: resource accounting and the packing pass

A shallow embedding of `api/scheduler/environment_scaler.go` (`RunBasicScaler`)
together with the `resource` package operations it calls.

Conventions of the embedding:

* A `*resource.ResourceProvider` is a record value; the slice of pointers is a
  list of records and a mutation through a pointer replaces the list element.
  Distinct list positions are assumed to hold distinct pointers, and every
  `CalculateNewProvider` call is assumed to return a newly allocated provider.
* `bytesize.Bytesize` quantities are integers (a number of bytes).
* The `ProviderManager` collaborator is a pair of functions.  The answer of
  `CalculateNewProvider` may depend on how many times it was called before.
* Go `error` values are strings; a `nil` error is `none`.
-/

namespace Layer0

/-! ## Data model -/

/-- One unit of demand, `resource.ResourceConsumer` (fields `ID`, `Memory`, `Ports`
as used by `provider_test.go` and `RunBasicScaler`). -/
structure ResourceConsumer where
  ID : String
  Memory : Int
  Ports : List Int
deriving DecidableEq, Repr

/-- One container host, `resource.ResourceProvider`; field order follows
`NewResourceProvider(id, inUse, availableMemory, usedPorts)`. -/
structure ResourceProvider where
  ID : String
  inUse : Bool
  availableMemory : Int
  usedPorts : List Int
deriving DecidableEq, Repr

/-- Modelled from the spec: the `bytesize.MB` constant of the absent bytesize
library, a byte count. -/
def MB : Int := 1024 * 1024

/-- Modelled from the spec: the `bytesize.GB` constant of the absent bytesize
library, a byte count. -/
def GB : Int := 1024 * MB

/-- Constructor `NewResourceProvider(id, inUse, availableMemory, usedPorts)` as it
is called in `provider_test.go`. -/
def NewResourceProvider (id : String) (inUse : Bool) (availableMemory : Int)
    (usedPorts : List Int) : ResourceProvider :=
  { ID := id, inUse := inUse, availableMemory := availableMemory, usedPorts := usedPorts }

/-! ## ResourceProvider operations -/

/-- Modelled from the spec: `ResourceProvider.HasResourcesFor` (provider.go is
absent).  True iff `c.memory ≤ availableMemory` and `c.ports ∩ usedPorts = ∅`. -/
def HasResourcesFor (p : ResourceProvider) (c : ResourceConsumer) : Bool :=
  decide (c.Memory ≤ p.availableMemory) && c.Ports.all (fun port => !p.usedPorts.contains port)

/-- Modelled from the spec: `ResourceProvider.IsInUse` (provider.go is absent);
returns `inUse`. -/
def IsInUse (p : ResourceProvider) : Bool := p.inUse

/-- Modelled from the spec: `ResourceProvider.SubtractResourcesFor` (provider.go is
absent).  The result is the provider after the call and the returned error.
Precondition `HasResourcesFor`; on success `availableMemory -= c.memory`, the
ports of `c` are added to `usedPorts` (appended, as the slice comparison in
`TestResourceProviderSubtractResourcesFor` shows) and `inUse = true`; on a
precondition violation an error is returned and the state is untouched. -/
def SubtractResourcesFor (p : ResourceProvider) (c : ResourceConsumer) :
    ResourceProvider × Option String :=
  if HasResourcesFor p c then
    ({ p with
        availableMemory := p.availableMemory - c.Memory,
        usedPorts := p.usedPorts ++ c.Ports,
        inUse := true }, none)
  else
    (p, some ("Cannot subtract resources for consumer '" ++ c.ID ++ "' from provider '"
      ++ p.ID ++ "'"))

/-- Modelled from the spec: `resource.SortProvidersByMemory` (absent from the
sources): the providers in ascending order of `availableMemory`.  The spec fixes
no order among providers of equal memory; this definition keeps their relative
order, which is one of the orders the spec allows. -/
def SortProvidersByMemory (providers : List ResourceProvider) : List ResourceProvider :=
  providers.insertionSort (fun a b => a.availableMemory ≤ b.availableMemory)

/-- Modelled from the spec: `resource.SortProvidersByUsage` (absent from the
sources): a stable sort that puts providers with `inUse = true` before those with
`inUse = false`. -/
def SortProvidersByUsage (providers : List ResourceProvider) : List ResourceProvider :=
  providers.filter (fun p => p.inUse) ++ providers.filter (fun p => !p.inUse)

/-! ## Collaborators and reporting records -/

/-- The two `resource.ProviderManager` methods that `RunBasicScaler` calls.
`CalculateNewProvider environmentID k` is the answer to the call made after `k`
earlier calls in the pass; `ScaleTo` returns the pair `(actualScale, err)`. -/
structure ProviderManager where
  CalculateNewProvider : String → Nat → Except String ResourceProvider
  ScaleTo : String → Int → List ResourceProvider → Int × Option String

/-- Reporting snapshot `models.ResourceConsumer`. -/
structure ResourceConsumerModel where
  ID : String
  Memory : Int
  Ports : List Int
deriving DecidableEq, Repr

/-- Reporting snapshot `models.ResourceProvider`. -/
structure ResourceProviderModel where
  ID : String
  InUse : Bool
  UsedPorts : List Int
  AvailableMemory : Int
deriving DecidableEq, Repr

/-- Modelled from the spec: `ResourceConsumer.ToModel` (consumer.go is absent), a
reporting snapshot of the consumer. -/
def ResourceConsumer.ToModel (c : ResourceConsumer) : ResourceConsumerModel :=
  { ID := c.ID, Memory := c.Memory, Ports := c.Ports }

/-- Modelled from the spec: `ResourceProvider.ToModel` (provider.go is absent), a
deep-copied view of the provider for reporting. -/
def ResourceProvider.ToModel (p : ResourceProvider) : ResourceProviderModel :=
  { ID := p.ID, InUse := p.inUse, UsedPorts := p.usedPorts, AvailableMemory := p.availableMemory }

/-- The record `models.ScalerRunInfo` as filled in by `RunBasicScaler`. -/
structure ScalerRunInfo where
  EnvironmentID : String
  PendingResources : List ResourceConsumerModel
  ResourceProviders : List ResourceProviderModel
  ScaleBeforeRun : Int
  DesiredScaleAfterRun : Int
  ActualScaleAfterRun : Int
  UnusedResourceProviders : Int
deriving DecidableEq, Repr

/-- The helper `resourceConsumerModels` of environment_scaler.go. -/
def resourceConsumerModels (consumers : List ResourceConsumer) : List ResourceConsumerModel :=
  consumers.map ResourceConsumer.ToModel

/-- The helper `resourceProviderModels` of environment_scaler.go. -/
def resourceProviderModels (providers : List ResourceProvider) : List ResourceProviderModel :=
  providers.map ResourceProvider.ToModel

/-- Modelled from the spec: `errors.MultiError` (common/errors is absent): the
aggregated multi-error, `nil` when nothing was accumulated. -/
def MultiError (errs : List String) : Option (List String) :=
  if errs.isEmpty then none else some errs

/-! ## The packing pass -/

/-! ### `fmt.Errorf` called with a format and no operand

Line 123 hands the finished text to `fmt.Errorf` as its format.  The following
definitions follow `doPrintf` of the Go package fmt for a call without operands:
literal text is copied, and every `%` starts a verb that is read (flags, argument
index, width, precision, argument index, verb character) and, there being no
operand, replaced by an error marker. -/

/-- The flag characters that the loop `simpleFormat` of `doPrintf` consumes. -/
def isFmtFlag (c : Char) : Bool :=
  c == '#' || c == '0' || c == '+' || c == '-' || c == ' '

/-- The helper `parsenum` of package fmt on the text that starts at the current
position, entered with the number read so far: whether a number was read, and the
text after it.  A number over 1e6 (`tooLarge`) yields `false` and the position
`end`, that is, no text left. -/
def fmtParsenumFrom (num : Nat) (isnum : Bool) : List Char → Bool × List Char
  | [] => (isnum, [])
  | c :: rest =>
    if c.isDigit then
      if num > 1000000 then (false, [])
      else fmtParsenumFrom (num * 10 + (c.toNat - 48)) true rest
    else (isnum, c :: rest)

/-- The helper `parsenum` of package fmt. -/
def fmtParsenum (s : List Char) : Bool × List Char := fmtParsenumFrom 0 false s

/-- The number of bytes of a text in UTF-8, Go `len`. -/
def utf8Len (s : List Char) : Nat := (s.map Char.utf8Size).sum

/-- The helper `parseArgNumber` of package fmt on a text that starts with `[`: the
number of characters to skip, and whether a well-formed index `[n]` was read. -/
def fmtParseArgNumber (s : List Char) : Nat × Bool :=
  if utf8Len s < 3 then (1, false)
  else
    let inner := (s.drop 1).takeWhile (fun c => c != ']')
    if (s.drop 1).contains ']' then
      (inner.length + 2, fmtParsenum inner == (true, []))
    else (1, false)

/-- The method `argNumber` of package fmt when the call has no operand: the text
after an index, whether an index was found, and whether `goodArgNum` was cleared
(with no operand every index is out of range). -/
def fmtArgNumber (s : List Char) : List Char × Bool × Bool :=
  match s with
  | '[' :: _ =>
    let parsed := fmtParseArgNumber s
    (s.drop parsed.1, parsed.2, true)
  | _ => (s, false, false)

/-- One verb of `doPrintf` when the call has no operand, on the text that follows
the `%`: what is written, and the text that remains.  The intermediate tuples hold
the remaining text, the flag `afterIndex`, whether `goodArgNum` was cleared, and
the marker written for a `*` that finds no operand. -/
def fmtVerb (s : List Char) : List Char × List Char :=
  let s1 := s.dropWhile isFmtFlag
  let idx1 := fmtArgNumber s1
  let width : List Char × Bool × Bool × List Char :=
    match idx1.1 with
    | '*' :: rest => (rest, false, false, "%!(BADWIDTH)".data)
    | _ =>
      let num := fmtParsenum idx1.1
      (num.2, idx1.2.1, idx1.2.1 && num.1, [])
  let prec : List Char × Bool × Bool × List Char :=
    match width.1 with
    | '.' :: rest =>
      let idx2 := fmtArgNumber rest
      match idx2.1 with
      | '*' :: rest2 => (rest2, false, width.2.1 || idx2.2.2, "%!(BADPREC)".data)
      | _ => ((fmtParsenum idx2.1).2, idx2.2.1, width.2.1 || idx2.2.2, [])
    | _ => (width.1, width.2.1, false, [])
  let idx3 := if prec.2.1 then (prec.1, true, false) else fmtArgNumber prec.1
  let bad := idx1.2.2 || width.2.2.1 || prec.2.2.1 || idx3.2.2
  match idx3.1 with
  | [] => (width.2.2.2 ++ prec.2.2.2 ++ "%!(NOVERB)".data, [])
  | verb :: rest =>
    (width.2.2.2 ++ prec.2.2.2 ++
      (if verb == '%' then ['%']
       else if bad then "%!".data ++ [verb] ++ "(BADINDEX)".data
       else "%!".data ++ [verb] ++ "(MISSING)".data), rest)

/-- The loop `formatLoop` of `doPrintf` when the call has no operand.  Every turn
consumes at least one character, so a `fuel` above the length of the text is
enough. -/
def fmtNoOperands : Nat → List Char → List Char
  | 0, _ => []
  | _ + 1, [] => []
  | fuel + 1, c :: rest =>
    if c == '%' then (fmtVerb rest).1 ++ fmtNoOperands fuel (fmtVerb rest).2
    else c :: fmtNoOperands fuel rest

/-- The text of the error `fmt.Errorf(format)`, a call with a format and no
operand. -/
def Errorf (format : String) : String :=
  String.mk (fmtNoOperands (format.length + 1) format.data)

/-- The text built by lines 120-122 for a consumer that does not fit an empty
provider: the result of `fmt.Sprintf("Resource '%s' cannot fit into an empty
provider!", consumer.ID)` followed by the two appended lines. -/
def unfittableFormat (consumer : ResourceConsumer) : String :=
  "Resource '" ++ consumer.ID ++ "' cannot fit into an empty provider!"
    ++ "\nThe instance size in your environment is too small to run this resource."
    ++ "\nPlease increase the instance size for your environment"

/-- The text of the error recorded for a consumer that does not fit an empty
provider (line 123): `fmt.Errorf(text)`, with the text of lines 120-122 as the
format. -/
def unfittableText (consumer : ResourceConsumer) : String :=
  Errorf (unfittableFormat consumer)

/-- The scan of lines 105-111: the first provider in list order that has
resources for the consumer receives `SubtractResourcesFor` and the scan stops.
Returns the provider list after the scan and the flag `hasRoom`. -/
def scanProviders (consumer : ResourceConsumer) :
    List ResourceProvider → List ResourceProvider × Bool
  | [] => ([], false)
  | provider :: rest =>
    if HasResourcesFor provider consumer then
      ((SubtractResourcesFor provider consumer).1 :: rest, true)
    else
      ((provider :: (scanProviders consumer rest).1), (scanProviders consumer rest).2)

/-- The variables of `RunBasicScaler` that live across iterations of the consumer
loop: the slice `providers`, the slice `errs`, and the number of
`CalculateNewProvider` calls made so far. -/
structure LoopState where
  providers : List ResourceProvider
  errs : List String
  calls : Nat
deriving DecidableEq, Repr

/-- One iteration of the consumer loop (lines 95-131).  `Except.error` is the early
`return nil, err` of line 116. -/
def packConsumer (pm : ProviderManager) (environmentID : String) (st : LoopState)
    (consumer : ResourceConsumer) : Except String LoopState :=
  let sorted := SortProvidersByUsage (SortProvidersByMemory st.providers)
  let scan := scanProviders consumer sorted
  if scan.2 then
    .ok { st with providers := scan.1 }
  else
    match pm.CalculateNewProvider environmentID st.calls with
    | .error err => .error err
    | .ok newProvider =>
      if !HasResourcesFor newProvider consumer then
        .ok { providers := scan.1, errs := st.errs ++ [unfittableText consumer],
              calls := st.calls + 1 }
      else
        .ok { providers := scan.1 ++ [(SubtractResourcesFor newProvider consumer).1],
              errs := st.errs, calls := st.calls + 1 }

/-- The consumer loop of lines 95-131 over the remaining consumers. -/
def packConsumers (pm : ProviderManager) (environmentID : String) :
    LoopState → List ResourceConsumer → Except String LoopState
  | st, [] => .ok st
  | st, consumer :: rest =>
    match packConsumer pm environmentID st consumer with
    | .error err => .error err
    | .ok st' => packConsumers pm environmentID st' rest

/-- The loop of lines 134-139: the providers that are not in use, in list order. -/
def unusedProvidersOf (providers : List ResourceProvider) : List ResourceProvider :=
  providers.filter (fun p => !IsInUse p)

/-- What a returning run of `RunBasicScaler` produced: the returned
`ScalerRunInfo`, the returned error `errors.MultiError(errs)`, and, for
reference, the slice `errs`, the final slice `providers`, the arguments that were
handed to `ScaleTo` and the number of `CalculateNewProvider` calls. -/
structure RunOutcome where
  info : ScalerRunInfo
  err : Option (List String)
  errs : List String
  providers : List ResourceProvider
  scaleToDesired : Int
  scaleToUnused : List ResourceProvider
  calls : Nat
deriving DecidableEq, Repr

/-- The state of the loop variables before the first consumer (lines 91-92). -/
def initialState (providers : List ResourceProvider) : LoopState :=
  { providers := providers, errs := [], calls := 0 }

/-- Lines 133-157 of `RunBasicScaler`, run on the loop variables after the consumer
loop. -/
def finishRun (pm : ProviderManager) (environmentID : String) (scaleBeforeRun : Int)
    (consumers : List ResourceConsumer) (st : LoopState) : RunOutcome :=
  let unusedProviders := unusedProvidersOf st.providers
  let desiredScale : Int := (st.providers.length : Int) - (unusedProviders.length : Int)
  let scaled := pm.ScaleTo environmentID desiredScale unusedProviders
  let errs := match scaled.2 with
    | some err => st.errs ++ [err]
    | none => st.errs
  { info :=
      { EnvironmentID := environmentID,
        PendingResources := resourceConsumerModels consumers,
        ResourceProviders := resourceProviderModels st.providers,
        ScaleBeforeRun := scaleBeforeRun,
        DesiredScaleAfterRun := desiredScale,
        ActualScaleAfterRun := scaled.1,
        UnusedResourceProviders := (unusedProviders.length : Int) },
    err := MultiError errs,
    errs := errs,
    providers := st.providers,
    scaleToDesired := desiredScale,
    scaleToUnused := unusedProviders,
    calls := st.calls }

/-- The function `RunBasicScaler` (lines 84-158).  `Except.error err` is the return
`nil, err`; `Except.ok out` is the return `info, errors.MultiError(errs)`. -/
def RunBasicScaler (environmentID : String) (providers : List ResourceProvider)
    (consumers : List ResourceConsumer) (pm : ProviderManager) : Except String RunOutcome :=
  match packConsumers pm environmentID (initialState providers) consumers with
  | .error err => .error err
  | .ok st => .ok (finishRun pm environmentID (providers.length : Int) consumers st)

/-! ## Auxiliary notions used in the statements -/

/-- The provider list that the scan of one iteration walks over. -/
def sortedProviders (providers : List ResourceProvider) : List ResourceProvider :=
  SortProvidersByUsage (SortProvidersByMemory providers)

/-- The order of two providers in the scanned list: an in-use provider is never
behind an unused one, and within one usage class memory is ascending. -/
def ScanOrder (a b : ResourceProvider) : Prop :=
  (b.inUse = true → a.inUse = true) ∧ (a.inUse = b.inUse → a.availableMemory ≤ b.availableMemory)

/-! ## Example collaborators and providers used in the concrete scenarios -/

/-- A provider manager whose fresh prototype is always `proto` and whose `ScaleTo`
succeeds and reports the desired scale as the actual scale. -/
def constManager (proto : ResourceProvider) : ProviderManager :=
  { CalculateNewProvider := fun _ _ => .ok proto,
    ScaleTo := fun _ desired _ => (desired, none) }

/-- The fresh empty 1 GB host of scenarios S1-S4. -/
def freshHost : ResourceProvider := NewResourceProvider "fresh" false GB []

/-- The provider manager of scenarios S1-S4: every new provider is a fresh 1 GB host. -/
def exampleManager : ProviderManager := constManager freshHost

/-- A 1 GB host with no port bound, named `id`, in use or idle. -/
def host (id : String) (inUse : Bool) : ResourceProvider := NewResourceProvider id inUse GB []

/-- A consumer named `id` that needs `memory` bytes and no port. -/
def task (id : String) (memory : Int) : ResourceConsumer :=
  { ID := id, Memory := memory, Ports := [] }

/-! ## The operation `Scale` -/

/-- The collaborators of `L0EnvironmentScaler` that `Scale` uses (lines 19-24):
`consumerGetter.GetConsumers`, `providerManager.GetProviders`, and the remaining
`providerManager` methods, which `Scale` hands to `RunBasicScaler`. -/
structure L0EnvironmentScaler where
  GetConsumers : String → Except String (List ResourceConsumer)
  GetProviders : String → Except String (List ResourceProvider)
  providerManager : ProviderManager

/-- The calls in the body of `Scale` (lines 70-82), the only places from which a
collaborator is reached: `CalculateNewProvider` and `ScaleTo` are reached only
through `RunBasicScaler`. -/
inductive ScaleCall where
  | getProviders
  | getConsumers
  | runBasicScaler
deriving DecidableEq, Repr

/-- The method `L0EnvironmentScaler.Scale` (lines 70-82).  The first component is
what is returned (`Except.error err` for `nil, err`), the second lists the calls the
body made, in order. -/
def Scale (r : L0EnvironmentScaler) (environmentID : String) :
    Except String RunOutcome × List ScaleCall :=
  match r.GetProviders environmentID with
  | .error err => (.error err, [.getProviders])
  | .ok resourceProviders =>
    match r.GetConsumers environmentID with
    | .error err => (.error err, [.getProviders, .getConsumers])
    | .ok resourceConsumers =>
      (RunBasicScaler environmentID resourceProviders resourceConsumers r.providerManager,
        [.getProviders, .getConsumers, .runBasicScaler])

/-- A scaler whose collaborators list the given providers and consumers and manage
providers through `pm`. -/
def fixedScaler (providers : List ResourceProvider) (consumers : List ResourceConsumer)
    (pm : ProviderManager) : L0EnvironmentScaler :=
  { GetConsumers := fun _ => .ok consumers,
    GetProviders := fun _ => .ok providers,
    providerManager := pm }

/-- A provider manager whose fresh prototype is always `proto` and whose `ScaleTo`
fails with `err`, reporting actual scale 0. -/
def failingScaleManager (proto : ResourceProvider) (err : String) : ProviderManager :=
  { CalculateNewProvider := fun _ _ => .ok proto,
    ScaleTo := fun _ _ _ => (0, some err) }

/-! ## The composed comparator -/

/-- The composed comparator in the words of spec section 9: primary key
`availableMemory` ascending, secondary key in-use before unused. -/
def memoryThenUsage (a b : ResourceProvider) : Prop :=
  a.availableMemory < b.availableMemory ∨
    (a.availableMemory = b.availableMemory ∧ (a.inUse = true ∨ b.inUse = false))

instance : DecidableRel memoryThenUsage := fun a b =>
  inferInstanceAs (Decidable (a.availableMemory < b.availableMemory ∨
    (a.availableMemory = b.availableMemory ∧ (a.inUse = true ∨ b.inUse = false))))

/-- The single sort of spec section 9: one pass of the sort used for
`SortProvidersByMemory`, with the comparator `memoryThenUsage`. -/
def sortMemoryThenUsage (providers : List ResourceProvider) : List ResourceProvider :=
  providers.insertionSort memoryThenUsage

/-- The composed comparator with the keys the other way round: primary key in-use
before unused, secondary key `availableMemory` ascending. -/
def usageThenMemory (a b : ResourceProvider) : Prop :=
  (a.inUse = true ∧ b.inUse = false) ∨
    (a.inUse = b.inUse ∧ a.availableMemory ≤ b.availableMemory)

instance : DecidableRel usageThenMemory := fun a b =>
  inferInstanceAs (Decidable ((a.inUse = true ∧ b.inUse = false) ∨
    (a.inUse = b.inUse ∧ a.availableMemory ≤ b.availableMemory)))

/-- The two keys of a provider that the sorting passes compare: whether it is in
use, and its available memory. -/
def sortKeys (p : ResourceProvider) : Bool × Int := (p.inUse, p.availableMemory)

/-- The comparator `usageThenMemory` on the keys alone. -/
def keysOrdered (a b : Bool × Int) : Prop :=
  (a.1 = true ∧ b.1 = false) ∨ (a.1 = b.1 ∧ a.2 ≤ b.2)

/-- One pass of the sort used for `SortProvidersByMemory`, with the comparator
`usageThenMemory`. -/
def sortUsageThenMemory (providers : List ResourceProvider) : List ResourceProvider :=
  providers.insertionSort usageThenMemory

/-! ## The packing pass with bookkeeping of assignments

The code does not record which consumer went to which provider.  The following
copy of the consumer loop carries that record along with every provider; erasing
the record gives the loop above (`packConsumersTracked_erase`). -/

/-- A provider of the pass together with a record of its history: the ports it had
bound when it entered the pass, the consumers that received resources from it
during the pass (in order), and whether it was appended during the pass. -/
structure TrackedProvider where
  provider : ResourceProvider
  initialPorts : List Int
  assigned : List ResourceConsumer
  appended : Bool
deriving DecidableEq, Repr

/-- The record of a provider of the input list. -/
def trackInput (p : ResourceProvider) : TrackedProvider :=
  { provider := p, initialPorts := p.usedPorts, assigned := [], appended := false }

/-- The record of a prototype returned by `CalculateNewProvider`. -/
def trackFresh (p : ResourceProvider) : TrackedProvider :=
  { provider := p, initialPorts := p.usedPorts, assigned := [], appended := true }

/-- The call `provider.SubtractResourcesFor(consumer)` of lines 108 and 128 on a
tracked provider: the consumer is added to the record. -/
def TrackedProvider.assign (t : TrackedProvider) (c : ResourceConsumer) : TrackedProvider :=
  { t with provider := (SubtractResourcesFor t.provider c).1, assigned := t.assigned ++ [c] }

/-- The two sorting passes of lines 99 and 103 on tracked providers. -/
def sortTracked (l : List TrackedProvider) : List TrackedProvider :=
  (l.insertionSort
      (fun a b => a.provider.availableMemory ≤ b.provider.availableMemory)).filter
      (fun t => t.provider.inUse) ++
    (l.insertionSort
      (fun a b => a.provider.availableMemory ≤ b.provider.availableMemory)).filter
      (fun t => !t.provider.inUse)

/-- The scan of lines 105-111 on tracked providers. -/
def scanTracked (consumer : ResourceConsumer) :
    List TrackedProvider → List TrackedProvider × Bool
  | [] => ([], false)
  | t :: rest =>
    if HasResourcesFor t.provider consumer then
      (t.assign consumer :: rest, true)
    else
      ((t :: (scanTracked consumer rest).1), (scanTracked consumer rest).2)

/-- The loop variables of `RunBasicScaler` with tracked providers. -/
structure TrackedState where
  providers : List TrackedProvider
  errs : List String
  calls : Nat
deriving DecidableEq, Repr

/-- Forgetting the record: the loop variables as the code has them. -/
def TrackedState.erase (st : TrackedState) : LoopState :=
  { providers := st.providers.map (fun t => t.provider), errs := st.errs, calls := st.calls }

/-- One iteration of the consumer loop (lines 95-131) on tracked providers. -/
def packConsumerTracked (pm : ProviderManager) (environmentID : String) (st : TrackedState)
    (consumer : ResourceConsumer) : Except String TrackedState :=
  let scan := scanTracked consumer (sortTracked st.providers)
  if scan.2 then
    .ok { st with providers := scan.1 }
  else
    match pm.CalculateNewProvider environmentID st.calls with
    | .error err => .error err
    | .ok newProvider =>
      if !HasResourcesFor newProvider consumer then
        .ok { providers := scan.1, errs := st.errs ++ [unfittableText consumer],
              calls := st.calls + 1 }
      else
        .ok { providers := scan.1 ++ [(trackFresh newProvider).assign consumer],
              errs := st.errs, calls := st.calls + 1 }

/-- The consumer loop of lines 95-131 on tracked providers. -/
def packConsumersTracked (pm : ProviderManager) (environmentID : String) :
    TrackedState → List ResourceConsumer → Except String TrackedState
  | st, [] => .ok st
  | st, consumer :: rest =>
    match packConsumerTracked pm environmentID st consumer with
    | .error err => .error err
    | .ok st' => packConsumersTracked pm environmentID st' rest

/-- The tracked loop variables before the first consumer. -/
def trackedInitialState (providers : List ResourceProvider) : TrackedState :=
  { providers := providers.map trackInput, errs := [], calls := 0 }

/-- The number of providers in the list that were appended during the pass. -/
def appendedCount (l : List TrackedProvider) : Nat :=
  l.countP (fun t => t.appended)

/-- The number of ports required by the consumers in the list. -/
def portCount (consumers : List ResourceConsumer) : Nat :=
  (consumers.map (fun c => c.Ports.length)).sum

/-! ## Scheduled runs (lines 35-68)

Instants and `time.Duration` values are integers in one unit of time.  A timer
`time.After(delay)` created at instant `t` elapses at `t + delay`, at once when
`delay` is not positive; the goroutine takes its timeout branch at that instant or
at any later one.  `ScheduleRun` and `timerElapses` below are a whole call and a
whole timeout branch, run without interruption; the statements of both, taken one
at a time in any order, are the steps of `raceStep` further down. -/

/-- What a scheduled run does that can be observed from outside its goroutine, in
program order: the log lines of lines 50, 53, 61 and 63, the `delete` of line 55,
the `close` of line 56 and the call of `Scale` of line 62. -/
inductive RunAction where
  | logScalingIn (environmentID : String) (delay : Int)
  | logNewDelay (environmentID : String)
  | deleteEntry (environmentID : String)
  | closeChannel (channel : Nat)
  | logScalingNow (environmentID : String)
  | invokeScale (environmentID : String)
  | logScaleError (environmentID : String) (err : List String)
deriving DecidableEq, Repr

/-- The error that `r.Scale(environmentID)` returns in line 62, `none` for `nil`: the
collaborator error of an aborted run, or the multi-error of a returning run. -/
def scaleError (r : L0EnvironmentScaler) (environmentID : String) : Option (List String) :=
  match (Scale r environmentID).1 with
  | .error err => some [err]
  | .ok out => out.err

/-- The branch `case <-time.After(delay)` of the `select` (lines 55-57) and the rest
of the goroutine after the loop (lines 61-64), for the run of `environmentID` with
channel `channel`. -/
def fireActions (r : L0EnvironmentScaler) (environmentID : String) (channel : Nat) :
    List RunAction :=
  [.deleteEntry environmentID, .closeChannel channel, .logScalingNow environmentID,
    .invokeScale environmentID] ++
  match scaleError r environmentID with
  | some err => [.logScaleError environmentID err]
  | none => []

/-- The goroutine started by `newScheduledRun` (lines 48-65), as a function of the
initial `delay` and of the delays it receives on its channel before a timer
elapses: every received delay takes the branch `case delay = <-c` and the loop goes
round; then the timer elapses. -/
def scheduledRunActions (r : L0EnvironmentScaler) (environmentID : String) (channel : Nat) :
    Int → List Int → List RunAction
  | delay, [] => .logScalingIn environmentID delay :: fireActions r environmentID channel
  | delay, newDelay :: rest =>
    .logScalingIn environmentID delay :: .logNewDelay environmentID ::
      scheduledRunActions r environmentID channel newDelay rest

/-- A goroutine started by `newScheduledRun` that is blocked in its `select`: its
variables `environmentID`, `c` and `delay`, and the instant at which the pending
timer `time.After(delay)` was created. -/
structure ScheduledRun where
  environmentID : String
  channel : Nat
  delay : Int
  armedAt : Int
deriving DecidableEq, Repr

/-- The instant at which the pending timer of the run elapses. -/
def fireTime (run : ScheduledRun) : Int := run.armedAt + max run.delay 0

/-- The branch `case delay = <-c` (lines 52-53) and the next loop head (lines 50-51):
the run takes the received delay and blocks in `select` again with a new timer. -/
def receiveDelay (run : ScheduledRun) (newDelay : Int) (now : Int) :
    ScheduledRun × List RunAction :=
  ({ run with delay := newDelay, armedAt := now },
    [.logNewDelay run.environmentID, .logScalingIn run.environmentID newDelay])

/-- The dispatcher part of `L0EnvironmentScaler`: the registry `scheduledRuns` (a map
from environment to channel), the goroutine blocked in `select` on each channel,
the next channel to be made, the actions of the scheduled runs so far, and the
environments for which `Scale` was invoked with the instant of the invocation. -/
structure Dispatcher where
  scheduledRuns : String → Option Nat
  waiting : Nat → Option ScheduledRun
  nextChannel : Nat
  actions : List RunAction
  scaleCalls : List (String × Int)

/-- The dispatcher of `NewL0EnvironmentScaler`: an empty registry. -/
def emptyDispatcher : Dispatcher :=
  { scheduledRuns := fun _ => none, waiting := fun _ => none, nextChannel := 0,
    actions := [], scaleCalls := [] }

/-- The method `ScheduleRun` (lines 35-43) called at instant `now` and run without
interruption.  With an entry in the registry the delay is sent on its channel and
received by the run blocked on it; `none` stands for a send on a channel on which
no run is blocked.  Without an entry, `newScheduledRun` (lines 45-68) makes a
channel and starts the goroutine (line 41), and the channel is registered (line 42)
before the goroutine does anything but reach its `select`.  The goroutine that
takes its timeout branch between lines 41 and 42 is covered by `raceStep`, where
the two lines are two steps. -/
def ScheduleRun (d : Dispatcher) (environmentID : String) (delay : Int) (now : Int) :
    Option Dispatcher :=
  match d.scheduledRuns environmentID with
  | some c =>
    match d.waiting c with
    | some run =>
      some { d with
        waiting := fun c2 => if c2 = c then some (receiveDelay run delay now).1 else d.waiting c2,
        actions := d.actions ++ (receiveDelay run delay now).2 }
    | none => none
  | none =>
    some { scheduledRuns := fun e => if e = environmentID then some d.nextChannel
             else d.scheduledRuns e,
           waiting := fun c2 => if c2 = d.nextChannel then
               some { environmentID := environmentID, channel := d.nextChannel,
                      delay := delay, armedAt := now }
             else d.waiting c2,
           nextChannel := d.nextChannel + 1,
           actions := d.actions ++ [.logScalingIn environmentID delay],
           scaleCalls := d.scaleCalls }

/-- The timer of the run blocked on `channel` elapses at instant `now` (lines 54-57)
and the goroutine runs to its end (lines 61-64).  `none` when no run is blocked on
the channel or its timer has not elapsed yet. -/
def timerElapses (r : L0EnvironmentScaler) (d : Dispatcher) (channel : Nat) (now : Int) :
    Option Dispatcher :=
  match d.waiting channel with
  | none => none
  | some run =>
    if fireTime run ≤ now then
      some { scheduledRuns := fun e => if e = run.environmentID then none
               else d.scheduledRuns e,
             waiting := fun c2 => if c2 = channel then none else d.waiting c2,
             nextChannel := d.nextChannel,
             actions := d.actions ++ fireActions r run.environmentID channel,
             scaleCalls := d.scaleCalls ++ [(run.environmentID, now)] }
    else none

/-- The dispatcher after `ScheduleRun("e", 5)` at instant 0 on an empty registry: one
run for environment `e` is armed on channel 0 with delay 5. -/
def armedDispatcher : Dispatcher :=
  { scheduledRuns := fun e => if e = "e" then some 0 else none,
    waiting := fun c => if c = 0 then
        some { environmentID := "e", channel := 0, delay := 5, armedAt := 0 }
      else none,
    nextChannel := 1,
    actions := [.logScalingIn "e" 5],
    scaleCalls := [] }

/-- A scaler with no providers and no consumers. -/
def idleScaler : L0EnvironmentScaler := fixedScaler [] [] exampleManager

/-- A scaler whose provider lookup fails. -/
def brokenScaler : L0EnvironmentScaler :=
  { GetConsumers := fun _ => .ok [],
    GetProviders := fun _ => .error "provider lookup failed",
    providerManager := exampleManager }

/-- A provider manager that answers the first `CalculateNewProvider` call with a
fresh 1 GB host and fails every later call. -/
def flakyManager : ProviderManager :=
  { CalculateNewProvider := fun _ k => if k = 0 then .ok freshHost else .error "no capacity",
    ScaleTo := fun _ desired _ => (desired, none) }

/-- A sequence of `ScheduleRun` calls for one environment, each given by its delay
and the instant at which it is made, with no timer elapsing in between. -/
def scheduleCalls (d : Dispatcher) (environmentID : String) :
    List (Int × Int) → Option Dispatcher
  | [] => some d
  | call :: rest =>
    match ScheduleRun d environmentID call.1 call.2 with
    | none => none
    | some d2 => scheduleCalls d2 environmentID rest

/-! ## The statements of `ScheduleRun` and of a scheduled run, one at a time

`ScheduleRun` reads the registry (line 36) and then either sends on the channel it
found (line 37) or makes a channel and starts a goroutine (line 41) and then writes
the registry (line 42).  The goroutine blocked in `select` takes its timeout branch
(lines 54-55: the timer has elapsed, the entry is deleted), closes its channel
(line 56), leaves the loop and calls `Scale` (lines 61-64).  Nothing in the code
orders the statements of a call and those of a goroutine with respect to each
other apart from the send and its receipt, so the steps below can be taken in any
order.  A send on a closed channel panics. -/

/-- Where the `ScheduleRun` call stands: not started; line 36 found a channel and the
send of line 37 is next; line 36 found no entry and line 41 is next; line 41 made
the channel and started the goroutine, and the registry write of line 42 is next;
returned; panicked in the send. -/
inductive CallPoint where
  | notStarted
  | sending (channel : Nat)
  | creating
  | registering (channel : Nat)
  | returned
  | panicked
deriving DecidableEq, Repr

/-- Where a goroutine that has taken its timeout branch stands: the entry is deleted
(line 55) and the `close` of line 56 is next; the channel is closed and the call of
`Scale` (lines 61-64) is next. -/
inductive FirePoint where
  | deleted
  | closed
deriving DecidableEq, Repr

/-- A goroutine that has taken its timeout branch: its environment, where it stands,
and the instant at which it left its `select`. -/
structure FiringRun where
  environmentID : String
  point : FirePoint
  since : Int
deriving DecidableEq, Repr

/-- One execution of line 62: the environment, the instant, and what the call
`r.Scale(environmentID)` returned together with the calls its body made. -/
structure ScaleRun where
  environmentID : String
  instant : Int
  result : Except String RunOutcome × List ScaleCall

/-- The dispatcher, the channels closed so far, where the call stands, the
goroutines that have left their `select` by the timeout branch (by channel), and
the executions of line 62 so far. -/
structure RaceState where
  dispatcher : Dispatcher
  closed : List Nat
  call : CallPoint
  firing : Nat → Option FiringRun := fun _ => none
  scaleRuns : List ScaleRun := []

/-- One step: the lookup of line 36; the send of line 37 at an instant; line 41 at
an instant; the registry write of line 42; the timeout branch of the run blocked on
a channel up to the `delete` (lines 54-55) at an instant; the `close` of line 56;
the call of `Scale` with its log lines (lines 61-64) at an instant, which is not
before the instant of the timeout branch; or the three steps of a run in one go at
one instant. -/
inductive RaceStep where
  | lookup
  | send (now : Int)
  | start (now : Int)
  | register
  | timeout (channel : Nat) (now : Int)
  | close (channel : Nat)
  | scale (channel : Nat) (now : Int)
  | timer (channel : Nat) (now : Int)
deriving DecidableEq, Repr

/-- Lines 54-55: the timer of the run blocked on `channel` has elapsed at instant
`now`, the run leaves its `select` and deletes the registry entry of its
environment, whatever channel that entry holds.  `none` when no run is blocked on
the channel or its timer has not elapsed yet. -/
def stepTimeout (s : RaceState) (channel : Nat) (now : Int) : Option RaceState :=
  match s.dispatcher.waiting channel with
  | none => none
  | some run =>
    if fireTime run ≤ now then
      some { s with
        dispatcher :=
          { s.dispatcher with
            scheduledRuns := fun e => if e = run.environmentID then none
              else s.dispatcher.scheduledRuns e,
            waiting := fun c2 => if c2 = channel then none else s.dispatcher.waiting c2,
            actions := s.dispatcher.actions ++ [.deleteEntry run.environmentID] },
        firing := fun c2 => if c2 = channel then
            some { environmentID := run.environmentID, point := .deleted, since := now }
          else s.firing c2 }
    else none

/-- Line 56: the run that deleted its entry closes its channel.  `none` when the run
of the channel is not at that statement. -/
def stepClose (s : RaceState) (channel : Nat) : Option RaceState :=
  match s.firing channel with
  | some { environmentID := environmentID, point := .deleted, since := since } =>
    some { s with
      dispatcher :=
        { s.dispatcher with actions := s.dispatcher.actions ++ [.closeChannel channel] },
      closed := channel :: s.closed,
      firing := fun c2 => if c2 = channel then
          some { environmentID := environmentID, point := .closed, since := since }
        else s.firing c2 }
  | _ => none

/-- Lines 61-64: the run that closed its channel logs, calls `Scale`, logs the error
if `Scale` returned one, and ends.  `none` when the run of the channel is not at
that statement, or when `now` is before the instant at which the run left its
`select`. -/
def stepScale (r : L0EnvironmentScaler) (s : RaceState) (channel : Nat) (now : Int) :
    Option RaceState :=
  match s.firing channel with
  | some { environmentID := environmentID, point := .closed, since := since } =>
    if since ≤ now then
      some { s with
        dispatcher :=
          { s.dispatcher with
            actions := s.dispatcher.actions ++
              ([.logScalingNow environmentID, .invokeScale environmentID] ++
                match scaleError r environmentID with
                | some err => [.logScaleError environmentID err]
                | none => []),
            scaleCalls := s.dispatcher.scaleCalls ++ [(environmentID, now)] },
        firing := fun c2 => if c2 = channel then none else s.firing c2,
        scaleRuns := s.scaleRuns ++
          [{ environmentID := environmentID, instant := now,
             result := Scale r environmentID }] }
    else none
  | _ => none

/-- The state after one step of the call `ScheduleRun(environmentID, delay)` or of a
run; `none` when the step cannot be taken now (the call or the run is not at that
statement, the send has no receiver yet, the timer has not elapsed). -/
def raceStep (r : L0EnvironmentScaler) (environmentID : String) (delay : Int)
    (s : RaceState) : RaceStep → Option RaceState
  | .lookup =>
    match s.call with
    | .notStarted =>
      match s.dispatcher.scheduledRuns environmentID with
      | some c => some { s with call := .sending c }
      | none => some { s with call := .creating }
    | _ => none
  | .send now =>
    match s.call with
    | .sending c =>
      if c ∈ s.closed then some { s with call := .panicked }
      else
        match s.dispatcher.waiting c with
        | some run =>
          some { s with
            dispatcher :=
              { s.dispatcher with
                waiting := fun c2 => if c2 = c then some (receiveDelay run delay now).1
                  else s.dispatcher.waiting c2,
                actions := s.dispatcher.actions ++ (receiveDelay run delay now).2 },
            call := .returned }
        | none => none
    | _ => none
  | .start now =>
    match s.call with
    | .creating =>
      some { s with
        dispatcher :=
          { s.dispatcher with
            waiting := fun c2 => if c2 = s.dispatcher.nextChannel then
                some { environmentID := environmentID,
                       channel := s.dispatcher.nextChannel,
                       delay := delay, armedAt := now }
              else s.dispatcher.waiting c2,
            nextChannel := s.dispatcher.nextChannel + 1,
            actions := s.dispatcher.actions ++ [.logScalingIn environmentID delay] },
        call := .registering s.dispatcher.nextChannel }
    | _ => none
  | .register =>
    match s.call with
    | .registering c =>
      some { s with
        dispatcher :=
          { s.dispatcher with
            scheduledRuns := fun e => if e = environmentID then some c
              else s.dispatcher.scheduledRuns e },
        call := .returned }
    | _ => none
  | .timeout channel now => stepTimeout s channel now
  | .close channel => stepClose s channel
  | .scale channel now => stepScale r s channel now
  | .timer channel now =>
    match stepTimeout s channel now with
    | none => none
    | some s1 =>
      match stepClose s1 channel with
      | none => none
      | some s2 => stepScale r s2 channel now

/-- The state after a sequence of steps. -/
def raceSteps (r : L0EnvironmentScaler) (environmentID : String) (delay : Int) :
    RaceState → List RaceStep → Option RaceState
  | s, [] => some s
  | s, step :: rest =>
    match raceStep r environmentID delay s step with
    | none => none
    | some s2 => raceSteps r environmentID delay s2 rest

/-- The state of `NewL0EnvironmentScaler`: an empty registry, no goroutine, no call
under way. -/
def initialRaceState : RaceState :=
  { dispatcher := emptyDispatcher, closed := [], call := .notStarted }

/-- The state after `ScheduleRun("e", 5)` at instant 0 on the initial state: one run
for environment `e` is blocked on channel 0 and registered, and the call has
returned. -/
def armedRaceState : RaceState :=
  { dispatcher := armedDispatcher, closed := [], call := .returned }

/-- The caller makes its next call. -/
def nextCall (s : RaceState) : RaceState := { s with call := .notStarted }

/-- The states that the steps lead to from the initial one.  The caller makes one
call after the other, each with an environment and a delay of its own; the
goroutines step in between as they can.  (The environment and the delay are left
free at every step, so more states than those of the program are included.) -/
inductive Reachable (r : L0EnvironmentScaler) : RaceState → Prop where
  | initial : Reachable r initialRaceState
  | step (s s2 : RaceState) (environmentID : String) (delay : Int) (step : RaceStep) :
      Reachable r s → raceStep r environmentID delay s step = some s2 → Reachable r s2
  | next (s : RaceState) :
      Reachable r s → (s.call = .returned ∨ s.call = .panicked) → Reachable r (nextCall s)

/-- Channels are made in order and a goroutine is either blocked in its `select` or
past its timeout branch: no goroutine is on a channel not made yet, and no channel
has both a blocked goroutine and one past its timeout branch. -/
def ChannelsInOrder (s : RaceState) : Prop :=
  (∀ c, s.dispatcher.nextChannel ≤ c → s.dispatcher.waiting c = none ∧ s.firing c = none) ∧
  (∀ c run, s.dispatcher.waiting c = some run → s.firing c = none)

/-- The goroutine of channel `c` has ended: the channel was made, and no goroutine is
blocked on it or past its timeout branch. -/
def RunEnded (s : RaceState) (c : Nat) : Prop :=
  c < s.dispatcher.nextChannel ∧ s.dispatcher.waiting c = none ∧ s.firing c = none

/-- Every closed channel was made before. -/
def ClosedChannelsMade (s : RaceState) : Prop :=
  ∀ c ∈ s.closed, c < s.dispatcher.nextChannel

/-! ## Environment variable overrides of `task create` (cli/command/task_command.go) -/

/-- The record `models.ContainerOverride` as `parseOverrides` fills it in.  The map
`EnvironmentOverrides` is a list of key-value pairs, one pair per key. -/
structure ContainerOverride where
  ContainerName : String
  EnvironmentOverrides : List (String × String)
deriving DecidableEq, Repr

/-- The separator test handed to `strings.FieldsFunc` in lines 264-266. -/
def isSeparator (ch : Char) : Bool := ch == ':' || ch == '='

/-- The scan of `strings.FieldsFunc` (Go standard library) over the remaining
characters, with the field collected so far: the string is split at each run of
characters satisfying `f`, and empty fields are dropped. -/
def fieldsFrom (f : Char → Bool) : List Char → List Char → List (List Char)
  | [], cur => if cur.isEmpty then [] else [cur]
  | ch :: rest, cur =>
    if f ch then
      if cur.isEmpty then fieldsFrom f rest [] else cur :: fieldsFrom f rest []
    else fieldsFrom f rest (cur ++ [ch])

/-- The function `strings.FieldsFunc(s, f)` of the Go standard library. -/
def FieldsFunc (s : String) (f : Char → Bool) : List String :=
  (fieldsFrom f s.data []).map String.mk

/-- The map assignment `m[key] = val` on a list of key-value pairs. -/
def mapSet (m : List (String × String)) (key val : String) : List (String × String) :=
  if m.any (fun kv => kv.1 == key) then
    m.map (fun kv => if kv.1 = key then (key, val) else kv)
  else m ++ [(key, val)]

/-- Lines 276-283: the entry of `container` in `catalog` is made if it is missing, and
`key` is set to `val` in its `EnvironmentOverrides`. -/
def addOverride (catalog : List ContainerOverride) (container key val : String) :
    List ContainerOverride :=
  if catalog.any (fun o => o.ContainerName == container) then
    catalog.map (fun o =>
      if o.ContainerName = container then
        { o with EnvironmentOverrides := mapSet o.EnvironmentOverrides key val }
      else o)
  else
    catalog ++ [{ ContainerName := container, EnvironmentOverrides := mapSet [] key val }]

/-- The message of the usage error of line 269. -/
def usageErrorText : String := "Environment Variable Override format is: CONTAINER:VAR=VAL"

/-- The loop of lines 263-284 over the remaining overrides, followed by lines 286-291:
the overrides of the catalog are returned (in the order in which their containers
were first seen; the code returns them in the iteration order of a Go map). -/
def parseOverridesFrom (catalog : List ContainerOverride) :
    List String → Except String (List ContainerOverride)
  | [] => .ok catalog
  | o :: rest =>
    match FieldsFunc o isSeparator with
    | [container, key, val] => parseOverridesFrom (addOverride catalog container key val) rest
    | _ => .error usageErrorText

/-- The function `parseOverrides` (lines 260-293). -/
def parseOverrides (overrides : List String) : Except String (List ContainerOverride) :=
  parseOverridesFrom [] overrides

/-! ## Removal of tags of tasks that are gone (api/tag/daemon.go, api/logic/tag_janitor.go) -/

/-- The field of `models.TaskSummary` that the tag daemon and the tag janitor read. -/
structure TaskSummary where
  TaskID : String
deriving DecidableEq, Repr

/-- The record `models.Tag`. -/
structure Tag where
  EntityID : String
  EntityType : String
  Key : String
  Value : String
deriving DecidableEq, Repr

/-- The two methods of the tag store that are called.  `SelectByType` returns the pair
`(tags, err)`; `Delete k entityType entityID key` is the error returned by the call
made after `k` earlier `Delete` calls of the same run. -/
structure TagStore where
  SelectByType : String → List Tag × Option String
  Delete : Nat → String → String → String → Option String

/-- The loop of lines 26-33 of daemon.go over the remaining tags, after `k` `Delete`
calls; `m` is the map of lines 21-24.  The result is the returned error and the
tags for which `Delete` was called, in order. -/
def daemonLoop (store : TagStore) (m : String → Bool) :
    List Tag → Nat → Option String × List Tag
  | [], _ => (none, [])
  | tag :: rest, k =>
    if !m tag.EntityID then
      match store.Delete k tag.EntityType tag.EntityID tag.Key with
      | some err => (some err, [tag])
      | none => ((daemonLoop store m rest (k + 1)).1, tag :: (daemonLoop store m rest (k + 1)).2)
    else daemonLoop store m rest k

/-- The function returned by `NewDaemonFN(tagStore, taskProvider)` (lines 10-36), with
`taskList` the result of `taskProvider.List()`.  The result is the returned error and
the tags for which `tagStore.Delete` was called, in order. -/
def NewDaemonFN (store : TagStore) (taskList : Except String (List TaskSummary)) :
    Option String × List Tag :=
  match taskList with
  | .error err => (some err, [])
  | .ok tasks =>
    match store.SelectByType "task" with
    | (_, some err) => (some err, [])
    | (tags, none) => daemonLoop store (fun id => tasks.any (fun task => task.TaskID == id)) tags 0

/-- The tags whose `EntityID` is not the `TaskID` of any listed task, in tag order. -/
def orphanedTags (tasks : List TaskSummary) (tags : List Tag) : List Tag :=
  tags.filter (fun tag => !tasks.any (fun task => task.TaskID == tag.EntityID))

/-- What `TagJanitor.pulse` does that can be observed: the log lines of lines 46, 62,
69 and 73 and the calls of `TagStore.Delete` of line 68. -/
inductive JanitorEvent where
  | logListFailed (err : String)
  | logQueryFailed (err : String)
  | callDelete (tag : Tag)
  | logDeleteFailed (tag : Tag) (err : String)
  | logDeleted (entityID : String)
deriving DecidableEq, Repr

/-- The loop of lines 66-75 of tag_janitor.go over the remaining tags, after `k`
`Delete` calls. -/
def pulseLoop (store : TagStore) (taskExists : String → Bool) :
    List Tag → Nat → List JanitorEvent
  | [], _ => []
  | tag :: rest, k =>
    if !taskExists tag.EntityID then
      match store.Delete k tag.EntityType tag.EntityID tag.Key with
      | some err =>
        .callDelete tag :: .logDeleteFailed tag err :: pulseLoop store taskExists rest (k + 1)
      | none =>
        .callDelete tag :: .logDeleted tag.EntityID :: pulseLoop store taskExists rest (k + 1)
    else pulseLoop store taskExists rest k

/-- The method `TagJanitor.pulse` (lines 43-78), with `taskList` the result of
`TaskLogic.ListTasks()`.  The result is the returned error (`some [err]` for the
error of `ListTasks`, otherwise `errors.MultiError(errs)` for the slice `errs` of line
65, to which nothing is appended) and the events in order. -/
def pulse (store : TagStore) (taskList : Except String (List TaskSummary)) :
    Option (List String) × List JanitorEvent :=
  match taskList with
  | .error err => (some [err], [.logListFailed err])
  | .ok tasks =>
    let taskExists := fun id => tasks.any (fun task => task.TaskID == id)
    let selected := store.SelectByType "task"
    let queryLog := match selected.2 with
      | some err => [JanitorEvent.logQueryFailed err]
      | none => []
    (MultiError [], queryLog ++ pulseLoop store taskExists selected.1 0)

/-- The `Delete` calls among the events, in order. -/
def deleteCalls : List JanitorEvent → List Tag
  | [] => []
  | .callDelete tag :: rest => tag :: deleteCalls rest
  | _ :: rest => deleteCalls rest

/-- A tag store that lists the three tags of tasks `t1`, `gone1` and `gone2` and
whose `Delete` fails on its first call only. -/
def exampleTagStore : TagStore :=
  { SelectByType := fun _ =>
      ([{ EntityID := "t1", EntityType := "task", Key := "name", Value := "a" },
        { EntityID := "gone1", EntityType := "task", Key := "name", Value := "b" },
        { EntityID := "gone2", EntityType := "task", Key := "name", Value := "c" }], none),
    Delete := fun k _ _ _ => if k = 0 then some "delete failed" else none }

/-! ## Resource accounting of a single provider -/

theorem hasResourcesFor_iff (p : ResourceProvider) (c : ResourceConsumer) :
    HasResourcesFor p c = true ↔
      c.Memory ≤ p.availableMemory ∧ ∀ port ∈ c.Ports, port ∉ p.usedPorts := by
  simp [HasResourcesFor, List.all_eq_true]

theorem hasResourcesFor_eq_false_iff (p : ResourceProvider) (c : ResourceConsumer) :
    HasResourcesFor p c = false ↔
      (∃ port ∈ c.Ports, port ∈ p.usedPorts) ∨ p.availableMemory < c.Memory := by
  rw [← Bool.not_eq_true, hasResourcesFor_iff]
  constructor
  · intro h
    by_cases hm : c.Memory ≤ p.availableMemory
    · left
      by_contra hne
      exact h ⟨hm, fun port hp hu => hne ⟨port, hp, hu⟩⟩
    · right
      exact not_le.mp hm
  · rintro (⟨port, hp, hu⟩ | hlt) ⟨hm, hfree⟩
    · exact hfree port hp hu
    · exact absurd hm (not_le.mpr hlt)

theorem subtract_of_fits (p : ResourceProvider) (c : ResourceConsumer)
    (h : HasResourcesFor p c = true) :
    SubtractResourcesFor p c =
      ({ p with availableMemory := p.availableMemory - c.Memory,
                usedPorts := p.usedPorts ++ c.Ports, inUse := true }, none) := by
  simp [SubtractResourcesFor, h]

theorem subtract_of_not_fits (p : ResourceProvider) (c : ResourceConsumer)
    (h : HasResourcesFor p c = false) :
    (SubtractResourcesFor p c).1 = p ∧ (SubtractResourcesFor p c).2.isSome = true := by
  simp [SubtractResourcesFor, h]

/-! ## The scan over the sorted providers -/

theorem scan_none (c : ResourceConsumer) (l : List ResourceProvider)
    (h : ∀ q ∈ l, HasResourcesFor q c = false) : scanProviders c l = (l, false) := by
  induction l with
  | nil => rfl
  | cons a l ih =>
    have ha : HasResourcesFor a c = false := h a (List.mem_cons_self a l)
    have hl := ih (fun q hq => h q (List.mem_cons_of_mem a hq))
    simp [scanProviders, ha, hl]

theorem scan_found (c : ResourceConsumer) (l1 l2 : List ResourceProvider)
    (p : ResourceProvider) (h1 : ∀ q ∈ l1, HasResourcesFor q c = false)
    (hp : HasResourcesFor p c = true) :
    scanProviders c (l1 ++ p :: l2) = (l1 ++ (SubtractResourcesFor p c).1 :: l2, true) := by
  induction l1 with
  | nil => simp [scanProviders, hp]
  | cons a l ih =>
    have ha : HasResourcesFor a c = false := h1 a (List.mem_cons_self a l)
    have hl := ih (fun q hq => h1 q (List.mem_cons_of_mem a hq))
    simp [scanProviders, ha, hl]

/-- Every list either has no provider with resources for `c`, or splits at the
first provider that has. -/
theorem first_fit_split (c : ResourceConsumer) (l : List ResourceProvider) :
    (∀ q ∈ l, HasResourcesFor q c = false) ∨
    ∃ l1 p l2, l = l1 ++ p :: l2 ∧ (∀ q ∈ l1, HasResourcesFor q c = false) ∧
      HasResourcesFor p c = true := by
  induction l with
  | nil => left; intro q hq; cases hq
  | cons a l ih =>
    cases ha : HasResourcesFor a c
    · rcases ih with hnone | ⟨l1, p, l2, hl, h1, hp⟩
      · left
        intro q hq
        rcases List.mem_cons.1 hq with rfl | hq
        · exact ha
        · exact hnone q hq
      · right
        refine ⟨a :: l1, p, l2, by rw [hl]; rfl, ?_, hp⟩
        intro q hq
        rcases List.mem_cons.1 hq with rfl | hq
        · exact ha
        · exact h1 q hq
    · right
      exact ⟨[], a, l, rfl, fun q hq => (by cases hq), ha⟩

theorem scan_flag_iff (c : ResourceConsumer) (l : List ResourceProvider) :
    (scanProviders c l).2 = true ↔ ∃ q ∈ l, HasResourcesFor q c = true := by
  rcases first_fit_split c l with hnone | ⟨l1, p, l2, hl, h1, hp⟩
  · rw [scan_none c l hnone]
    constructor
    · intro h; cases h
    · rintro ⟨q, hq, hfit⟩
      rw [hnone q hq] at hfit
      cases hfit
  · rw [hl, scan_found c l1 l2 p h1 hp]
    constructor
    · intro _
      exact ⟨p, by simp, hp⟩
    · intro _; rfl

/-! ## The two sorting passes -/

theorem sortByMemory_perm (l : List ResourceProvider) : (SortProvidersByMemory l).Perm l :=
  List.perm_insertionSort _ l

theorem sortByUsage_perm (l : List ResourceProvider) : (SortProvidersByUsage l).Perm l := by
  unfold SortProvidersByUsage
  exact List.filter_append_perm (fun p => p.inUse) l

theorem sortedProviders_perm (l : List ResourceProvider) : (sortedProviders l).Perm l :=
  (sortByUsage_perm _).trans (sortByMemory_perm l)

theorem mem_sortedProviders (l : List ResourceProvider) (q : ResourceProvider) :
    q ∈ sortedProviders l ↔ q ∈ l :=
  (sortedProviders_perm l).mem_iff

theorem sortedProviders_length (l : List ResourceProvider) :
    (sortedProviders l).length = l.length :=
  (sortedProviders_perm l).length_eq

theorem sortByMemory_sorted (l : List ResourceProvider) :
    (SortProvidersByMemory l).Pairwise (fun a b => a.availableMemory ≤ b.availableMemory) := by
  unfold SortProvidersByMemory
  have : IsTotal ResourceProvider (fun a b => a.availableMemory ≤ b.availableMemory) :=
    ⟨fun a b => le_total a.availableMemory b.availableMemory⟩
  have : IsTrans ResourceProvider (fun a b => a.availableMemory ≤ b.availableMemory) :=
    ⟨fun a b c hab hbc => le_trans hab hbc⟩
  exact List.sorted_insertionSort _ l

theorem sortedProviders_pairwise (l : List ResourceProvider) :
    (sortedProviders l).Pairwise ScanOrder := by
  unfold sortedProviders SortProvidersByUsage
  have hs := sortByMemory_sorted l
  rw [List.pairwise_append]
  refine ⟨?_, ?_, ?_⟩
  · refine List.Pairwise.imp_of_mem ?_ (hs.filter _)
    intro a b ha _ hab
    have hau : a.inUse = true := by simpa using (List.mem_filter.1 ha).2
    exact ⟨fun _ => hau, fun _ => hab⟩
  · refine List.Pairwise.imp_of_mem ?_ (hs.filter _)
    intro a b _ hb hab
    have hbu : b.inUse = false := by simpa using (List.mem_filter.1 hb).2
    exact ⟨fun h => (by rw [hbu] at h; cases h), fun _ => hab⟩
  · intro a ha b hb
    have hau : a.inUse = true := by simpa using (List.mem_filter.1 ha).2
    have hbu : b.inUse = false := by simpa using (List.mem_filter.1 hb).2
    exact ⟨fun _ => hau, fun h => (by rw [hau, hbu] at h; cases h)⟩

/-! ## One iteration of the consumer loop -/

theorem packConsumer_fit (pm : ProviderManager) (env : String) (st : LoopState)
    (c : ResourceConsumer) (l1 l2 : List ResourceProvider) (p : ResourceProvider)
    (hs : sortedProviders st.providers = l1 ++ p :: l2)
    (h1 : ∀ q ∈ l1, HasResourcesFor q c = false) (hp : HasResourcesFor p c = true) :
    packConsumer pm env st c =
      .ok { providers := l1 ++ (SubtractResourcesFor p c).1 :: l2, errs := st.errs,
            calls := st.calls } := by
  unfold sortedProviders at hs
  simp only [packConsumer, hs, scan_found c l1 l2 p h1 hp]
  rfl

theorem packConsumer_nofit (pm : ProviderManager) (env : String) (st : LoopState)
    (c : ResourceConsumer) (hnone : ∀ q ∈ st.providers, HasResourcesFor q c = false) :
    packConsumer pm env st c =
      match pm.CalculateNewProvider env st.calls with
      | .error err => .error err
      | .ok newProvider =>
        if HasResourcesFor newProvider c = false then
          .ok { providers := sortedProviders st.providers,
                errs := st.errs ++ [unfittableText c], calls := st.calls + 1 }
        else
          .ok { providers := sortedProviders st.providers ++
                  [(SubtractResourcesFor newProvider c).1],
                errs := st.errs, calls := st.calls + 1 } := by
  have hn : ∀ q ∈ sortedProviders st.providers, HasResourcesFor q c = false :=
    fun q hq => hnone q ((mem_sortedProviders _ q).1 hq)
  have hscan := scan_none c _ hn
  unfold sortedProviders at hscan
  simp only [packConsumer, hscan]
  cases pm.CalculateNewProvider env st.calls with
  | error e => simp
  | ok newProvider =>
    cases hfit : HasResourcesFor newProvider c <;> simp [sortedProviders]

theorem packConsumers_append (pm : ProviderManager) (env : String) (st : LoopState)
    (pre post : List ResourceConsumer) (mid : LoopState)
    (h : packConsumers pm env st pre = .ok mid) :
    packConsumers pm env st (pre ++ post) = packConsumers pm env mid post := by
  induction pre generalizing st with
  | nil =>
    simp only [packConsumers] at h
    cases h
    rfl
  | cons c pre ih =>
    simp only [packConsumers, List.cons_append] at h ⊢
    cases hstep : packConsumer pm env st c with
    | error e => rw [hstep] at h; cases h
    | ok st1 =>
      rw [hstep] at h
      exact ih st1 h

theorem packConsumers_cons (pm : ProviderManager) (env : String) (st st1 : LoopState)
    (c : ResourceConsumer) (post : List ResourceConsumer)
    (h : packConsumer pm env st c = .ok st1) :
    packConsumers pm env st (c :: post) = packConsumers pm env st1 post := by
  simp only [packConsumers, h]

/-- When some provider has resources for `c`, the scanned list splits at the
provider the scan chooses, and every provider with resources for `c` is the chosen
one or comes after it in the scan order. -/
theorem chosen_spec (l : List ResourceProvider) (c : ResourceConsumer)
    (hfit : ∃ q ∈ l, HasResourcesFor q c = true) :
    ∃ l1 p l2, sortedProviders l = l1 ++ p :: l2 ∧
      (∀ q ∈ l1, HasResourcesFor q c = false) ∧ HasResourcesFor p c = true ∧ p ∈ l ∧
      (∀ q ∈ l, HasResourcesFor q c = true → q = p ∨ ScanOrder p q) := by
  rcases first_fit_split c (sortedProviders l) with hnone | ⟨l1, p, l2, hs, h1, hp⟩
  · rcases hfit with ⟨q, hq, hqfit⟩
    rw [hnone q ((mem_sortedProviders l q).2 hq)] at hqfit
    cases hqfit
  · refine ⟨l1, p, l2, hs, h1, hp, ?_, ?_⟩
    · apply (mem_sortedProviders l p).1
      rw [hs]
      simp
    · intro q hq hqfit
      have hq2 : q ∈ l1 ++ p :: l2 := hs ▸ (mem_sortedProviders l q).2 hq
      rcases List.mem_append.1 hq2 with hq1 | hq1
      · rw [h1 q hq1] at hqfit
        cases hqfit
      · rcases List.mem_cons.1 hq1 with rfl | hq3
        · left; rfl
        · right
          have hpw := sortedProviders_pairwise l
          rw [hs] at hpw
          exact List.rel_of_pairwise_cons (List.pairwise_append.1 hpw).2.1 hq3

theorem subtract_inUse (p : ResourceProvider) (c : ResourceConsumer)
    (h : HasResourcesFor p c = true) : (SubtractResourcesFor p c).1.inUse = true := by
  rw [subtract_of_fits p c h]

theorem subtract_none (p : ResourceProvider) (c : ResourceConsumer)
    (h : HasResourcesFor p c = true) : (SubtractResourcesFor p c).2 = none := by
  rw [subtract_of_fits p c h]

theorem unusedProvidersOf_perm (l l2 : List ResourceProvider) (h : l.Perm l2) :
    (unusedProvidersOf l).Perm (unusedProvidersOf l2) :=
  h.filter _

/-- The three ways an iteration can end without aborting the pass: the consumer
was placed on the first fitting provider of the scanned list; or nothing fitted
and the fresh provider did not fit either (an error is recorded); or nothing fitted
and the fresh provider, after the subtraction, was appended. -/
theorem packConsumer_cases (pm : ProviderManager) (env : String) (st st1 : LoopState)
    (c : ResourceConsumer) (h : packConsumer pm env st c = .ok st1) :
    (∃ l1 p l2, sortedProviders st.providers = l1 ++ p :: l2 ∧
        (∀ q ∈ l1, HasResourcesFor q c = false) ∧ HasResourcesFor p c = true ∧
        st1 = { providers := l1 ++ (SubtractResourcesFor p c).1 :: l2, errs := st.errs,
                calls := st.calls }) ∨
    ((∀ q ∈ st.providers, HasResourcesFor q c = false) ∧
      ∃ newProvider, pm.CalculateNewProvider env st.calls = .ok newProvider ∧
        ((HasResourcesFor newProvider c = false ∧
            st1 = { providers := sortedProviders st.providers,
                    errs := st.errs ++ [unfittableText c], calls := st.calls + 1 }) ∨
          (HasResourcesFor newProvider c = true ∧
            st1 = { providers := sortedProviders st.providers ++
                      [(SubtractResourcesFor newProvider c).1],
                    errs := st.errs, calls := st.calls + 1 }))) := by
  rcases first_fit_split c (sortedProviders st.providers) with hnone | ⟨l1, p, l2, hs, h1, hp⟩
  · right
    have hn : ∀ q ∈ st.providers, HasResourcesFor q c = false :=
      fun q hq => hnone q ((mem_sortedProviders _ q).2 hq)
    refine ⟨hn, ?_⟩
    rw [packConsumer_nofit pm env st c hn] at h
    cases hcall : pm.CalculateNewProvider env st.calls with
    | error e => rw [hcall] at h; cases h
    | ok newProvider =>
      rw [hcall] at h
      refine ⟨newProvider, rfl, ?_⟩
      cases hfit : HasResourcesFor newProvider c
      · simp only [hfit, if_true] at h
        cases h
        left
        exact ⟨rfl, rfl⟩
      · simp only [hfit] at h
        cases h
        right
        exact ⟨rfl, rfl⟩
  · left
    rw [packConsumer_fit pm env st c l1 l2 p hs h1 hp] at h
    cases h
    exact ⟨l1, p, l2, hs, h1, hp, rfl⟩

theorem subtract_nonneg (p : ResourceProvider) (c : ResourceConsumer)
    (h : HasResourcesFor p c = true) : 0 ≤ (SubtractResourcesFor p c).1.availableMemory := by
  rw [subtract_of_fits p c h]
  have hm := ((hasResourcesFor_iff p c).1 h).1
  show 0 ≤ p.availableMemory - c.Memory
  omega

theorem packConsumer_nonneg (pm : ProviderManager) (env : String) (st st1 : LoopState)
    (c : ResourceConsumer) (hin : ∀ p ∈ st.providers, 0 ≤ p.availableMemory)
    (h : packConsumer pm env st c = .ok st1) : ∀ p ∈ st1.providers, 0 ≤ p.availableMemory := by
  have hsorted : ∀ p ∈ sortedProviders st.providers, 0 ≤ p.availableMemory :=
    fun p hp => hin p ((mem_sortedProviders _ p).1 hp)
  rcases packConsumer_cases pm env st st1 c h with
    ⟨l1, p, l2, hs, _, hp, rfl⟩ | ⟨_, newProvider, _, ⟨_, rfl⟩ | ⟨hfit, rfl⟩⟩
  · rw [hs] at hsorted
    intro q hq
    rcases List.mem_append.1 hq with hq1 | hq1
    · exact hsorted q (List.mem_append_left _ hq1)
    · rcases List.mem_cons.1 hq1 with rfl | hq2
      · exact subtract_nonneg p c hp
      · exact hsorted q (List.mem_append_right _ (List.mem_cons_of_mem _ hq2))
  · exact hsorted
  · intro q hq
    rcases List.mem_append.1 hq with hq1 | hq1
    · exact hsorted q hq1
    · rcases List.mem_singleton.1 hq1 with rfl
      exact subtract_nonneg newProvider c hfit

theorem packConsumers_nonneg (pm : ProviderManager) (env : String) (st st1 : LoopState)
    (cs : List ResourceConsumer) (hin : ∀ p ∈ st.providers, 0 ≤ p.availableMemory)
    (h : packConsumers pm env st cs = .ok st1) : ∀ p ∈ st1.providers, 0 ≤ p.availableMemory := by
  induction cs generalizing st with
  | nil =>
    simp only [packConsumers] at h
    cases h
    exact hin
  | cons c cs ih =>
    simp only [packConsumers] at h
    cases hstep : packConsumer pm env st c with
    | error e => rw [hstep] at h; cases h
    | ok st2 =>
      rw [hstep] at h
      exact ih st2 (packConsumer_nonneg pm env st st2 c hin hstep) h

theorem runBasicScaler_ok (env : String) (providers : List ResourceProvider)
    (consumers : List ResourceConsumer) (pm : ProviderManager) (out : RunOutcome)
    (h : RunBasicScaler env providers consumers pm = .ok out) :
    ∃ st, packConsumers pm env (initialState providers) consumers = .ok st ∧
      out = finishRun pm env (providers.length : Int) consumers st := by
  unfold RunBasicScaler at h
  cases hloop : packConsumers pm env (initialState providers) consumers with
  | error e => rw [hloop] at h; cases h
  | ok st =>
    rw [hloop] at h
    cases h
    exact ⟨st, rfl, rfl⟩

/-- C7: `HasResourcesFor p c` is true exactly when the memory of `c` is at most the
available memory of `p` and no port of `c` is among the used ports of `p`; the
memory bound is inclusive, and a consumer with zero memory and no ports fits every
provider whose available memory is a byte quantity (not negative). -/
theorem C7_hasResourcesFor_spec (p : ResourceProvider) (c : ResourceConsumer) :
    (HasResourcesFor p c = true ↔
        c.Memory ≤ p.availableMemory ∧ ∀ port ∈ c.Ports, port ∉ p.usedPorts) ∧
    (c.Memory = p.availableMemory → (∀ port ∈ c.Ports, port ∉ p.usedPorts) →
        HasResourcesFor p c = true) ∧
    (0 ≤ p.availableMemory → c.Memory = 0 → c.Ports = [] → HasResourcesFor p c = true) := by
  refine ⟨hasResourcesFor_iff p c, ?_, ?_⟩
  · intro hm hfree
    exact (hasResourcesFor_iff p c).2 ⟨le_of_eq hm, hfree⟩
  · intro h0 hm hports
    refine (hasResourcesFor_iff p c).2 ⟨by rw [hm]; exact h0, ?_⟩
    rw [hports]
    intro port hp
    cases hp

/-- C7 at the provider of `TestResourceProviderHasMemoryFor` (1 GB, ports 80 and
8000 used): the consumer needing port 8080 and exactly 1 GB fits, and the empty
consumer fits. -/
theorem C7_hasResourcesFor_spec_witness :
    HasResourcesFor (NewResourceProvider "" true GB [80, 8000])
        { ID := "", Memory := GB, Ports := [8080] } = true ∧
    HasResourcesFor (NewResourceProvider "" true GB [80, 8000])
        { ID := "", Memory := 0, Ports := [] } = true :=
  ⟨(C7_hasResourcesFor_spec (NewResourceProvider "" true GB [80, 8000])
      { ID := "", Memory := GB, Ports := [8080] }).2.1 rfl (by decide),
   (C7_hasResourcesFor_spec (NewResourceProvider "" true GB [80, 8000])
      { ID := "", Memory := 0, Ports := [] }).2.2 (by decide) rfl rfl⟩

/-- C8: when `p` has resources for `c`, `SubtractResourcesFor` returns no error,
the available memory drops by the memory of `c`, the ports of `c` are appended to
the used ports in order, and the provider is in use afterwards (nothing else
changes); the three subtractions of `TestResourceProviderSubtractResourcesFor` on a
fresh 1 GB provider succeed and leave ports `[80, 8000, 9090]` and `1 GB - 2 MB`. -/
theorem C8_subtract_success (p : ResourceProvider) (c : ResourceConsumer)
    (h : HasResourcesFor p c = true) :
    ((SubtractResourcesFor p c).2 = none ∧
      (SubtractResourcesFor p c).1.availableMemory = p.availableMemory - c.Memory ∧
      (SubtractResourcesFor p c).1.usedPorts = p.usedPorts ++ c.Ports ∧
      IsInUse (SubtractResourcesFor p c).1 = true ∧
      (SubtractResourcesFor p c).1.ID = p.ID) ∧
    (let p0 := NewResourceProvider "" false GB []
     let r1 := SubtractResourcesFor p0 { ID := "", Memory := 0, Ports := [80] }
     let r2 := SubtractResourcesFor r1.1 { ID := "", Memory := MB, Ports := [] }
     let r3 := SubtractResourcesFor r2.1 { ID := "", Memory := MB, Ports := [8000, 9090] }
     r1.2 = none ∧ r2.2 = none ∧ r3.2 = none ∧
     r3.1.usedPorts = [80, 8000, 9090] ∧ r3.1.availableMemory = GB - MB * 2 ∧
     IsInUse r3.1 = true) := by
  refine ⟨?_, ?_⟩
  · rw [subtract_of_fits p c h]
    simp [IsInUse]
  · decide

/-- C8 at a fresh 1 GB provider and a consumer that needs no memory and port 80. -/
theorem C8_subtract_success_witness :
    (SubtractResourcesFor (NewResourceProvider "" false GB [])
        { ID := "", Memory := 0, Ports := [80] }).2 = none ∧
    (SubtractResourcesFor (NewResourceProvider "" false GB [])
        { ID := "", Memory := 0, Ports := [80] }).1.usedPorts = [] ++ [80] ∧
    IsInUse (SubtractResourcesFor (NewResourceProvider "" false GB [])
        { ID := "", Memory := 0, Ports := [80] }).1 = true :=
  have h := (C8_subtract_success (NewResourceProvider "" false GB [])
    { ID := "", Memory := 0, Ports := [80] } (by decide)).1
  ⟨h.1, h.2.2.1, h.2.2.2.1⟩

/-- C9: `SubtractResourcesFor` returns an error exactly when `HasResourcesFor` is
false, that is when a required port is already used or more memory is needed than
is available; and when it returns an error the provider is exactly what it was
before the call. -/
theorem C9_subtract_error (p : ResourceProvider) (c : ResourceConsumer) :
    ((SubtractResourcesFor p c).2.isSome = true ↔ HasResourcesFor p c = false) ∧
    (HasResourcesFor p c = false ↔
      (∃ port ∈ c.Ports, port ∈ p.usedPorts) ∨ p.availableMemory < c.Memory) ∧
    ((SubtractResourcesFor p c).2.isSome = true →
      (SubtractResourcesFor p c).1 = p ∧
      (SubtractResourcesFor p c).1.availableMemory = p.availableMemory ∧
      (SubtractResourcesFor p c).1.usedPorts = p.usedPorts ∧
      (SubtractResourcesFor p c).1.inUse = p.inUse) := by
  have key : (SubtractResourcesFor p c).2.isSome = true ↔ HasResourcesFor p c = false := by
    cases h : HasResourcesFor p c
    · simp [(subtract_of_not_fits p c h).2]
    · simp [subtract_of_fits p c h]
  refine ⟨key, hasResourcesFor_eq_false_iff p c, ?_⟩
  intro herr
  have hp := (subtract_of_not_fits p c (key.1 herr)).1
  rw [hp]
  exact ⟨rfl, rfl, rfl, rfl⟩

/-- C9 at the provider of `TestResourceProviderSubtractResourcesForError` (1 GB,
ports 80 and 8000 used) and the consumer that needs 2 GB: the call fails and the
provider is untouched. -/
theorem C9_subtract_error_witness :
    (SubtractResourcesFor (NewResourceProvider "" true GB [80, 8000])
        { ID := "", Memory := GB * 2, Ports := [] }).2.isSome = true ∧
    (SubtractResourcesFor (NewResourceProvider "" true GB [80, 8000])
        { ID := "", Memory := GB * 2, Ports := [] }).1 =
      NewResourceProvider "" true GB [80, 8000] :=
  ⟨(C9_subtract_error (NewResourceProvider "" true GB [80, 8000])
      { ID := "", Memory := GB * 2, Ports := [] }).1.2 (by decide),
   ((C9_subtract_error (NewResourceProvider "" true GB [80, 8000])
      { ID := "", Memory := GB * 2, Ports := [] }).2.2
        ((C9_subtract_error (NewResourceProvider "" true GB [80, 8000])
          { ID := "", Memory := GB * 2, Ports := [] }).1.2 (by decide))).1⟩

/-! ## Placement policy of one iteration -/

/-- C4: in one iteration of the consumer loop at most one provider is modified (the
list after the iteration is the scanned list, or the scanned list with one new
provider appended, or the scanned list with one provider replaced by its
`SubtractResourcesFor` result); and if some provider has resources for `c`, the
first such provider in the sorted order receives `SubtractResourcesFor(c)`, which
succeeds, every other provider is left exactly as it was, the error list is
untouched, and `CalculateNewProvider` is not called: the call counter is unchanged
and the iteration is the same under every provider manager. -/
theorem C4_first_fit_only (pm : ProviderManager) (env : String) (st : LoopState)
    (c : ResourceConsumer) :
    (∀ st1, packConsumer pm env st c = .ok st1 →
        st1.providers = sortedProviders st.providers ∨
        (∃ newProvider, st1.providers = sortedProviders st.providers ++ [newProvider]) ∨
        (∃ l1 p l2, sortedProviders st.providers = l1 ++ p :: l2 ∧
          st1.providers = l1 ++ (SubtractResourcesFor p c).1 :: l2)) ∧
    ((∃ q ∈ st.providers, HasResourcesFor q c = true) →
      ∃ l1 p l2, sortedProviders st.providers = l1 ++ p :: l2 ∧
        (∀ q ∈ l1, HasResourcesFor q c = false) ∧ HasResourcesFor p c = true ∧
        (SubtractResourcesFor p c).2 = none ∧
        packConsumer pm env st c =
          .ok { providers := l1 ++ (SubtractResourcesFor p c).1 :: l2, errs := st.errs,
                calls := st.calls } ∧
        (∀ pm2 : ProviderManager, packConsumer pm2 env st c = packConsumer pm env st c)) := by
  constructor
  · intro st1 hst1
    rcases first_fit_split c (sortedProviders st.providers) with hnone | ⟨l1, p, l2, hs, h1, hp⟩
    · have hn : ∀ q ∈ st.providers, HasResourcesFor q c = false :=
        fun q hq => hnone q ((mem_sortedProviders _ q).2 hq)
      rw [packConsumer_nofit pm env st c hn] at hst1
      cases hcall : pm.CalculateNewProvider env st.calls with
      | error e => rw [hcall] at hst1; cases hst1
      | ok newProvider =>
        rw [hcall] at hst1
        cases hfit : HasResourcesFor newProvider c
        · simp only [hfit, if_true] at hst1
          cases hst1
          left; rfl
        · simp only [hfit] at hst1
          cases hst1
          right; left
          exact ⟨_, rfl⟩
    · rw [packConsumer_fit pm env st c l1 l2 p hs h1 hp] at hst1
      cases hst1
      right; right
      exact ⟨l1, p, l2, hs, rfl⟩
  · intro hfit
    obtain ⟨l1, p, l2, hs, h1, hp, _, _⟩ := chosen_spec st.providers c hfit
    refine ⟨l1, p, l2, hs, h1, hp, subtract_none p c hp,
      packConsumer_fit pm env st c l1 l2 p hs h1 hp, ?_⟩
    intro pm2
    rw [packConsumer_fit pm env st c l1 l2 p hs h1 hp,
      packConsumer_fit pm2 env st c l1 l2 p hs h1 hp]

/-- C4 at two idle hosts, `b` (1 GB, port 80 bound) and `a` (2 GB): a consumer that
needs port 80 skips `b`, which comes first in the sorted order, and is placed on `a`. -/
theorem C4_first_fit_only_witness :
    ∃ l1 p l2,
      sortedProviders (initialState [NewResourceProvider "a" false (2 * GB) [],
          NewResourceProvider "b" false GB [80]]).providers = l1 ++ p :: l2 ∧
      (∀ q ∈ l1, HasResourcesFor q { ID := "t", Memory := MB, Ports := [80] } = false) ∧
      HasResourcesFor p { ID := "t", Memory := MB, Ports := [80] } = true ∧
      (SubtractResourcesFor p { ID := "t", Memory := MB, Ports := [80] }).2 = none ∧
      packConsumer exampleManager "env"
          (initialState [NewResourceProvider "a" false (2 * GB) [],
            NewResourceProvider "b" false GB [80]])
          { ID := "t", Memory := MB, Ports := [80] } =
        .ok { providers :=
                l1 ++ (SubtractResourcesFor p { ID := "t", Memory := MB, Ports := [80] }).1 :: l2,
              errs := (initialState [NewResourceProvider "a" false (2 * GB) [],
                NewResourceProvider "b" false GB [80]]).errs,
              calls := (initialState [NewResourceProvider "a" false (2 * GB) [],
                NewResourceProvider "b" false GB [80]]).calls } ∧
      (∀ pm2 : ProviderManager,
        packConsumer pm2 "env"
            (initialState [NewResourceProvider "a" false (2 * GB) [],
              NewResourceProvider "b" false GB [80]])
            { ID := "t", Memory := MB, Ports := [80] } =
          packConsumer exampleManager "env"
            (initialState [NewResourceProvider "a" false (2 * GB) [],
              NewResourceProvider "b" false GB [80]])
            { ID := "t", Memory := MB, Ports := [80] }) :=
  (C4_first_fit_only exampleManager "env"
    (initialState [NewResourceProvider "a" false (2 * GB) [],
      NewResourceProvider "b" false GB [80]])
    { ID := "t", Memory := MB, Ports := [80] }).2
    ⟨NewResourceProvider "a" false (2 * GB) [], List.mem_cons_self _ _, by decide⟩

/-- C5: whenever some provider that is already in use has resources for `c`, the
provider chosen in that iteration is in use, and the unused providers after the
iteration are exactly the unused providers before it (none becomes in use).  In
particular, of an idle and an in-use 1 GB host the in-use one is chosen; and with
`[P1 in use, P2 idle, P3 idle]` (1 GB each) and one 128 MB consumer the run reports
desired 1, unused 2 and calls `ScaleTo(env, 1, [P2, P3])`; for any such three
providers and a consumer that fits `P1` the run reports desired 1, unused 2 and
hands `P2` and `P3` (in sorted order) to `ScaleTo` with desired count 1. -/
theorem C5_in_use_preferred (pm : ProviderManager) (env : String) (st : LoopState)
    (c : ResourceConsumer) :
    ((∃ q ∈ st.providers, IsInUse q = true ∧ HasResourcesFor q c = true) →
      ∃ l1 p l2, sortedProviders st.providers = l1 ++ p :: l2 ∧
        (∀ q ∈ l1, HasResourcesFor q c = false) ∧ HasResourcesFor p c = true ∧
        IsInUse p = true ∧
        packConsumer pm env st c =
          .ok { providers := l1 ++ (SubtractResourcesFor p c).1 :: l2, errs := st.errs,
                calls := st.calls } ∧
        unusedProvidersOf (l1 ++ (SubtractResourcesFor p c).1 :: l2) =
          unusedProvidersOf (sortedProviders st.providers) ∧
        (unusedProvidersOf (l1 ++ (SubtractResourcesFor p c).1 :: l2)).Perm
          (unusedProvidersOf st.providers)) ∧
    packConsumer exampleManager "env" (initialState [host "P2" false, host "P1" true])
        (task "t1" (128 * MB)) =
      .ok { providers := [NewResourceProvider "P1" true (GB - 128 * MB) [], host "P2" false],
            errs := [], calls := 0 } ∧
    (∃ out, RunBasicScaler "env" [host "P1" true, host "P2" false, host "P3" false]
        [task "t1" (128 * MB)] exampleManager = .ok out ∧
      out.info.DesiredScaleAfterRun = 1 ∧ out.info.UnusedResourceProviders = 2 ∧
      out.scaleToDesired = 1 ∧ out.scaleToUnused = [host "P2" false, host "P3" false] ∧
      out.errs = []) ∧
    (∀ P1 P2 P3 : ResourceProvider, IsInUse P1 = true → IsInUse P2 = false →
      IsInUse P3 = false → HasResourcesFor P1 c = true →
      ∃ out, RunBasicScaler env [P1, P2, P3] [c] pm = .ok out ∧
        out.info.DesiredScaleAfterRun = 1 ∧ out.info.UnusedResourceProviders = 2 ∧
        out.scaleToDesired = 1 ∧ out.scaleToUnused.Perm [P2, P3]) := by
  have main : ∀ st : LoopState,
      (∃ q ∈ st.providers, IsInUse q = true ∧ HasResourcesFor q c = true) →
      ∃ l1 p l2, sortedProviders st.providers = l1 ++ p :: l2 ∧
        (∀ q ∈ l1, HasResourcesFor q c = false) ∧ HasResourcesFor p c = true ∧
        IsInUse p = true ∧
        packConsumer pm env st c =
          .ok { providers := l1 ++ (SubtractResourcesFor p c).1 :: l2, errs := st.errs,
                calls := st.calls } ∧
        unusedProvidersOf (l1 ++ (SubtractResourcesFor p c).1 :: l2) =
          unusedProvidersOf (sortedProviders st.providers) ∧
        (unusedProvidersOf (l1 ++ (SubtractResourcesFor p c).1 :: l2)).Perm
          (unusedProvidersOf st.providers) := ?_
  refine ⟨main st, by rfl, ⟨_, rfl, by decide, by decide, by decide, by decide, by decide⟩, ?_⟩
  · intro P1 P2 P3 h1 h2 h3 hfit
    obtain ⟨l1, p, l2, hs, _, _, _, hstep, _, hperm⟩ :=
      main (initialState [P1, P2, P3]) ⟨P1, List.mem_cons_self _ _, h1, hfit⟩
    have hlen : (l1 ++ (SubtractResourcesFor p c).1 :: l2).length = 3 := by
      have hl := sortedProviders_length (initialState [P1, P2, P3]).providers
      rw [hs] at hl
      simpa using hl
    have hunused : unusedProvidersOf (initialState [P1, P2, P3]).providers = [P2, P3] := by
      simp [unusedProvidersOf, initialState, h1, h2, h3]
    rw [hunused] at hperm
    have hrun : RunBasicScaler env [P1, P2, P3] [c] pm =
        .ok (finishRun pm env (([P1, P2, P3] : List ResourceProvider).length : Int) [c]
          { providers := l1 ++ (SubtractResourcesFor p c).1 :: l2,
            errs := (initialState [P1, P2, P3]).errs,
            calls := (initialState [P1, P2, P3]).calls }) := by
      simp only [RunBasicScaler, packConsumers, hstep]
    have hdesired : ((l1 ++ (SubtractResourcesFor p c).1 :: l2).length : Int) -
        ((unusedProvidersOf (l1 ++ (SubtractResourcesFor p c).1 :: l2)).length : Int) = 1 := by
      rw [hlen, hperm.length_eq]
      rfl
    have hcount : ((unusedProvidersOf (l1 ++ (SubtractResourcesFor p c).1 :: l2)).length : Int)
        = 2 := by
      rw [hperm.length_eq]
      rfl
    exact ⟨_, hrun, hdesired, hcount, hdesired, hperm⟩
  intro st
  rintro ⟨q, hq, hqu, hqfit⟩
  obtain ⟨l1, p, l2, hs, h1, hp, _, hmin⟩ := chosen_spec st.providers c ⟨q, hq, hqfit⟩
  have hpu : p.inUse = true := by
    rcases hmin q hq hqfit with rfl | hord
    · exact hqu
    · exact hord.1 hqu
  have hsub : (SubtractResourcesFor p c).1.inUse = true := subtract_inUse p c hp
  have hkeep : unusedProvidersOf (l1 ++ (SubtractResourcesFor p c).1 :: l2) =
      unusedProvidersOf (sortedProviders st.providers) := by
    rw [hs]
    simp [unusedProvidersOf, IsInUse, List.filter_cons, hsub, hpu]
  refine ⟨l1, p, l2, hs, h1, hp, hpu, packConsumer_fit pm env st c l1 l2 p hs h1 hp, hkeep, ?_⟩
  rw [hkeep]
  exact unusedProvidersOf_perm _ _ (sortedProviders_perm st.providers)

/-- C5 at an idle and an in-use 1 GB host: the chosen provider is the one in use. -/
theorem C5_in_use_preferred_witness :
    ∃ l1 p l2,
      sortedProviders (initialState [host "P2" false, host "P1" true]).providers =
        l1 ++ p :: l2 ∧
      IsInUse p = true ∧
      unusedProvidersOf (l1 ++ (SubtractResourcesFor p (task "t1" (128 * MB))).1 :: l2) =
        unusedProvidersOf
          (sortedProviders (initialState [host "P2" false, host "P1" true]).providers) := by
  obtain ⟨l1, p, l2, hs, _, _, hpu, _, hkeep, _⟩ :=
    (C5_in_use_preferred exampleManager "env"
      (initialState [host "P2" false, host "P1" true]) (task "t1" (128 * MB))).1
      ⟨host "P1" true, by decide, by decide, by decide⟩
  exact ⟨l1, p, l2, hs, hpu, hkeep⟩

/-- C6: a consumer placed on an existing provider goes to the tightest provider of
its usage class: the chosen provider has the least available memory among the
providers of the same usage class that have resources for `c`; it is in use
whenever some in-use provider has resources for `c`, and unused when none has. -/
theorem C6_tightest_in_class (pm : ProviderManager) (env : String) (st : LoopState)
    (c : ResourceConsumer) (hfit : ∃ q ∈ st.providers, HasResourcesFor q c = true) :
    ∃ l1 p l2, sortedProviders st.providers = l1 ++ p :: l2 ∧
      (∀ q ∈ l1, HasResourcesFor q c = false) ∧ HasResourcesFor p c = true ∧
      p ∈ st.providers ∧
      packConsumer pm env st c =
        .ok { providers := l1 ++ (SubtractResourcesFor p c).1 :: l2, errs := st.errs,
              calls := st.calls } ∧
      (∀ q ∈ st.providers, IsInUse q = IsInUse p → HasResourcesFor q c = true →
        p.availableMemory ≤ q.availableMemory) ∧
      ((∃ q ∈ st.providers, IsInUse q = true ∧ HasResourcesFor q c = true) →
        IsInUse p = true ∧
        ∀ q ∈ st.providers, IsInUse q = true → HasResourcesFor q c = true →
          p.availableMemory ≤ q.availableMemory) ∧
      ((∀ q ∈ st.providers, IsInUse q = true → HasResourcesFor q c = false) →
        IsInUse p = false ∧
        ∀ q ∈ st.providers, IsInUse q = false → HasResourcesFor q c = true →
          p.availableMemory ≤ q.availableMemory) := by
  obtain ⟨l1, p, l2, hs, h1, hp, hmem, hmin⟩ := chosen_spec st.providers c hfit
  have hclass : ∀ q ∈ st.providers, IsInUse q = IsInUse p → HasResourcesFor q c = true →
      p.availableMemory ≤ q.availableMemory := by
    intro q hq hsame hqfit
    rcases hmin q hq hqfit with rfl | hord
    · exact le_refl _
    · exact hord.2 hsame.symm
  refine ⟨l1, p, l2, hs, h1, hp, hmem, packConsumer_fit pm env st c l1 l2 p hs h1 hp,
    hclass, ?_, ?_⟩
  · rintro ⟨q, hq, hqu, hqfit⟩
    have hpu : IsInUse p = true := by
      rcases hmin q hq hqfit with rfl | hord
      · exact hqu
      · exact hord.1 hqu
    exact ⟨hpu, fun r hr hru hrfit => hclass r hr (hru.trans hpu.symm) hrfit⟩
  · intro hnone
    have hpu : IsInUse p = false := by
      cases hu : IsInUse p
      · rfl
      · rw [hnone p hmem hu] at hp
        cases hp
    exact ⟨hpu, fun r hr hru hrfit => hclass r hr (hru.trans hpu.symm) hrfit⟩

/-- C6 at three hosts in use with 3 GB, 1 GB and 2 GB free and an idle host with
512 MB free: a 1.5 GB consumer goes to a host with at most 2 GB free. -/
theorem C6_tightest_in_class_witness :
    ∃ l1 p l2,
      sortedProviders (initialState [NewResourceProvider "a" true (3 * GB) [],
          NewResourceProvider "b" true GB [], NewResourceProvider "c" true (2 * GB) [],
          NewResourceProvider "d" false (512 * MB) []]).providers = l1 ++ p :: l2 ∧
      HasResourcesFor p (task "t" (1536 * MB)) = true ∧
      p.availableMemory ≤ 2 * GB := by
  obtain ⟨l1, p, l2, hs, _, hp, _, _, hclass, hin, _⟩ :=
    C6_tightest_in_class exampleManager "env"
      (initialState [NewResourceProvider "a" true (3 * GB) [],
          NewResourceProvider "b" true GB [], NewResourceProvider "c" true (2 * GB) [],
          NewResourceProvider "d" false (512 * MB) []]) (task "t" (1536 * MB))
      ⟨NewResourceProvider "c" true (2 * GB) [], by decide, by decide⟩
  exact ⟨l1, p, l2, hs, hp,
    (hin ⟨NewResourceProvider "c" true (2 * GB) [], by decide, by decide, by decide⟩).2
      (NewResourceProvider "c" true (2 * GB) []) (by decide) (by decide) (by decide)⟩

/-! ## Scaling up: fresh providers and unfittable consumers -/

/-- C2: let `st` be the loop state in which consumer `c` is reached and `proto` the
fresh prototype that `CalculateNewProvider` returns at that point.  If the memory
of `c` is at most the available memory of `proto` and no port of `c` is among the
used ports of `proto`, the iteration does not abort, records no error, and places
`c`: either `SubtractResourcesFor` succeeds on a provider of the existing list, or no
existing provider fits and `SubtractResourcesFor` succeeds on `proto`, which is
appended.  The loop then goes on with the later consumers, for every provider list
and every consumer list `pre ++ c :: post` that leads to `st`. -/
theorem C2_fitting_consumer_placed (pm : ProviderManager) (env : String) (st : LoopState)
    (c : ResourceConsumer) (proto : ResourceProvider)
    (hproto : pm.CalculateNewProvider env st.calls = .ok proto)
    (hmem : c.Memory ≤ proto.availableMemory)
    (hports : ∀ port ∈ c.Ports, port ∉ proto.usedPorts) :
    ∃ st1, packConsumer pm env st c = .ok st1 ∧ st1.errs = st.errs ∧
      ((∃ l1 p l2, sortedProviders st.providers = l1 ++ p :: l2 ∧
          HasResourcesFor p c = true ∧ (SubtractResourcesFor p c).2 = none ∧
          st1.providers = l1 ++ (SubtractResourcesFor p c).1 :: l2 ∧ st1.calls = st.calls) ∨
        ((∀ q ∈ st.providers, HasResourcesFor q c = false) ∧
          (SubtractResourcesFor proto c).2 = none ∧
          st1.providers = sortedProviders st.providers ++ [(SubtractResourcesFor proto c).1] ∧
          st1.calls = st.calls + 1)) ∧
      (∀ (providers : List ResourceProvider) (pre post : List ResourceConsumer),
        packConsumers pm env (initialState providers) pre = .ok st →
        packConsumers pm env (initialState providers) (pre ++ c :: post) =
          packConsumers pm env st1 post) := by
  have hfresh : HasResourcesFor proto c = true := (hasResourcesFor_iff proto c).2 ⟨hmem, hports⟩
  have hrun : ∀ st1, packConsumer pm env st c = .ok st1 →
      ∀ (providers : List ResourceProvider) (pre post : List ResourceConsumer),
        packConsumers pm env (initialState providers) pre = .ok st →
        packConsumers pm env (initialState providers) (pre ++ c :: post) =
          packConsumers pm env st1 post := by
    intro st1 hstep providers pre post hpre
    rw [packConsumers_append pm env _ pre (c :: post) st hpre]
    exact packConsumers_cons pm env st st1 c post hstep
  rcases first_fit_split c (sortedProviders st.providers) with hnone | ⟨l1, p, l2, hs, h1, hp⟩
  · have hn : ∀ q ∈ st.providers, HasResourcesFor q c = false :=
      fun q hq => hnone q ((mem_sortedProviders _ q).2 hq)
    have hstep : packConsumer pm env st c =
        .ok { providers := sortedProviders st.providers ++ [(SubtractResourcesFor proto c).1],
              errs := st.errs, calls := st.calls + 1 } := by
      rw [packConsumer_nofit pm env st c hn, hproto]
      simp [hfresh]
    exact ⟨_, hstep, rfl, Or.inr ⟨hn, subtract_none proto c hfresh, rfl, rfl⟩, hrun _ hstep⟩
  · have hstep := packConsumer_fit pm env st c l1 l2 p hs h1 hp
    exact ⟨_, hstep, rfl, Or.inl ⟨l1, p, l2, hs, hp, subtract_none p c hp, rfl, rfl⟩,
      hrun _ hstep⟩

/-- C2 at scenario S2: the only host has port 80 bound, the consumer needs port 80
and 256 MB, and the fresh 1 GB host has no port bound; the consumer is placed and
no error is recorded. -/
theorem C2_fitting_consumer_placed_witness :
    ∃ st1, packConsumer exampleManager "env"
        (initialState [NewResourceProvider "P1" true GB [80]])
        { ID := "t1", Memory := 256 * MB, Ports := [80] } = .ok st1 ∧
      st1.errs = (initialState [NewResourceProvider "P1" true GB [80]]).errs := by
  obtain ⟨st1, hstep, herrs, _⟩ :=
    C2_fitting_consumer_placed exampleManager "env"
      (initialState [NewResourceProvider "P1" true GB [80]])
      { ID := "t1", Memory := 256 * MB, Ports := [80] } freshHost rfl (by decide) (by decide)
  exact ⟨st1, hstep, herrs⟩

/-! ## The scale plan and the memory invariant of a whole pass -/

/-- C1: for every run of `RunBasicScaler` that returns a `ScalerRunInfo`, with
`out.providers` the provider list after the consumer loop: the unused set handed to
`ScaleTo` is exactly the providers of that list for which `IsInUse()` is false, in
list order; the desired count handed to `ScaleTo` and reported as
`DesiredScaleAfterRun` is the length of the list minus the size of that set;
`UnusedResourceProviders` is the size of that set; `ActualScaleAfterRun` is what
`ScaleTo` answered to these arguments; and `DesiredScaleAfterRun +
UnusedResourceProviders` is the number of reported providers. -/
theorem C1_scale_plan (env : String) (providers : List ResourceProvider)
    (consumers : List ResourceConsumer) (pm : ProviderManager) (out : RunOutcome)
    (h : RunBasicScaler env providers consumers pm = .ok out) :
    (∃ st, packConsumers pm env (initialState providers) consumers = .ok st ∧
      out.providers = st.providers) ∧
    out.scaleToUnused = out.providers.filter (fun p => !IsInUse p) ∧
    out.scaleToDesired = (out.providers.length : Int) - (out.scaleToUnused.length : Int) ∧
    out.info.DesiredScaleAfterRun = out.scaleToDesired ∧
    out.info.UnusedResourceProviders = (out.scaleToUnused.length : Int) ∧
    out.info.ActualScaleAfterRun = (pm.ScaleTo env out.scaleToDesired out.scaleToUnused).1 ∧
    out.info.ResourceProviders = out.providers.map ResourceProvider.ToModel ∧
    out.info.DesiredScaleAfterRun + out.info.UnusedResourceProviders =
      (out.info.ResourceProviders.length : Int) := by
  obtain ⟨st, hloop, rfl⟩ := runBasicScaler_ok env providers consumers pm out h
  refine ⟨⟨st, hloop, rfl⟩, rfl, rfl, rfl, rfl, rfl, rfl, ?_⟩
  simp only [finishRun, resourceProviderModels, List.length_map]
  omega

/-- C1 at scenario S4: three 1 GB hosts, the first in use, and one 128 MB consumer. -/
theorem C1_scale_plan_witness :
    ∃ out, RunBasicScaler "env" [host "P1" true, host "P2" false, host "P3" false]
        [task "t1" (128 * MB)] exampleManager = .ok out ∧
      out.scaleToUnused = out.providers.filter (fun p => !IsInUse p) ∧
      out.info.DesiredScaleAfterRun + out.info.UnusedResourceProviders =
        (out.info.ResourceProviders.length : Int) := by
  have hrun : RunBasicScaler "env" [host "P1" true, host "P2" false, host "P3" false]
      [task "t1" (128 * MB)] exampleManager =
      .ok (finishRun exampleManager "env" 3 [task "t1" (128 * MB)]
        { providers := [NewResourceProvider "P1" true (GB - 128 * MB) [], host "P2" false,
            host "P3" false], errs := [], calls := 0 }) := by rfl
  have hplan := C1_scale_plan "env" [host "P1" true, host "P2" false, host "P3" false]
    [task "t1" (128 * MB)] exampleManager _ hrun
  exact ⟨_, hrun, hplan.2.1, hplan.2.2.2.2.2.2.2⟩

/-- C10: if every input provider starts with available memory at least 0, then after
a returning run of `RunBasicScaler` every provider of the final list, and every
provider reported in `info.ResourceProviders`, has available memory at least 0, for
every list of consumers and every provider manager (the guarded subtraction keeps a
fresh prototype at or above 0 whatever it started with). -/
theorem C10_memory_nonneg (env : String) (providers : List ResourceProvider)
    (consumers : List ResourceConsumer) (pm : ProviderManager) (out : RunOutcome)
    (hin : ∀ p ∈ providers, 0 ≤ p.availableMemory)
    (h : RunBasicScaler env providers consumers pm = .ok out) :
    (∀ p ∈ out.providers, 0 ≤ p.availableMemory) ∧
    (∀ m ∈ out.info.ResourceProviders, 0 ≤ m.AvailableMemory) := by
  obtain ⟨st, hloop, rfl⟩ := runBasicScaler_ok env providers consumers pm out h
  have hfinal : ∀ p ∈ st.providers, 0 ≤ p.availableMemory :=
    packConsumers_nonneg pm env (initialState providers) st consumers hin hloop
  refine ⟨hfinal, ?_⟩
  intro m hm
  simp only [finishRun, resourceProviderModels, List.mem_map] at hm
  obtain ⟨p, hp, rfl⟩ := hm
  exact hfinal p hp

/-- C10 at a 1 GB host and two consumers of 1 GB and 512 MB: the first fills the
host exactly, the second goes to a fresh host, and no memory is negative. -/
theorem C10_memory_nonneg_witness :
    ∃ out, RunBasicScaler "env" [host "P1" true] [task "t1" GB, task "t2" (512 * MB)]
        exampleManager = .ok out ∧
      (∀ p ∈ out.providers, 0 ≤ p.availableMemory) ∧
      (∀ m ∈ out.info.ResourceProviders, 0 ≤ m.AvailableMemory) := by
  have hrun : RunBasicScaler "env" [host "P1" true] [task "t1" GB, task "t2" (512 * MB)]
      exampleManager =
      .ok (finishRun exampleManager "env" 1 [task "t1" GB, task "t2" (512 * MB)]
        { providers := [NewResourceProvider "P1" true 0 [],
            NewResourceProvider "fresh" true (512 * MB) []], errs := [], calls := 1 }) := by rfl
  exact ⟨_, hrun,
    C10_memory_nonneg "env" [host "P1" true] [task "t1" GB, task "t2" (512 * MB)]
      exampleManager _ (by decide) hrun⟩

/-! ## Error aggregation and the operation `Scale` -/

theorem packConsumer_errs (pm : ProviderManager) (env : String) (st st1 : LoopState)
    (c : ResourceConsumer) (h : packConsumer pm env st c = .ok st1) :
    st1.errs = st.errs ∨ st1.errs = st.errs ++ [unfittableText c] := by
  rcases packConsumer_cases pm env st st1 c h with
    ⟨_, _, _, _, _, _, rfl⟩ | ⟨_, _, _, ⟨_, rfl⟩ | ⟨_, rfl⟩⟩
  · left; rfl
  · right; rfl
  · left; rfl

theorem packConsumers_errs (pm : ProviderManager) (env : String) (st st1 : LoopState)
    (cs : List ResourceConsumer) (h : packConsumers pm env st cs = .ok st1) :
    ∃ extra, st1.errs = st.errs ++ extra ∧ ∀ x ∈ extra, ∃ c ∈ cs, x = unfittableText c := by
  induction cs generalizing st with
  | nil =>
    simp only [packConsumers] at h
    cases h
    exact ⟨[], by simp, fun x hx => by cases hx⟩
  | cons c cs ih =>
    simp only [packConsumers] at h
    cases hstep : packConsumer pm env st c with
    | error e => rw [hstep] at h; cases h
    | ok st2 =>
      rw [hstep] at h
      obtain ⟨extra, hextra, hall⟩ := ih st2 h
      rcases packConsumer_errs pm env st st2 c hstep with h2 | h2
      · refine ⟨extra, by rw [hextra, h2], ?_⟩
        intro x hx
        obtain ⟨c2, hc2, rfl⟩ := hall x hx
        exact ⟨c2, List.mem_cons_of_mem _ hc2, rfl⟩
      · refine ⟨unfittableText c :: extra, by rw [hextra, h2]; simp, ?_⟩
        intro x hx
        rcases List.mem_cons.1 hx with rfl | hx
        · exact ⟨c, List.mem_cons_self _ _, rfl⟩
        · obtain ⟨c2, hc2, rfl⟩ := hall x hx
          exact ⟨c2, List.mem_cons_of_mem _ hc2, rfl⟩

/-- C13: when the consumer loop has ended in state `st` and `ScaleTo` answers the
plan with an error `e`, `RunBasicScaler` still returns a `ScalerRunInfo` that carries
the computed plan (scale before the run, desired scale, number of unused providers,
the consumer and provider snapshots), and the error returned alongside it is the
multi-error of the errors accumulated by the loop, each of which is the
unfittable-consumer error of some consumer, followed by `e` as the last entry. -/
theorem C13_scaleTo_error_keeps_plan (env : String) (providers : List ResourceProvider)
    (consumers : List ResourceConsumer) (pm : ProviderManager) (st : LoopState) (e : String)
    (hloop : packConsumers pm env (initialState providers) consumers = .ok st)
    (hscale : (pm.ScaleTo env
        ((st.providers.length : Int) - ((unusedProvidersOf st.providers).length : Int))
        (unusedProvidersOf st.providers)).2 = some e) :
    ∃ out, RunBasicScaler env providers consumers pm = .ok out ∧
      out.info.EnvironmentID = env ∧
      out.info.ScaleBeforeRun = (providers.length : Int) ∧
      out.info.DesiredScaleAfterRun =
        (st.providers.length : Int) - ((unusedProvidersOf st.providers).length : Int) ∧
      out.info.UnusedResourceProviders = ((unusedProvidersOf st.providers).length : Int) ∧
      out.info.PendingResources = consumers.map ResourceConsumer.ToModel ∧
      out.info.ResourceProviders = st.providers.map ResourceProvider.ToModel ∧
      out.scaleToDesired = out.info.DesiredScaleAfterRun ∧
      out.scaleToUnused = unusedProvidersOf st.providers ∧
      out.errs = st.errs ++ [e] ∧
      out.err = some (st.errs ++ [e]) ∧
      (∀ x ∈ st.errs, ∃ c ∈ consumers, x = unfittableText c) := by
  refine ⟨finishRun pm env (providers.length : Int) consumers st, ?_, rfl, rfl, rfl, rfl, rfl,
    rfl, rfl, rfl, ?_, ?_, ?_⟩
  · simp only [RunBasicScaler, hloop]
  · simp only [finishRun, hscale]
  · simp only [finishRun, hscale, MultiError]
    simp
  · obtain ⟨extra, hextra, hall⟩ :=
      packConsumers_errs pm env (initialState providers) st consumers hloop
    have : st.errs = extra := by simpa [initialState] using hextra
    rw [this]
    exact hall

/-- C13 at scenario S3 with a failing `ScaleTo`: the unfittable-consumer error comes
first and the `ScaleTo` error last, and the plan (desired 0) is still reported. -/
theorem C13_scaleTo_error_keeps_plan_witness :
    ∃ out, RunBasicScaler "env" [] [task "t1" (4 * GB)]
        (failingScaleManager freshHost "scale failed") = .ok out ∧
      out.info.DesiredScaleAfterRun = 0 ∧
      out.err = some ([unfittableText (task "t1" (4 * GB))] ++ ["scale failed"]) := by
  obtain ⟨out, hrun, _, _, hdesired, _, _, _, _, _, _, herr, _⟩ :=
    C13_scaleTo_error_keeps_plan "env" [] [task "t1" (4 * GB)]
      (failingScaleManager freshHost "scale failed")
      { providers := [], errs := [unfittableText (task "t1" (4 * GB))], calls := 1 }
      "scale failed" (by rfl) (by rfl)
  exact ⟨out, hrun, hdesired, herr⟩

/-- C14: `Scale` returns no `ScalerRunInfo` and exactly the collaborator error when
`GetProviders` fails, in which case `GetConsumers` is not called, or when
`GetConsumers` fails; in both cases `RunBasicScaler`, the only caller of
`CalculateNewProvider` and `ScaleTo`, is not called, and what `Scale` does is the
same under every provider manager. -/
theorem C14_fetch_failure_aborts (r : L0EnvironmentScaler) (env : String) :
    (∀ err, r.GetProviders env = .error err →
      Scale r env = (.error err, [ScaleCall.getProviders]) ∧
      ScaleCall.getConsumers ∉ (Scale r env).2 ∧ ScaleCall.runBasicScaler ∉ (Scale r env).2 ∧
      ∀ pm : ProviderManager, Scale { r with providerManager := pm } env = Scale r env) ∧
    (∀ providers err, r.GetProviders env = .ok providers → r.GetConsumers env = .error err →
      Scale r env = (.error err, [ScaleCall.getProviders, ScaleCall.getConsumers]) ∧
      ScaleCall.runBasicScaler ∉ (Scale r env).2 ∧
      ∀ pm : ProviderManager, Scale { r with providerManager := pm } env = Scale r env) := by
  constructor
  · intro err h
    have hs : ∀ pm : ProviderManager,
        Scale { r with providerManager := pm } env = (.error err, [ScaleCall.getProviders]) := by
      intro pm
      simp only [Scale, h]
    have h0 : Scale r env = (.error err, [ScaleCall.getProviders]) := hs r.providerManager
    refine ⟨h0, ?_, ?_, fun pm => by rw [hs pm, h0]⟩
    · rw [h0]; simp
    · rw [h0]; simp
  · intro providers err h1 h2
    have hs : ∀ pm : ProviderManager, Scale { r with providerManager := pm } env =
        (.error err, [ScaleCall.getProviders, ScaleCall.getConsumers]) := by
      intro pm
      simp only [Scale, h1, h2]
    have h0 : Scale r env = (.error err, [ScaleCall.getProviders, ScaleCall.getConsumers]) :=
      hs r.providerManager
    refine ⟨h0, ?_, fun pm => by rw [hs pm, h0]⟩
    rw [h0]; simp

/-- C14 at a scaler whose `GetProviders` fails: the error is returned as it is and
only `GetProviders` was called. -/
theorem C14_fetch_failure_aborts_witness :
    Scale { GetConsumers := fun _ => .ok [], GetProviders := fun _ => .error "no cluster",
            providerManager := exampleManager } "env" =
      (.error "no cluster", [ScaleCall.getProviders]) :=
  ((C14_fetch_failure_aborts
    { GetConsumers := fun _ => .ok [], GetProviders := fun _ => .error "no cluster",
      providerManager := exampleManager } "env").1 "no cluster" rfl).1

/-! ## The consumer loop reads the provider manager through `CalculateNewProvider` only -/

theorem packConsumer_congr (pm1 pm2 : ProviderManager) (env : String) (st : LoopState)
    (c : ResourceConsumer)
    (h : ∀ k, pm1.CalculateNewProvider env k = pm2.CalculateNewProvider env k) :
    packConsumer pm1 env st c = packConsumer pm2 env st c := by
  simp only [packConsumer, h]

theorem packConsumers_congr (pm1 pm2 : ProviderManager) (env : String) (st : LoopState)
    (cs : List ResourceConsumer)
    (h : ∀ k, pm1.CalculateNewProvider env k = pm2.CalculateNewProvider env k) :
    packConsumers pm1 env st cs = packConsumers pm2 env st cs := by
  induction cs generalizing st with
  | nil => rfl
  | cons c cs ih =>
    simp only [packConsumers, packConsumer_congr pm1 pm2 env st c h]
    cases packConsumer pm2 env st c with
    | error e => rfl
    | ok st1 => exact ih st1

/-- The plan of a pass depends on the order in which providers of equal memory come
out of the memory sort: two in-use 1 GB hosts, `A` with port 80 bound and `B` with
no port bound, and two 1 GB consumers, the second of which needs port 80.  With `A`
before `B` both consumers are placed on the two hosts; with `B` before `A` the
first consumer takes `B`, the second fits neither host, and a third is asked for. -/
theorem tie_order_decides_plan :
    (∃ out, RunBasicScaler "env"
        [NewResourceProvider "A" true GB [80], NewResourceProvider "B" true GB []]
        [{ ID := "c1", Memory := GB, Ports := [] }, { ID := "c2", Memory := GB, Ports := [80] }]
        exampleManager = .ok out ∧ out.scaleToDesired = 2) ∧
    (∃ out, RunBasicScaler "env"
        [NewResourceProvider "B" true GB [], NewResourceProvider "A" true GB [80]]
        [{ ID := "c1", Memory := GB, Ports := [] }, { ID := "c2", Memory := GB, Ports := [80] }]
        exampleManager = .ok out ∧ out.scaleToDesired = 3) := by
  have h1 : RunBasicScaler "env"
      [NewResourceProvider "A" true GB [80], NewResourceProvider "B" true GB []]
      [{ ID := "c1", Memory := GB, Ports := [] }, { ID := "c2", Memory := GB, Ports := [80] }]
      exampleManager =
      .ok (finishRun exampleManager "env" 2
        [{ ID := "c1", Memory := GB, Ports := [] }, { ID := "c2", Memory := GB, Ports := [80] }]
        { providers := [NewResourceProvider "A" true 0 [80],
            NewResourceProvider "B" true 0 [80]],
          errs := [], calls := 0 }) := by rfl
  have h2 : RunBasicScaler "env"
      [NewResourceProvider "B" true GB [], NewResourceProvider "A" true GB [80]]
      [{ ID := "c1", Memory := GB, Ports := [] }, { ID := "c2", Memory := GB, Ports := [80] }]
      exampleManager =
      .ok (finishRun exampleManager "env" 2
        [{ ID := "c1", Memory := GB, Ports := [] }, { ID := "c2", Memory := GB, Ports := [80] }]
        { providers := [NewResourceProvider "B" true 0 [],
            NewResourceProvider "A" true GB [80], NewResourceProvider "fresh" true 0 [80]],
          errs := [], calls := 1 }) := by rfl
  exact ⟨⟨_, h1, by decide⟩, ⟨_, h2, by decide⟩⟩

/-! ## The two sorting passes as one sort -/

theorem orderedInsert_of_forall {α : Type} (r : α → α → Prop) [DecidableRel r] (a : α)
    (t : List α) (h : ∀ x ∈ t, r a x) : List.orderedInsert r a t = a :: t := by
  cases t with
  | nil => rfl
  | cons b t => simp [List.orderedInsert, h b (List.mem_cons_self b t)]

theorem orderedInsert_congr {α : Type} (r1 r2 : α → α → Prop) [DecidableRel r1]
    [DecidableRel r2] (a : α) (t : List α) (h : ∀ x ∈ t, r1 a x ↔ r2 a x) :
    List.orderedInsert r1 a t = List.orderedInsert r2 a t := by
  induction t with
  | nil => rfl
  | cons b t ih =>
    have hb := h b (List.mem_cons_self b t)
    have ht := ih (fun x hx => h x (List.mem_cons_of_mem b hx))
    by_cases h1 : r1 a b
    · simp [List.orderedInsert, h1, hb.1 h1]
    · have h2 : ¬ r2 a b := fun h2 => h1 (hb.2 h2)
      simp [List.orderedInsert, h1, h2, ht]

theorem filter_orderedInsert {α : Type} (r : α → α → Prop) [DecidableRel r] [IsTrans α r]
    (P : α → Bool) (a : α) (s : List α) (hs : s.Pairwise r) :
    (List.orderedInsert r a s).filter P =
      if P a = true then List.orderedInsert r a (s.filter P) else s.filter P := by
  induction s with
  | nil => cases hP : P a <;> simp [List.orderedInsert, hP]
  | cons b s ih =>
    have hb : ∀ x ∈ s, r b x := (List.pairwise_cons.1 hs).1
    have ih2 := ih (List.pairwise_cons.1 hs).2
    by_cases hab : r a b
    · have hall : ∀ x ∈ (b :: s).filter P, r a x := by
        intro x hx
        rcases List.mem_cons.1 (List.mem_filter.1 hx).1 with rfl | hxs
        · exact hab
        · exact IsTrans.trans a b x hab (hb x hxs)
      have hins : List.orderedInsert r a (b :: s) = a :: b :: s := by
        simp [List.orderedInsert, hab]
      rw [hins, orderedInsert_of_forall r a _ hall]
      cases hP : P a <;> simp [List.filter_cons, hP]
    · have hins : List.orderedInsert r a (b :: s) = b :: List.orderedInsert r a s := by
        simp [List.orderedInsert, hab]
      rw [hins]
      cases hPb : P b <;> cases hPa : P a <;>
        simp [List.filter_cons, hPb, hPa, ih2, List.orderedInsert, hab]

theorem insert_inUse (a : ResourceProvider) (ha : a.inUse = true)
    (A B : List ResourceProvider) (hA : ∀ x ∈ A, x.inUse = true)
    (hB : ∀ x ∈ B, x.inUse = false) :
    List.orderedInsert usageThenMemory a (A ++ B) =
      List.orderedInsert (fun x y : ResourceProvider => x.availableMemory ≤ y.availableMemory)
        a A ++ B := by
  induction A with
  | nil =>
    have hall : ∀ x ∈ B, usageThenMemory a x := fun x hx => Or.inl ⟨ha, hB x hx⟩
    simpa using orderedInsert_of_forall usageThenMemory a B hall
  | cons x A ih =>
    have hx : x.inUse = true := hA x (List.mem_cons_self x A)
    have ih2 := ih (fun y hy => hA y (List.mem_cons_of_mem x hy))
    by_cases hle : a.availableMemory ≤ x.availableMemory
    · have h2 : usageThenMemory a x := Or.inr ⟨by rw [ha, hx], hle⟩
      simp [List.orderedInsert, hle, h2]
    · have h2 : ¬ usageThenMemory a x := by
        rintro (⟨_, hxf⟩ | ⟨_, h3⟩)
        · rw [hx] at hxf; cases hxf
        · exact hle h3
      simp [List.orderedInsert, hle, h2, ih2]

theorem insert_unused (a : ResourceProvider) (ha : a.inUse = false)
    (A B : List ResourceProvider) (hA : ∀ x ∈ A, x.inUse = true)
    (hB : ∀ x ∈ B, x.inUse = false) :
    List.orderedInsert usageThenMemory a (A ++ B) =
      A ++ List.orderedInsert
        (fun x y : ResourceProvider => x.availableMemory ≤ y.availableMemory) a B := by
  induction A with
  | nil =>
    have hcongr : ∀ x ∈ B, usageThenMemory a x ↔ a.availableMemory ≤ x.availableMemory := by
      intro x hx
      constructor
      · rintro (⟨hat, _⟩ | ⟨_, h3⟩)
        · rw [ha] at hat; cases hat
        · exact h3
      · intro h3
        exact Or.inr ⟨by rw [ha, hB x hx], h3⟩
    simpa using orderedInsert_congr usageThenMemory
      (fun x y : ResourceProvider => x.availableMemory ≤ y.availableMemory) a B hcongr
  | cons x A ih =>
    have hx : x.inUse = true := hA x (List.mem_cons_self x A)
    have ih2 := ih (fun y hy => hA y (List.mem_cons_of_mem x hy))
    have h2 : ¬ usageThenMemory a x := by
      rintro (⟨hat, _⟩ | ⟨hsame, _⟩)
      · rw [ha] at hat; cases hat
      · rw [ha, hx] at hsame; cases hsame
    simp [List.orderedInsert, h2, ih2]

theorem sortedProviders_eq_single_sort (l : List ResourceProvider) :
    sortedProviders l = sortUsageThenMemory l := by
  induction l with
  | nil => rfl
  | cons a l ih =>
    have hs := sortByMemory_sorted l
    have : IsTrans ResourceProvider (fun x y => x.availableMemory ≤ y.availableMemory) :=
      ⟨fun x y z hxy hyz => le_trans hxy hyz⟩
    have hstep : SortProvidersByMemory (a :: l) =
        List.orderedInsert (fun x y : ResourceProvider => x.availableMemory ≤ y.availableMemory)
          a (SortProvidersByMemory l) := rfl
    have hA : ∀ x ∈ (SortProvidersByMemory l).filter (fun p => p.inUse), x.inUse = true :=
      fun x hx => (List.mem_filter.1 hx).2
    have hB : ∀ x ∈ (SortProvidersByMemory l).filter (fun p => !p.inUse), x.inUse = false :=
      fun x hx => by simpa using (List.mem_filter.1 hx).2
    have hnext : sortUsageThenMemory (a :: l) =
        List.orderedInsert usageThenMemory a (sortedProviders l) := by
      rw [ih]; rfl
    rw [hnext]
    unfold sortedProviders SortProvidersByUsage
    rw [hstep, filter_orderedInsert _ (fun p => p.inUse) a _ hs,
      filter_orderedInsert _ (fun p => !p.inUse) a _ hs]
    cases ha : a.inUse
    · simp only [Bool.not_false, if_true, Bool.false_eq_true, if_false]
      exact (insert_unused a ha _ _ hA hB).symm
    · simp only [Bool.not_true, if_true, Bool.false_eq_true, if_false]
      exact (insert_inUse a ha _ _ hA hB).symm

/-- C17 as stated fails: with an idle 1 GB host and an in-use host with 2 GB free,
the two sorting passes put the in-use host first, whereas the single sort whose
primary key is memory puts the 1 GB host first. -/
theorem C17_memory_primary_counterexample :
    sortedProviders [NewResourceProvider "A" false GB [],
        NewResourceProvider "B" true (2 * GB) []] =
      [NewResourceProvider "B" true (2 * GB) [], NewResourceProvider "A" false GB []] ∧
    sortMemoryThenUsage [NewResourceProvider "A" false GB [],
        NewResourceProvider "B" true (2 * GB) []] =
      [NewResourceProvider "A" false GB [], NewResourceProvider "B" true (2 * GB) []] ∧
    sortedProviders [NewResourceProvider "A" false GB [],
        NewResourceProvider "B" true (2 * GB) []] ≠
      sortMemoryThenUsage [NewResourceProvider "A" false GB [],
        NewResourceProvider "B" true (2 * GB) []] := by
  decide

theorem keysOrdered_antisymm (a b : Bool × Int) (hab : keysOrdered a b)
    (hba : keysOrdered b a) : a = b := by
  obtain ⟨a1, a2⟩ := a
  obtain ⟨b1, b2⟩ := b
  simp only [keysOrdered] at hab hba
  rcases hab with ⟨h1, h2⟩ | ⟨h1, h2⟩ <;> rcases hba with ⟨h3, h4⟩ | ⟨h3, h4⟩
  · rw [h1] at h4; cases h4
  · rw [h1, h2] at h3; cases h3
  · rw [h3, h4] at h1; cases h1
  · rw [h1, le_antisymm h2 h4]

/-- The stable usage pass after any pass that is ascending by memory leaves the list
ordered by `usageThenMemory`. -/
theorem usagePass_pairwise (s : List ResourceProvider)
    (hs : s.Pairwise (fun a b => a.availableMemory ≤ b.availableMemory)) :
    (SortProvidersByUsage s).Pairwise usageThenMemory := by
  unfold SortProvidersByUsage
  rw [List.pairwise_append]
  refine ⟨?_, ?_, ?_⟩
  · refine (hs.filter _).imp_of_mem ?_
    intro a b ha hb hab
    have h1 : a.inUse = true := (List.mem_filter.1 ha).2
    have h2 : b.inUse = true := (List.mem_filter.1 hb).2
    exact Or.inr ⟨by rw [h1, h2], hab⟩
  · refine (hs.filter _).imp_of_mem ?_
    intro a b ha hb hab
    have h1 : a.inUse = false := by simpa using (List.mem_filter.1 ha).2
    have h2 : b.inUse = false := by simpa using (List.mem_filter.1 hb).2
    exact Or.inr ⟨by rw [h1, h2], hab⟩
  · intro a ha b hb
    have h1 : a.inUse = true := (List.mem_filter.1 ha).2
    have h2 : b.inUse = false := by simpa using (List.mem_filter.1 hb).2
    exact Or.inl ⟨h1, h2⟩

/-- The stable usage pass reorders the list it is given. -/
theorem usagePass_perm (s : List ResourceProvider) : (SortProvidersByUsage s).Perm s := by
  unfold SortProvidersByUsage
  exact List.filter_append_perm _ s

/-- Two reorderings of one list that are both ordered by `usageThenMemory` show the
same keys at every position. -/
theorem usageThenMemory_keys_unique (l1 l2 : List ResourceProvider) (hperm : l1.Perm l2)
    (h1 : l1.Pairwise usageThenMemory) (h2 : l2.Pairwise usageThenMemory) :
    l1.map sortKeys = l2.map sortKeys := by
  have : IsAntisymm (Bool × Int) keysOrdered := ⟨keysOrdered_antisymm⟩
  have hk : ∀ l : List ResourceProvider, l.Pairwise usageThenMemory →
      (l.map sortKeys).Pairwise keysOrdered := by
    intro l hl
    rw [List.pairwise_map]
    exact hl.imp (fun h => h)
  exact List.eq_of_perm_of_sorted (hperm.map sortKeys) (hk l1 h1) (hk l2 h2)

/-- C17, amended: let the first pass be any pass that returns the providers in
ascending order of `availableMemory` (`sortMem l` is a reordering of `l`, ascending
by memory; nothing is assumed on providers of equal memory), and let the second
pass be the stable `SortProvidersByUsage`.  The order produced by the two passes is
a reordering of the list that is ordered by the composed comparator whose primary
key is in-use before unused and whose secondary key is `availableMemory` ascending;
every order that a single sort with that comparator can produce shows the same keys
(in use, available memory) at every position, among them the order of the stable
single sort; and when the memory pass is the stable one the two passes produce
exactly the order of the stable single sort. -/
theorem C17_two_passes_as_one_sort (sortMem : List ResourceProvider → List ResourceProvider)
    (l : List ResourceProvider) (hperm : (sortMem l).Perm l)
    (hasc : (sortMem l).Pairwise (fun a b => a.availableMemory ≤ b.availableMemory)) :
    (SortProvidersByUsage (sortMem l)).Perm l ∧
    (SortProvidersByUsage (sortMem l)).Pairwise usageThenMemory ∧
    (∀ single : List ResourceProvider, single.Perm l → single.Pairwise usageThenMemory →
      single.map sortKeys = (SortProvidersByUsage (sortMem l)).map sortKeys) ∧
    (sortUsageThenMemory l).Perm l ∧ (sortUsageThenMemory l).Pairwise usageThenMemory ∧
    (sortUsageThenMemory l).map sortKeys = (SortProvidersByUsage (sortMem l)).map sortKeys ∧
    SortProvidersByUsage (SortProvidersByMemory l) = sortUsageThenMemory l := by
  have hp : (SortProvidersByUsage (sortMem l)).Perm l := (usagePass_perm _).trans hperm
  have hs : (SortProvidersByUsage (sortMem l)).Pairwise usageThenMemory :=
    usagePass_pairwise _ hasc
  have huniq : ∀ single : List ResourceProvider, single.Perm l →
      single.Pairwise usageThenMemory →
      single.map sortKeys = (SortProvidersByUsage (sortMem l)).map sortKeys :=
    fun single h1 h2 => usageThenMemory_keys_unique _ _ (h1.trans hp.symm) h2 hs
  have heq : SortProvidersByUsage (SortProvidersByMemory l) = sortUsageThenMemory l :=
    sortedProviders_eq_single_sort l
  have hp2 : (sortUsageThenMemory l).Perm l := by
    rw [← heq]
    exact (usagePass_perm _).trans (sortByMemory_perm l)
  have hs2 : (sortUsageThenMemory l).Pairwise usageThenMemory := by
    rw [← heq]
    exact usagePass_pairwise _ (sortByMemory_sorted l)
  exact ⟨hp, hs, huniq, hp2, hs2, huniq _ hp2 hs2, heq⟩

/-- C17, amended, at two idle 1 GB hosts A and B with a memory pass that puts B
before A: the two passes give `[B, A]`, the stable single sort gives `[A, B]`, and
the two orders show the same keys. -/
theorem C17_two_passes_as_one_sort_witness :
    SortProvidersByUsage ([host "A" false, host "B" false].reverse) =
      [host "B" false, host "A" false] ∧
    sortUsageThenMemory [host "A" false, host "B" false] =
      [host "A" false, host "B" false] ∧
    (sortUsageThenMemory [host "A" false, host "B" false]).map sortKeys =
      (SortProvidersByUsage ([host "A" false, host "B" false].reverse)).map sortKeys :=
  ⟨by decide, by decide,
    (C17_two_passes_as_one_sort List.reverse [host "A" false, host "B" false]
      (List.reverse_perm _) (by decide)).2.2.2.2.2.1⟩

/-! ## The tracked loop and the loop of the code -/

theorem sortTracked_perm (l : List TrackedProvider) : (sortTracked l).Perm l := by
  unfold sortTracked
  exact (List.filter_append_perm _ _).trans (List.perm_insertionSort _ l)

theorem sortTracked_erase (l : List TrackedProvider) :
    (sortTracked l).map (fun t => t.provider) = sortedProviders (l.map (fun t => t.provider)) := by
  unfold sortTracked sortedProviders SortProvidersByUsage SortProvidersByMemory
  rw [← List.map_insertionSort
    (fun a b : TrackedProvider => a.provider.availableMemory ≤ b.provider.availableMemory)
    (fun a b : ResourceProvider => a.availableMemory ≤ b.availableMemory)
    (fun t : TrackedProvider => t.provider) l (fun a _ b _ => Iff.rfl)]
  rw [List.map_append, List.filter_map, List.filter_map]
  rfl

theorem scanTracked_erase (c : ResourceConsumer) (l : List TrackedProvider) :
    ((scanTracked c l).1.map (fun t => t.provider), (scanTracked c l).2) =
      scanProviders c (l.map (fun t => t.provider)) := by
  induction l with
  | nil => rfl
  | cons t l ih =>
    cases hfit : HasResourcesFor t.provider c
    · have h1 := congrArg Prod.fst ih
      have h2 := congrArg Prod.snd ih
      simp only at h1 h2
      simp [scanTracked, scanProviders, hfit, h1, h2]
    · simp [scanTracked, scanProviders, hfit, TrackedProvider.assign]

theorem packConsumerTracked_erase (pm : ProviderManager) (env : String) (st : TrackedState)
    (c : ResourceConsumer) :
    (packConsumerTracked pm env st c).map TrackedState.erase =
      packConsumer pm env st.erase c := by
  have hscan := scanTracked_erase c (sortTracked st.providers)
  rw [sortTracked_erase] at hscan
  have h1 := congrArg Prod.fst hscan
  have h2 := congrArg Prod.snd hscan
  simp only [sortedProviders] at h1 h2
  simp only [packConsumerTracked, packConsumer, TrackedState.erase, ← h1, ← h2]
  cases (scanTracked c (sortTracked st.providers)).2
  · simp only [Bool.false_eq_true, if_false]
    cases pm.CalculateNewProvider env st.calls with
    | error e => rfl
    | ok newProvider =>
      cases hfit : HasResourcesFor newProvider c
      · simp [Except.map, TrackedState.erase, hfit]
      · simp [Except.map, TrackedState.erase, TrackedProvider.assign, trackFresh, hfit]
  · rfl

theorem packConsumersTracked_erase (pm : ProviderManager) (env : String) (st : TrackedState)
    (cs : List ResourceConsumer) :
    (packConsumersTracked pm env st cs).map TrackedState.erase =
      packConsumers pm env st.erase cs := by
  induction cs generalizing st with
  | nil => rfl
  | cons c cs ih =>
    have hstep := packConsumerTracked_erase pm env st c
    simp only [packConsumersTracked, packConsumers]
    cases hT : packConsumerTracked pm env st c with
    | error e =>
      rw [hT] at hstep
      rw [← hstep]
      rfl
    | ok st1 =>
      rw [hT] at hstep
      rw [← hstep]
      exact ih st1

theorem trackedInitialState_erase (providers : List ResourceProvider) :
    (trackedInitialState providers).erase = initialState providers := by
  simp [trackedInitialState, TrackedState.erase, initialState, trackInput, Function.comp_def]

theorem scanTracked_spec (c : ResourceConsumer) (l : List TrackedProvider) :
    (scanTracked c l = (l, false) ∧ ∀ t ∈ l, HasResourcesFor t.provider c = false) ∨
    (∃ l1 t l2, l = l1 ++ t :: l2 ∧ HasResourcesFor t.provider c = true ∧
      scanTracked c l = (l1 ++ t.assign c :: l2, true)) := by
  induction l with
  | nil => left; exact ⟨rfl, fun t ht => by cases ht⟩
  | cons a l ih =>
    cases ha : HasResourcesFor a.provider c
    · rcases ih with ⟨hscan, hnone⟩ | ⟨l1, t, l2, hl, ht, hscan⟩
      · left
        refine ⟨by simp [scanTracked, ha, hscan], ?_⟩
        intro t ht
        rcases List.mem_cons.1 ht with rfl | ht
        · exact ha
        · exact hnone t ht
      · right
        exact ⟨a :: l1, t, l2, by rw [hl]; rfl, ht, by simp [scanTracked, ha, hscan]⟩
    · right
      exact ⟨[], a, l, rfl, ha, by simp [scanTracked, ha]⟩

theorem tracked_cases (pm : ProviderManager) (env : String) (st st1 : TrackedState)
    (c : ResourceConsumer) (h : packConsumerTracked pm env st c = .ok st1) :
    (∃ l1 t l2, sortTracked st.providers = l1 ++ t :: l2 ∧
        HasResourcesFor t.provider c = true ∧
        st1 = { providers := l1 ++ t.assign c :: l2, errs := st.errs, calls := st.calls }) ∨
    (∃ proto, pm.CalculateNewProvider env st.calls = .ok proto ∧
      ((HasResourcesFor proto c = false ∧
          st1 = { providers := sortTracked st.providers,
                  errs := st.errs ++ [unfittableText c], calls := st.calls + 1 }) ∨
        (HasResourcesFor proto c = true ∧
          st1 = { providers := sortTracked st.providers ++ [(trackFresh proto).assign c],
                  errs := st.errs, calls := st.calls + 1 }))) := by
  rcases scanTracked_spec c (sortTracked st.providers) with
    ⟨hscan, _⟩ | ⟨l1, t, l2, hl, ht, hscan⟩
  · right
    simp only [packConsumerTracked, hscan] at h
    cases hcall : pm.CalculateNewProvider env st.calls with
    | error e => rw [hcall] at h; simp at h
    | ok proto =>
      rw [hcall] at h
      refine ⟨proto, rfl, ?_⟩
      cases hfit : HasResourcesFor proto c
      · left
        simp [hfit] at h
        exact ⟨rfl, h.symm⟩
      · right
        simp [hfit] at h
        exact ⟨rfl, h.symm⟩
  · left
    simp only [packConsumerTracked, hscan] at h
    simp at h
    exact ⟨l1, t, l2, hl, ht, h.symm⟩

/-- A property of tracked providers that every assignment keeps, and that a fresh
provider has after its first assignment, holds for every provider after the loop
if it holds for every provider before it. -/
theorem tracked_invariant (Q : TrackedProvider → Prop) (pm : ProviderManager) (env : String)
    (cs : List ResourceConsumer)
    (hassign : ∀ t c, c ∈ cs → Q t → HasResourcesFor t.provider c = true → Q (t.assign c))
    (hfresh : ∀ k proto c, c ∈ cs → pm.CalculateNewProvider env k = .ok proto →
      HasResourcesFor proto c = true → Q ((trackFresh proto).assign c))
    (st st1 : TrackedState) (hst : ∀ t ∈ st.providers, Q t)
    (h : packConsumersTracked pm env st cs = .ok st1) : ∀ t ∈ st1.providers, Q t := by
  induction cs generalizing st with
  | nil =>
    simp only [packConsumersTracked] at h
    cases h
    exact hst
  | cons c cs ih =>
    simp only [packConsumersTracked] at h
    cases hstep : packConsumerTracked pm env st c with
    | error e => rw [hstep] at h; cases h
    | ok st2 =>
      rw [hstep] at h
      have hsorted : ∀ t ∈ sortTracked st.providers, Q t :=
        fun t ht => hst t ((sortTracked_perm st.providers).mem_iff.1 ht)
      have hst2 : ∀ t ∈ st2.providers, Q t := by
        rcases tracked_cases pm env st st2 c hstep with
          ⟨l1, t, l2, hl, ht, rfl⟩ | ⟨proto, hcall, ⟨_, rfl⟩ | ⟨hfit, rfl⟩⟩
        · rw [hl] at hsorted
          intro u hu
          rcases List.mem_append.1 hu with hu1 | hu1
          · exact hsorted u (List.mem_append_left _ hu1)
          · rcases List.mem_cons.1 hu1 with rfl | hu2
            · exact hassign t c (List.mem_cons_self _ _)
                (hsorted t (List.mem_append_right _ (List.mem_cons_self _ _))) ht
            · exact hsorted u (List.mem_append_right _ (List.mem_cons_of_mem _ hu2))
        · exact hsorted
        · intro u hu
          rcases List.mem_append.1 hu with hu1 | hu1
          · exact hsorted u hu1
          · rcases List.mem_singleton.1 hu1 with rfl
            exact hfresh st.calls proto c (List.mem_cons_self _ _) hcall hfit
      exact ih (fun t c2 hc2 => hassign t c2 (List.mem_cons_of_mem _ hc2))
        (fun k proto c2 hc2 => hfresh k proto c2 (List.mem_cons_of_mem _ hc2)) st2 hst2 h

theorem tracked_run (env : String) (providers : List ResourceProvider)
    (consumers : List ResourceConsumer) (pm : ProviderManager) (out : RunOutcome)
    (h : RunBasicScaler env providers consumers pm = .ok out) :
    ∃ st, packConsumersTracked pm env (trackedInitialState providers) consumers = .ok st ∧
      st.providers.map (fun t => t.provider) = out.providers ∧
      out = finishRun pm env (providers.length : Int) consumers st.erase := by
  obtain ⟨st0, hloop, rfl⟩ := runBasicScaler_ok env providers consumers pm out h
  have herase := packConsumersTracked_erase pm env (trackedInitialState providers) consumers
  rw [trackedInitialState_erase, hloop] at herase
  cases hT : packConsumersTracked pm env (trackedInitialState providers) consumers with
  | error e => rw [hT] at herase; cases herase
  | ok st =>
    rw [hT] at herase
    have hst : st.erase = st0 := by
      simpa [Except.map] using herase
    subst hst
    exact ⟨st, rfl, rfl, rfl⟩

/-! ## Ports of the providers after a pass -/

theorem assign_usedPorts (t : TrackedProvider) (c : ResourceConsumer)
    (h : HasResourcesFor t.provider c = true) :
    (t.assign c).provider.usedPorts = t.provider.usedPorts ++ c.Ports ∧
    (t.assign c).initialPorts = t.initialPorts ∧
    (t.assign c).assigned = t.assigned ++ [c] ∧
    (t.assign c).appended = t.appended ∧
    (t.assign c).provider.ID = t.provider.ID := by
  simp [TrackedProvider.assign, subtract_of_fits t.provider c h]

theorem ports_invariant (pm : ProviderManager) (env : String) (cs : List ResourceConsumer)
    (hc : ∀ c ∈ cs, c.Ports.Nodup)
    (hfresh : ∀ k proto, pm.CalculateNewProvider env k = .ok proto → proto.usedPorts.Nodup)
    (st st1 : TrackedState)
    (hst : ∀ t ∈ st.providers,
      t.provider.usedPorts = t.initialPorts ++ (t.assigned.map (fun c => c.Ports)).flatten ∧
      t.provider.usedPorts.Nodup ∧ ∀ c ∈ t.assigned, c ∈ cs)
    (h : packConsumersTracked pm env st cs = .ok st1) :
    ∀ t ∈ st1.providers,
      t.provider.usedPorts = t.initialPorts ++ (t.assigned.map (fun c => c.Ports)).flatten ∧
      t.provider.usedPorts.Nodup ∧ ∀ c ∈ t.assigned, c ∈ cs := by
  refine tracked_invariant _ pm env cs ?_ ?_ st st1 hst h
  · intro t c hcs ⟨hports, hnodup, hmem⟩ hfit
    obtain ⟨h1, h2, h3, _, _⟩ := assign_usedPorts t c hfit
    have hfree := ((hasResourcesFor_iff t.provider c).1 hfit).2
    refine ⟨?_, ?_, ?_⟩
    · rw [h1, h2, h3, hports]
      simp
    · rw [h1]
      exact hnodup.append (hc c hcs) (fun port hu hp => hfree port hp hu)
    · rw [h3]
      intro c2 hc2
      rcases List.mem_append.1 hc2 with hc3 | hc3
      · exact hmem c2 hc3
      · rcases List.mem_singleton.1 hc3 with rfl
        exact hcs
  · intro k proto c hcs hcall hfit
    obtain ⟨h1, h2, h3, _, _⟩ := assign_usedPorts (trackFresh proto) c hfit
    have hfree := ((hasResourcesFor_iff proto c).1 hfit).2
    refine ⟨?_, ?_, ?_⟩
    · rw [h1, h2, h3]
      simp [trackFresh]
    · rw [h1]
      exact (hfresh k proto hcall).append (hc c hcs) (fun port hu hp => hfree port hp hu)
    · rw [h3]
      intro c2 hc2
      simp only [trackFresh, List.nil_append, List.mem_singleton] at hc2
      rw [hc2]
      exact hcs

/-- C11: if the port list of every consumer is duplicate-free and the used ports of
every provider are duplicate-free when it enters the pass (the providers of the
input list and the fresh prototypes), then after a returning run of
`RunBasicScaler` no port appears twice on any provider, in the final list and in
`info.ResourceProviders`: the used ports of a provider are its initial ports
followed by the port lists of the consumers assigned to it, these port lists are
pairwise disjoint, and each is disjoint from the initial ports. -/
theorem C11_ports_unique (env : String) (providers : List ResourceProvider)
    (consumers : List ResourceConsumer) (pm : ProviderManager) (out : RunOutcome)
    (hc : ∀ c ∈ consumers, c.Ports.Nodup)
    (hp : ∀ p ∈ providers, p.usedPorts.Nodup)
    (hfresh : ∀ k proto, pm.CalculateNewProvider env k = .ok proto → proto.usedPorts.Nodup)
    (h : RunBasicScaler env providers consumers pm = .ok out) :
    (∀ p ∈ out.providers, p.usedPorts.Nodup) ∧
    (∀ m ∈ out.info.ResourceProviders, m.UsedPorts.Nodup) ∧
    ∃ st, packConsumersTracked pm env (trackedInitialState providers) consumers = .ok st ∧
      st.providers.map (fun t => t.provider) = out.providers ∧
      ∀ t ∈ st.providers,
        t.provider.usedPorts =
          t.initialPorts ++ (t.assigned.map (fun c => c.Ports)).flatten ∧
        (t.assigned.map (fun c => c.Ports)).Pairwise List.Disjoint ∧
        (∀ c ∈ t.assigned, List.Disjoint t.initialPorts c.Ports) ∧
        (∀ c ∈ t.assigned, c ∈ consumers) := by
  obtain ⟨st, hloop, hprov, hout⟩ := tracked_run env providers consumers pm out h
  have hinit : ∀ t ∈ (trackedInitialState providers).providers,
      t.provider.usedPorts = t.initialPorts ++ (t.assigned.map (fun c => c.Ports)).flatten ∧
      t.provider.usedPorts.Nodup ∧ ∀ c ∈ t.assigned, c ∈ consumers := by
    intro t ht
    simp only [trackedInitialState, List.mem_map] at ht
    obtain ⟨p, hpm, rfl⟩ := ht
    exact ⟨by simp [trackInput], hp p hpm, fun c hcm => by simp [trackInput] at hcm⟩
  have hinv := ports_invariant pm env consumers hc hfresh _ st hinit hloop
  have hfinal : ∀ p ∈ out.providers, p.usedPorts.Nodup := by
    intro p hpo
    rw [← hprov] at hpo
    obtain ⟨t, ht, rfl⟩ := List.mem_map.1 hpo
    exact (hinv t ht).2.1
  refine ⟨hfinal, ?_, st, hloop, hprov, ?_⟩
  · intro m hm
    have hinfo : out.info.ResourceProviders = out.providers.map ResourceProvider.ToModel := by
      rw [hout]; rfl
    rw [hinfo] at hm
    obtain ⟨p, hpo, rfl⟩ := List.mem_map.1 hm
    exact hfinal p hpo
  · intro t ht
    obtain ⟨hports, hnodup, hmem⟩ := hinv t ht
    rw [hports] at hnodup
    obtain ⟨_, hflat, hdisj⟩ := List.nodup_append.1 hnodup
    refine ⟨hports, (List.nodup_flatten.1 hflat).2, ?_, hmem⟩
    intro c hcm port hi hpc
    exact hdisj hi (List.mem_flatten.2 ⟨c.Ports, List.mem_map.2 ⟨c, hcm, rfl⟩, hpc⟩)

/-- C11 at a host with port 80 bound and two consumers that need ports 80, 443 and
port 22: both go to a fresh host and no provider has a port twice. -/
theorem C11_ports_unique_witness :
    ∃ out, RunBasicScaler "env" [NewResourceProvider "P1" true GB [80]]
        [{ ID := "t1", Memory := MB, Ports := [80, 443] },
          { ID := "t2", Memory := MB, Ports := [22] }] exampleManager = .ok out ∧
      (∀ p ∈ out.providers, p.usedPorts.Nodup) ∧
      (∀ m ∈ out.info.ResourceProviders, m.UsedPorts.Nodup) := by
  have hrun : RunBasicScaler "env" [NewResourceProvider "P1" true GB [80]]
      [{ ID := "t1", Memory := MB, Ports := [80, 443] },
        { ID := "t2", Memory := MB, Ports := [22] }] exampleManager =
      .ok (finishRun exampleManager "env" 1
        [{ ID := "t1", Memory := MB, Ports := [80, 443] },
          { ID := "t2", Memory := MB, Ports := [22] }]
        { providers := [NewResourceProvider "fresh" true (GB - MB - MB) [80, 443, 22],
            NewResourceProvider "P1" true GB [80]], errs := [], calls := 1 }) := by rfl
  have hthm := C11_ports_unique "env" [NewResourceProvider "P1" true GB [80]]
    [{ ID := "t1", Memory := MB, Ports := [80, 443] },
      { ID := "t2", Memory := MB, Ports := [22] }] exampleManager _
    (by decide) (by decide)
    (fun k proto hcall => by
      have hproto : freshHost = proto := by
        simpa [exampleManager, constManager] using hcall
      rw [← hproto]
      decide)
    hrun
  exact ⟨_, hrun, hthm.1, hthm.2.1⟩

/-- C12 as stated fails: a host that enters the pass with ports 80 and 8000 bound
and receives one consumer without ports ends with two used ports, while the
consumers assigned to it require none. -/
theorem C12_initial_ports_counterexample :
    ∃ out st, RunBasicScaler "env" [NewResourceProvider "P1" true GB [80, 8000]]
        [task "t1" MB] exampleManager = .ok out ∧
      packConsumersTracked exampleManager "env"
        (trackedInitialState [NewResourceProvider "P1" true GB [80, 8000]]) [task "t1" MB] =
        .ok st ∧
      st.providers.map (fun t => t.provider) = out.providers ∧
      ∃ t ∈ st.providers, t.assigned = [task "t1" MB] ∧ t.provider.usedPorts.length = 2 ∧
        portCount t.assigned = 0 ∧ t.provider.usedPorts.length ≠ portCount t.assigned := by
  refine ⟨finishRun exampleManager "env" 1 [task "t1" MB]
      { providers := [NewResourceProvider "P1" true (GB - MB) [80, 8000]], errs := [],
        calls := 0 },
    TrackedState.mk
      [TrackedProvider.mk (NewResourceProvider "P1" true (GB - MB) [80, 8000]) [80, 8000]
        [task "t1" MB] false] [] 0, by rfl, by rfl, by rfl, ?_⟩
  exact ⟨_, List.mem_cons_self _ _, rfl, by decide, by decide, by decide⟩

theorem origin_invariant (pm : ProviderManager) (env : String)
    (providers : List ResourceProvider) (cs : List ResourceConsumer) (st st1 : TrackedState)
    (hst : ∀ t ∈ st.providers,
      t.provider.usedPorts.length = t.initialPorts.length + portCount t.assigned ∧
      (t.appended = false → ∃ p ∈ providers, t.initialPorts = p.usedPorts ∧
        t.provider.ID = p.ID) ∧
      (t.appended = true → ∃ k proto, pm.CalculateNewProvider env k = .ok proto ∧
        t.initialPorts = proto.usedPorts ∧ t.provider.ID = proto.ID))
    (h : packConsumersTracked pm env st cs = .ok st1) :
    ∀ t ∈ st1.providers,
      t.provider.usedPorts.length = t.initialPorts.length + portCount t.assigned ∧
      (t.appended = false → ∃ p ∈ providers, t.initialPorts = p.usedPorts ∧
        t.provider.ID = p.ID) ∧
      (t.appended = true → ∃ k proto, pm.CalculateNewProvider env k = .ok proto ∧
        t.initialPorts = proto.usedPorts ∧ t.provider.ID = proto.ID) := by
  refine tracked_invariant _ pm env cs ?_ ?_ st st1 hst h
  · intro t c _ ⟨hlen, hin, hnew⟩ hfit
    obtain ⟨h1, h2, h3, h4, h5⟩ := assign_usedPorts t c hfit
    rw [h1, h2, h3, h4, h5]
    refine ⟨?_, hin, hnew⟩
    simp only [List.length_append, hlen, portCount, List.map_append, List.sum_append,
      List.map_cons, List.map_nil, List.sum_cons, List.sum_nil]
    omega
  · intro k proto c _ hcall hfit
    obtain ⟨h1, h2, h3, h4, h5⟩ := assign_usedPorts (trackFresh proto) c hfit
    rw [h1, h2, h3, h4, h5]
    refine ⟨by simp [trackFresh, portCount], fun hf => by simp [trackFresh] at hf,
      fun _ => ⟨k, proto, hcall, rfl, rfl⟩⟩

/-- C12, amended: for every returning pass of `RunBasicScaler` and every provider of
the final list, the number of entries in its used ports equals the number of ports
it had bound when it entered the pass (the used ports of the input provider, or of
the prototype for an appended provider) plus the sum of `len(c.Ports)` over the
consumers assigned to it during the pass. -/
theorem C12_port_count (env : String) (providers : List ResourceProvider)
    (consumers : List ResourceConsumer) (pm : ProviderManager) (out : RunOutcome)
    (h : RunBasicScaler env providers consumers pm = .ok out) :
    ∃ st, packConsumersTracked pm env (trackedInitialState providers) consumers = .ok st ∧
      st.providers.map (fun t => t.provider) = out.providers ∧
      ∀ t ∈ st.providers,
        t.provider.usedPorts.length = t.initialPorts.length + portCount t.assigned ∧
        (t.appended = false → ∃ p ∈ providers, t.initialPorts = p.usedPorts ∧
          t.provider.ID = p.ID) ∧
        (t.appended = true → ∃ k proto, pm.CalculateNewProvider env k = .ok proto ∧
          t.initialPorts = proto.usedPorts ∧ t.provider.ID = proto.ID) := by
  obtain ⟨st, hloop, hprov, _⟩ := tracked_run env providers consumers pm out h
  refine ⟨st, hloop, hprov, origin_invariant pm env providers consumers _ st ?_ hloop⟩
  intro t ht
  simp only [trackedInitialState, List.mem_map] at ht
  obtain ⟨p, hpm, rfl⟩ := ht
  exact ⟨by simp [trackInput, portCount], fun _ => ⟨p, hpm, rfl, rfl⟩,
    fun hf => by simp [trackInput] at hf⟩

/-- C12 (amended) at the host with ports 80 and 8000 bound and one consumer without
ports: two used ports, two initial ports, no port required by the assigned
consumer. -/
theorem C12_port_count_witness :
    ∃ st, packConsumersTracked exampleManager "env"
        (trackedInitialState [NewResourceProvider "P1" true GB [80, 8000]]) [task "t1" MB] =
        .ok st ∧
      ∀ t ∈ st.providers,
        t.provider.usedPorts.length = t.initialPorts.length + portCount t.assigned := by
  have hrun : RunBasicScaler "env" [NewResourceProvider "P1" true GB [80, 8000]]
      [task "t1" MB] exampleManager =
      .ok (finishRun exampleManager "env" 1 [task "t1" MB]
        { providers := [NewResourceProvider "P1" true (GB - MB) [80, 8000]], errs := [],
          calls := 0 }) := by rfl
  obtain ⟨st, hloop, _, hall⟩ :=
    C12_port_count "env" [NewResourceProvider "P1" true GB [80, 8000]] [task "t1" MB]
      exampleManager _ hrun
  exact ⟨st, hloop, fun t ht => (hall t ht).1⟩

/-! ## Providers appended during a pass -/

theorem appendedCount_sortTracked (l : List TrackedProvider) :
    appendedCount (sortTracked l) = appendedCount l :=
  (sortTracked_perm l).countP_eq _

theorem appendedCount_assign (l1 l2 : List TrackedProvider) (t : TrackedProvider)
    (c : ResourceConsumer) :
    appendedCount (l1 ++ t.assign c :: l2) = appendedCount (l1 ++ t :: l2) := by
  simp [appendedCount, List.countP_append, List.countP_cons, TrackedProvider.assign]

theorem tracked_length_step (pm : ProviderManager) (env : String) (st st1 : TrackedState)
    (c : ResourceConsumer) (n : Nat)
    (hst : st.providers.length = n + appendedCount st.providers)
    (h : packConsumerTracked pm env st c = .ok st1) :
    st1.providers.length = n + appendedCount st1.providers := by
  have hlen : (sortTracked st.providers).length = st.providers.length :=
    (sortTracked_perm st.providers).length_eq
  have hcount := appendedCount_sortTracked st.providers
  rcases tracked_cases pm env st st1 c h with
    ⟨l1, t, l2, hl, _, rfl⟩ | ⟨proto, _, ⟨_, rfl⟩ | ⟨_, rfl⟩⟩
  · show (l1 ++ t.assign c :: l2).length = n + appendedCount (l1 ++ t.assign c :: l2)
    rw [appendedCount_assign, ← hl, hcount, ← hst, ← hlen, hl]
    simp
  · show (sortTracked st.providers).length = n + appendedCount (sortTracked st.providers)
    rw [hcount, hlen, hst]
  · show (sortTracked st.providers ++ [(trackFresh proto).assign c]).length =
      n + appendedCount (sortTracked st.providers ++ [(trackFresh proto).assign c])
    have hnew : appendedCount (sortTracked st.providers ++ [(trackFresh proto).assign c]) =
        appendedCount st.providers + 1 := by
      rw [← hcount]
      simp [appendedCount, List.countP_append, List.countP_cons, TrackedProvider.assign,
        trackFresh]
    rw [hnew, List.length_append, hlen, hst]
    simp
    omega

theorem tracked_length (pm : ProviderManager) (env : String) (cs : List ResourceConsumer)
    (st st1 : TrackedState) (n : Nat)
    (hst : st.providers.length = n + appendedCount st.providers)
    (h : packConsumersTracked pm env st cs = .ok st1) :
    st1.providers.length = n + appendedCount st1.providers := by
  induction cs generalizing st with
  | nil =>
    simp only [packConsumersTracked] at h
    cases h
    exact hst
  | cons c cs ih =>
    simp only [packConsumersTracked] at h
    cases hstep : packConsumerTracked pm env st c with
    | error e => rw [hstep] at h; cases h
    | ok st2 =>
      rw [hstep] at h
      exact ih st2 (tracked_length_step pm env st st2 c n hst hstep) h

/-- C15: for every run of `RunBasicScaler` that returns info, `ScaleBeforeRun` is
the length of the input provider list, the final provider list is longer than the
input list by the number of providers appended during the pass, and
`DesiredScaleAfterRun` is at most `ScaleBeforeRun` plus that number. -/
theorem C15_desired_bound (env : String) (providers : List ResourceProvider)
    (consumers : List ResourceConsumer) (pm : ProviderManager) (out : RunOutcome)
    (h : RunBasicScaler env providers consumers pm = .ok out) :
    out.info.ScaleBeforeRun = (providers.length : Int) ∧
    ∃ st, packConsumersTracked pm env (trackedInitialState providers) consumers = .ok st ∧
      st.providers.map (fun t => t.provider) = out.providers ∧
      out.providers.length = providers.length + appendedCount st.providers ∧
      out.info.DesiredScaleAfterRun ≤
        out.info.ScaleBeforeRun + (appendedCount st.providers : Int) := by
  obtain ⟨st, hloop, hprov, hout⟩ := tracked_run env providers consumers pm out h
  have hinit : (trackedInitialState providers).providers.length =
      providers.length + appendedCount (trackedInitialState providers).providers := by
    simp [trackedInitialState, appendedCount, List.countP_map, trackInput, Function.comp_def]
  have hlen := tracked_length pm env consumers _ st providers.length hinit hloop
  have hlen2 : out.providers.length = providers.length + appendedCount st.providers := by
    rw [← hprov, List.length_map, hlen]
  have hbefore : out.info.ScaleBeforeRun = (providers.length : Int) := by rw [hout]; rfl
  have hdesired : out.info.DesiredScaleAfterRun =
      (out.providers.length : Int) - ((unusedProvidersOf out.providers).length : Int) := by
    rw [hout]; rfl
  refine ⟨hbefore, st, hloop, hprov, hlen2, ?_⟩
  rw [hdesired, hbefore, hlen2]
  push_cast
  omega

/-- C15 at scenario S2 with an idle first host: one provider is appended, the scale
before the run is 1 and the desired scale 1 is at most 1 + 1. -/
theorem C15_desired_bound_witness :
    ∃ out, RunBasicScaler "env" [NewResourceProvider "P1" false GB [80]]
        [{ ID := "t1", Memory := 256 * MB, Ports := [80] }] exampleManager = .ok out ∧
      out.info.ScaleBeforeRun = 1 ∧ out.info.DesiredScaleAfterRun = 1 ∧
      out.providers.length = 2 := by
  have hrun : RunBasicScaler "env" [NewResourceProvider "P1" false GB [80]]
      [{ ID := "t1", Memory := 256 * MB, Ports := [80] }] exampleManager =
      .ok (finishRun exampleManager "env" 1 [{ ID := "t1", Memory := 256 * MB, Ports := [80] }]
        { providers := [NewResourceProvider "P1" false GB [80],
            NewResourceProvider "fresh" true (GB - 256 * MB) [80]], errs := [],
          calls := 1 }) := by rfl
  have hthm := C15_desired_bound "env" [NewResourceProvider "P1" false GB [80]]
    [{ ID := "t1", Memory := 256 * MB, Ports := [80] }] exampleManager _ hrun
  exact ⟨_, hrun, hthm.1, by decide, by decide⟩

/-! ## Scheduled runs -/

theorem scheduleRun_existing (d : Dispatcher) (e : String) (c : Nat) (run : ScheduledRun)
    (newDelay now : Int) (hreg : d.scheduledRuns e = some c) (hwait : d.waiting c = some run) :
    ScheduleRun d e newDelay now =
      some { d with
        waiting := fun c2 => if c2 = c then some (receiveDelay run newDelay now).1
          else d.waiting c2,
        actions := d.actions ++ (receiveDelay run newDelay now).2 } := by
  simp only [ScheduleRun, hreg, hwait]

theorem fireActions_spec (r : L0EnvironmentScaler) (e : String) (c : Nat) :
    ∃ tail, fireActions r e c =
        [RunAction.deleteEntry e, RunAction.closeChannel c, RunAction.logScalingNow e,
          RunAction.invokeScale e] ++ tail ∧
      (tail = [] ∨ ∃ err, tail = [RunAction.logScaleError e err]) ∧
      (tail = [] ↔ scaleError r e = none) ∧
      (fireActions r e c).count (RunAction.invokeScale e) = 1 := by
  cases h : scaleError r e with
  | none =>
    refine ⟨[], by simp [fireActions, h], Or.inl rfl, by simp, ?_⟩
    simp [fireActions, h, List.count_cons]
  | some err =>
    refine ⟨[RunAction.logScaleError e err], by simp [fireActions, h],
      Or.inr ⟨err, rfl⟩, by simp, ?_⟩
    simp [fireActions, h, List.count_cons]

theorem scheduledRunActions_split (r : L0EnvironmentScaler) (e : String) (c : Nat)
    (delay : Int) (signals : List Int) :
    ∃ pre, scheduledRunActions r e c delay signals = pre ++ fireActions r e c ∧
      ∀ a ∈ pre, (∃ dl, a = RunAction.logScalingIn e dl) ∨ a = RunAction.logNewDelay e := by
  induction signals generalizing delay with
  | nil =>
    refine ⟨[RunAction.logScalingIn e delay], rfl, ?_⟩
    intro a ha
    rcases List.mem_singleton.1 ha with rfl
    exact Or.inl ⟨delay, rfl⟩
  | cons newDelay rest ih =>
    obtain ⟨pre, hpre, hall⟩ := ih newDelay
    refine ⟨RunAction.logScalingIn e delay :: RunAction.logNewDelay e :: pre, ?_, ?_⟩
    · simp only [scheduledRunActions, hpre, List.cons_append]
    · intro a ha
      rcases List.mem_cons.1 ha with rfl | ha
      · exact Or.inl ⟨delay, rfl⟩
      · rcases List.mem_cons.1 ha with rfl | ha
        · exact Or.inr rfl
        · exact hall a ha

/-- C18: when `ScheduleRun(e, d')` finds an armed run for `e`, the run receives `d'`
on its channel and its delay becomes `d'` whatever the armed delay was (no
comparison of the two is made), the timer is armed anew with `d'` from the instant
of the receipt, the registry and every other run are unchanged, and the step
consists of the two log lines only, so `Scale` is not invoked in it; in the
goroutine, a received delay makes the loop go round with the new delay. -/
theorem C18_receive_replaces_delay (d : Dispatcher) (e : String) (c : Nat)
    (run : ScheduledRun) (newDelay now : Int)
    (hreg : d.scheduledRuns e = some c) (hwait : d.waiting c = some run) :
    (∃ d2, ScheduleRun d e newDelay now = some d2 ∧
      d2.waiting c = some { run with delay := newDelay, armedAt := now } ∧
      fireTime { run with delay := newDelay, armedAt := now } = now + max newDelay 0 ∧
      d2.scheduledRuns = d.scheduledRuns ∧
      (∀ c2, c2 ≠ c → d2.waiting c2 = d.waiting c2) ∧
      d2.nextChannel = d.nextChannel ∧
      d2.actions = d.actions ++
        [RunAction.logNewDelay run.environmentID,
          RunAction.logScalingIn run.environmentID newDelay] ∧
      d2.scaleCalls = d.scaleCalls ∧
      (∀ env, RunAction.invokeScale env ∉
        [RunAction.logNewDelay run.environmentID,
          RunAction.logScalingIn run.environmentID newDelay])) ∧
    (∀ (r : L0EnvironmentScaler) (rest : List Int),
      scheduledRunActions r e c run.delay (newDelay :: rest) =
        RunAction.logScalingIn e run.delay :: RunAction.logNewDelay e ::
          scheduledRunActions r e c newDelay rest) := by
  refine ⟨⟨_, scheduleRun_existing d e c run newDelay now hreg hwait, ?_, rfl, rfl, ?_, rfl,
    rfl, rfl, ?_⟩, fun r rest => rfl⟩
  · simp [receiveDelay]
  · intro c2 hc2
    simp [hc2]
  · intro env
    simp

/-- C18 at the run armed with delay 5 at instant 0: a request with the longer delay
10 at instant 1 leaves the run armed with delay 10 from instant 1. -/
theorem C18_receive_replaces_delay_witness :
    ∃ d2, ScheduleRun armedDispatcher "e" 10 1 = some d2 ∧
      d2.waiting 0 = some { environmentID := "e", channel := 0, delay := 10, armedAt := 1 } ∧
      d2.scaleCalls = [] := by
  obtain ⟨d2, hd2, hwait, _, _, _, _, _, hcalls, _⟩ :=
    (C18_receive_replaces_delay armedDispatcher "e" 0
      { environmentID := "e", channel := 0, delay := 5, armedAt := 0 } 10 1 rfl rfl).1
  exact ⟨d2, hd2, hwait, hcalls⟩

/-! ## Aborted passes and appended providers -/

/-- C27: let `st` be the loop state in which consumer `c` is reached.  If no provider
of the current list has resources for `c` and `CalculateNewProvider` returns an error
`e`, the iteration aborts and `RunBasicScaler` returns no `ScalerRunInfo` and exactly
`e`: the errors accumulated in `st` are not part of what is returned, and `ScaleTo`
is not called (the result is the same under every `ScaleTo`).  With a 4 GB consumer
that fits no fresh host followed by a small consumer for which the provider manager
fails, the run returns the provider manager's error alone. -/
theorem C27_new_provider_error_aborts (pm : ProviderManager) (env : String)
    (providers : List ResourceProvider) (pre post : List ResourceConsumer)
    (c : ResourceConsumer) (st : LoopState) (e : String)
    (hpre : packConsumers pm env (initialState providers) pre = .ok st)
    (hnone : ∀ q ∈ st.providers, HasResourcesFor q c = false)
    (herr : pm.CalculateNewProvider env st.calls = .error e) :
    (packConsumer pm env st c = .error e ∧
      RunBasicScaler env providers (pre ++ c :: post) pm = .error e ∧
      (∀ pm2 : ProviderManager,
        (∀ k, pm2.CalculateNewProvider env k = pm.CalculateNewProvider env k) →
        RunBasicScaler env providers (pre ++ c :: post) pm2 = .error e)) ∧
    (packConsumers flakyManager "env" (initialState []) [task "big" (4 * GB)] =
        .ok { providers := [], errs := [unfittableText (task "big" (4 * GB))], calls := 1 } ∧
      RunBasicScaler "env" [] [task "big" (4 * GB), task "small" MB] flakyManager =
        .error "no capacity") := by
  have hstep : packConsumer pm env st c = .error e := by
    rw [packConsumer_nofit pm env st c hnone, herr]
  have hrun : RunBasicScaler env providers (pre ++ c :: post) pm = .error e := by
    unfold RunBasicScaler
    rw [packConsumers_append pm env _ pre (c :: post) st hpre]
    simp only [packConsumers, hstep]
  refine ⟨⟨hstep, hrun, ?_⟩, by rfl, by rfl⟩
  intro pm2 hsame
  have hloop := packConsumers_congr pm2 pm env (initialState providers) (pre ++ c :: post) hsame
  unfold RunBasicScaler at hrun ⊢
  rw [hloop]
  cases hl : packConsumers pm env (initialState providers) (pre ++ c :: post) with
  | error e2 => rw [hl] at hrun; exact hrun
  | ok st2 => rw [hl] at hrun; cases hrun

/-- C27 at the provider manager that fails its second call, after a first consumer
that was reported as unfittable. -/
theorem C27_new_provider_error_aborts_witness :
    RunBasicScaler "env" [] ([task "big" (4 * GB)] ++ task "small" MB :: []) flakyManager =
      .error "no capacity" :=
  (C27_new_provider_error_aborts flakyManager "env" [] [task "big" (4 * GB)] []
    (task "small" MB)
    { providers := [], errs := [unfittableText (task "big" (4 * GB))], calls := 1 }
    "no capacity" (by rfl) (by decide) (by rfl)).1.2.1

theorem usage_invariant (pm : ProviderManager) (env : String)
    (providers : List ResourceProvider) (cs : List ResourceConsumer) (st st1 : TrackedState)
    (hst : ∀ t ∈ st.providers,
      (t.appended = true → t.provider.inUse = true) ∧
      (t.provider.inUse = false → t.provider ∈ providers))
    (h : packConsumersTracked pm env st cs = .ok st1) :
    ∀ t ∈ st1.providers,
      (t.appended = true → t.provider.inUse = true) ∧
      (t.provider.inUse = false → t.provider ∈ providers) := by
  refine tracked_invariant _ pm env cs ?_ ?_ st st1 hst h
  · intro t c _ _ hfit
    have hu : (t.assign c).provider.inUse = true := subtract_inUse t.provider c hfit
    exact ⟨fun _ => hu, fun hf => by rw [hu] at hf; cases hf⟩
  · intro k proto c _ _ hfit
    have hu : ((trackFresh proto).assign c).provider.inUse = true :=
      subtract_inUse proto c hfit
    exact ⟨fun _ => hu, fun hf => by rw [hu] at hf; cases hf⟩

/-- C28: the guarded `SubtractResourcesFor` on a fresh provider cannot fail and leaves
it in use; after a returning run of `RunBasicScaler` every provider that was appended
during the pass is in use, every provider of the unused set handed to `ScaleTo` is
one of the input providers (as it was on entry), `UnusedResourceProviders` is at most
`ScaleBeforeRun`, and `DesiredScaleAfterRun` is at least the number of providers
appended. -/
theorem C28_appended_in_use (env : String) (providers : List ResourceProvider)
    (consumers : List ResourceConsumer) (pm : ProviderManager) (out : RunOutcome)
    (h : RunBasicScaler env providers consumers pm = .ok out) :
    (∀ (proto : ResourceProvider) (c : ResourceConsumer), HasResourcesFor proto c = true →
      (SubtractResourcesFor proto c).2 = none ∧
      IsInUse (SubtractResourcesFor proto c).1 = true) ∧
    (∃ st, packConsumersTracked pm env (trackedInitialState providers) consumers = .ok st ∧
      st.providers.map (fun t => t.provider) = out.providers ∧
      (∀ t ∈ st.providers, t.appended = true → IsInUse t.provider = true) ∧
      (out.info.DesiredScaleAfterRun ≥ (appendedCount st.providers : Int))) ∧
    (∀ p ∈ out.scaleToUnused, p ∈ providers) ∧
    out.info.UnusedResourceProviders ≤ out.info.ScaleBeforeRun := by
  obtain ⟨st, hloop, hprov, hout⟩ := tracked_run env providers consumers pm out h
  have hinit : ∀ t ∈ (trackedInitialState providers).providers,
      (t.appended = true → t.provider.inUse = true) ∧
      (t.provider.inUse = false → t.provider ∈ providers) := by
    intro t ht
    simp only [trackedInitialState, List.mem_map] at ht
    obtain ⟨p, hpm, rfl⟩ := ht
    exact ⟨fun hf => by simp [trackInput] at hf, fun _ => hpm⟩
  have hinv := usage_invariant pm env providers consumers _ st hinit hloop
  have hlen0 : (trackedInitialState providers).providers.length =
      providers.length + appendedCount (trackedInitialState providers).providers := by
    simp [trackedInitialState, appendedCount, List.countP_map, trackInput, Function.comp_def]
  have hlen := tracked_length pm env consumers _ st providers.length hlen0 hloop
  have hunused : (unusedProvidersOf out.providers).length =
      st.providers.countP (fun t => !t.provider.inUse) := by
    rw [← hprov]
    simp [unusedProvidersOf, IsInUse, List.countP_eq_length_filter, List.filter_map,
      Function.comp_def]
  have hle : st.providers.countP (fun t => !t.provider.inUse) ≤
      st.providers.countP (fun t => !t.appended) := by
    apply List.countP_mono_left
    intro t ht hu
    cases ha : t.appended
    · rfl
    · rw [(hinv t ht).1 ha] at hu
      simp at hu
  have hsplit : st.providers.length =
      st.providers.countP (fun t => t.appended) +
        st.providers.countP (fun t => !t.appended) := by
    rw [List.length_eq_countP_add_countP (fun t => t.appended)]
    simp
  have hbefore : out.info.ScaleBeforeRun = (providers.length : Int) := by rw [hout]; rfl
  have hcount : out.info.UnusedResourceProviders =
      ((unusedProvidersOf out.providers).length : Int) := by rw [hout]; rfl
  have hdesired : out.info.DesiredScaleAfterRun =
      (out.providers.length : Int) - ((unusedProvidersOf out.providers).length : Int) := by
    rw [hout]; rfl
  have hlenout : out.providers.length = st.providers.length := by
    rw [← hprov, List.length_map]
  have hset : out.scaleToUnused = unusedProvidersOf out.providers := by rw [hout]; rfl
  unfold appendedCount at hlen
  refine ⟨fun proto c hfit => ⟨subtract_none proto c hfit, subtract_inUse proto c hfit⟩,
    ⟨st, hloop, hprov, fun t ht ha => (hinv t ht).1 ha, ?_⟩, ?_, ?_⟩
  · rw [hdesired, hlenout, hunused]
    unfold appendedCount
    omega
  · intro p hp
    rw [hset] at hp
    have hp2 := List.mem_filter.1 hp
    rw [← hprov] at hp2
    obtain ⟨t, ht, rfl⟩ := List.mem_map.1 hp2.1
    exact (hinv t ht).2 (by simpa [IsInUse] using hp2.2)
  · rw [hcount, hbefore, hunused]
    omega

/-- C28 at scenario S2 with an idle first host: the appended host is in use, the
unused set is the idle input host, and desired 1 is at least the one appended. -/
theorem C28_appended_in_use_witness :
    ∃ out, RunBasicScaler "env" [NewResourceProvider "P1" false GB [80]]
        [{ ID := "t1", Memory := 256 * MB, Ports := [80] }] exampleManager = .ok out ∧
      (∀ p ∈ out.scaleToUnused, p ∈ [NewResourceProvider "P1" false GB [80]]) ∧
      out.info.UnusedResourceProviders ≤ out.info.ScaleBeforeRun := by
  have hrun : RunBasicScaler "env" [NewResourceProvider "P1" false GB [80]]
      [{ ID := "t1", Memory := 256 * MB, Ports := [80] }] exampleManager =
      .ok (finishRun exampleManager "env" 1 [{ ID := "t1", Memory := 256 * MB, Ports := [80] }]
        { providers := [NewResourceProvider "P1" false GB [80],
            NewResourceProvider "fresh" true (GB - 256 * MB) [80]], errs := [],
          calls := 1 }) := by rfl
  have hthm := C28_appended_in_use "env" [NewResourceProvider "P1" false GB [80]]
    [{ ID := "t1", Memory := 256 * MB, Ports := [80] }] exampleManager _ hrun
  exact ⟨_, hrun, hthm.2.2.1, hthm.2.2.2⟩

/-! ## Whole calls and whole timeout branches -/

theorem scheduleRun_new (d : Dispatcher) (e : String) (delay now : Int)
    (hnone : d.scheduledRuns e = none) :
    ScheduleRun d e delay now =
      some { scheduledRuns := fun e2 => if e2 = e then some d.nextChannel
               else d.scheduledRuns e2,
             waiting := fun c2 => if c2 = d.nextChannel then
                 some { environmentID := e, channel := d.nextChannel,
                        delay := delay, armedAt := now }
               else d.waiting c2,
             nextChannel := d.nextChannel + 1,
             actions := d.actions ++ [RunAction.logScalingIn e delay],
             scaleCalls := d.scaleCalls } := by
  simp only [ScheduleRun, hnone]

theorem timerElapses_due (r : L0EnvironmentScaler) (d : Dispatcher) (c : Nat)
    (run : ScheduledRun) (now : Int) (hwait : d.waiting c = some run)
    (hdue : fireTime run ≤ now) :
    timerElapses r d c now =
      some { scheduledRuns := fun e => if e = run.environmentID then none
               else d.scheduledRuns e,
             waiting := fun c2 => if c2 = c then none else d.waiting c2,
             nextChannel := d.nextChannel,
             actions := d.actions ++ fireActions r run.environmentID c,
             scaleCalls := d.scaleCalls ++ [(run.environmentID, now)] } := by
  simp only [timerElapses, hwait, hdue, if_true]

theorem timerElapses_early (r : L0EnvironmentScaler) (d : Dispatcher) (c : Nat)
    (run : ScheduledRun) (now : Int) (hwait : d.waiting c = some run)
    (hearly : now < fireTime run) : timerElapses r d c now = none := by
  have hnot : ¬ (fireTime run ≤ now) := not_le.mpr hearly
  simp only [timerElapses, hwait, hnot, if_false]

theorem scheduleCalls_existing (e : String) (c : Nat) (calls : List (Int × Int)) :
    ∀ (d : Dispatcher) (run : ScheduledRun), d.scheduledRuns e = some c →
      d.waiting c = some run →
      ∃ d2 run2, scheduleCalls d e calls = some d2 ∧ d2.scheduledRuns e = some c ∧
        d2.waiting c = some run2 ∧ d2.scaleCalls = d.scaleCalls ∧
        run2.environmentID = run.environmentID ∧
        (∀ last, calls.getLast? = some last →
          run2.delay = last.1 ∧ run2.armedAt = last.2) ∧
        (calls = [] → run2 = run) := by
  induction calls with
  | nil =>
    intro d run hreg hwait
    exact ⟨d, run, rfl, hreg, hwait, rfl, rfl, fun last h => by simp at h, fun _ => rfl⟩
  | cons call rest ih =>
    intro d run hreg hwait
    obtain ⟨d1, hd1, hreg1, hwait1, hcalls1⟩ :
        ∃ d1, ScheduleRun d e call.1 call.2 = some d1 ∧ d1.scheduledRuns e = some c ∧
          d1.waiting c = some (receiveDelay run call.1 call.2).1 ∧
          d1.scaleCalls = d.scaleCalls :=
      ⟨_, scheduleRun_existing d e c run call.1 call.2 hreg hwait, hreg, by simp, rfl⟩
    obtain ⟨d2, run2, hd2, hreg2, hwait2, hcalls2, henv2, hlast2, hnil2⟩ :=
      ih d1 (receiveDelay run call.1 call.2).1 hreg1 hwait1
    refine ⟨d2, run2, by simp only [scheduleCalls, hd1, hd2], hreg2, hwait2,
      by rw [hcalls2, hcalls1], by rw [henv2]; rfl, ?_, fun h => by cases h⟩
    intro last hlast
    cases rest with
    | nil =>
      simp only [List.getLast?_singleton, Option.some.injEq] at hlast
      rw [hnil2 rfl, ← hlast]
      exact ⟨rfl, rfl⟩
    | cons x xs =>
      rw [List.getLast?_cons_cons] at hlast
      exact hlast2 last hlast

/-! ## A `ScheduleRun` call racing with a timer -/

/-- C25 fails on the code: with a run for `e` armed with delay 5 at instant 0, a
`ScheduleRun("e", 2)` call that reads the registry just before instant 5 finds
channel 0; the timer of the run then elapses, which deletes the entry and closes
channel 0; the send of the call then goes to the closed channel and panics.  No run
is armed for `e` afterwards and the registry has no entry for it: the request is
lost. -/
theorem C25_send_on_closed_channel :
    ∃ s1 s2 s3,
      raceStep idleScaler "e" 2
        { dispatcher := armedDispatcher, closed := [], call := .notStarted } .lookup =
        some s1 ∧
      s1.call = .sending 0 ∧
      raceStep idleScaler "e" 2 s1 (.timer 0 5) = some s2 ∧
      s2.closed = [0] ∧ s2.call = .sending 0 ∧
      raceStep idleScaler "e" 2 s2 (.send 5) = some s3 ∧
      s3.call = .panicked ∧
      s3.dispatcher.scheduledRuns "e" = none ∧
      s3.dispatcher.waiting 0 = none ∧ s3.dispatcher.waiting 1 = none ∧
      s3.dispatcher.scaleCalls = [("e", 5)] ∧
      raceSteps idleScaler "e" 2
        { dispatcher := armedDispatcher, closed := [], call := .notStarted }
        [.lookup, .timer 0 5, .send 5] = some s3 := by
  refine ⟨_, _, _, by rfl, by rfl, by rfl, by rfl, by rfl, by rfl, by rfl, by rfl, by rfl,
    by rfl, by rfl, by rfl⟩

/-! ## Environment variable overrides -/

theorem fieldsFrom_field (f : Char → Bool) (field : List Char) :
    ∀ (cur rest : List Char), (∀ ch ∈ field, f ch = false) →
      fieldsFrom f (field ++ rest) cur = fieldsFrom f rest (cur ++ field) := by
  induction field with
  | nil => intro cur rest _; simp
  | cons a field ih =>
    intro cur rest h
    have ha : f a = false := h a (List.mem_cons_self a field)
    have hrest := ih (cur ++ [a]) rest (fun ch hch => h ch (List.mem_cons_of_mem a hch))
    have hstep : fieldsFrom f ((a :: field) ++ rest) cur =
        fieldsFrom f (field ++ rest) (cur ++ [a]) := by
      simp [fieldsFrom, ha]
    rw [hstep, hrest]
    simp

theorem fieldsFrom_three (f : Char → Bool) (a b c : List Char) (s1 s2 : Char)
    (ha : a ≠ []) (hb : b ≠ []) (hc : c ≠ [])
    (hfa : ∀ ch ∈ a, f ch = false) (hfb : ∀ ch ∈ b, f ch = false)
    (hfc : ∀ ch ∈ c, f ch = false) (h1 : f s1 = true) (h2 : f s2 = true) :
    fieldsFrom f (a ++ s1 :: (b ++ s2 :: c)) [] = [a, b, c] := by
  have hc2 : fieldsFrom f c [] = [c] := by
    have h := fieldsFrom_field f c [] [] hfc
    simp only [List.append_nil, List.nil_append] at h
    rw [h]
    cases c with
    | nil => exact absurd rfl hc
    | cons x xs => simp [fieldsFrom]
  have hb2 : fieldsFrom f (b ++ s2 :: c) [] = [b, c] := by
    rw [fieldsFrom_field f b [] (s2 :: c) hfb]
    cases b with
    | nil => exact absurd rfl hb
    | cons x xs => simp [fieldsFrom, h2, hc2]
  rw [fieldsFrom_field f a [] _ hfa]
  cases a with
  | nil => exact absurd rfl ha
  | cons x xs => simp [fieldsFrom, h1, hb2]

/-- C26 as stated fails: the override `web:URL=a=b` has the documented format with
the non-empty value `a=b`, and `parseOverrides` returns the usage error for it;
so it does for the value `=`. -/
theorem C26_value_with_separator_counterexample :
    FieldsFunc "web:URL=a=b" isSeparator = ["web", "URL", "a", "b"] ∧
    parseOverrides ["web:URL=a=b"] = .error usageErrorText ∧
    parseOverrides ["web:URL=http://host"] = .error usageErrorText ∧
    parseOverrides ["web:URL=="] = .error usageErrorText := by
  refine ⟨by rfl, by rfl, by rfl, by rfl⟩

/-- C26, amended: for every override string `CONTAINER:VAR=VAL` in which `CONTAINER`,
`VAR` and `VAL` are non-empty and contain neither `:` nor `=`, `parseOverrides` on the
single-element list returns no error and exactly one `ContainerOverride`, with
`ContainerName = CONTAINER` and `EnvironmentOverrides = {VAR: VAL}`. -/
theorem C26_parse_single_override (container var val : String)
    (hc : container.data ≠ []) (hv : var.data ≠ []) (hl : val.data ≠ [])
    (hcs : ∀ ch ∈ container.data, isSeparator ch = false)
    (hvs : ∀ ch ∈ var.data, isSeparator ch = false)
    (hls : ∀ ch ∈ val.data, isSeparator ch = false) :
    FieldsFunc (container ++ ":" ++ var ++ "=" ++ val) isSeparator = [container, var, val] ∧
    parseOverrides [container ++ ":" ++ var ++ "=" ++ val] =
      .ok [{ ContainerName := container, EnvironmentOverrides := [(var, val)] }] := by
  have hdata : (container ++ ":" ++ var ++ "=" ++ val).data =
      container.data ++ ':' :: (var.data ++ '=' :: val.data) := by
    simp [String.data_append]
  have hfields : FieldsFunc (container ++ ":" ++ var ++ "=" ++ val) isSeparator =
      [container, var, val] := by
    unfold FieldsFunc
    rw [hdata, fieldsFrom_three isSeparator _ _ _ ':' '=' hc hv hl hcs hvs hls (by rfl) (by rfl)]
    rfl
  refine ⟨hfields, ?_⟩
  simp only [parseOverrides, parseOverridesFrom, hfields]
  simp [addOverride, mapSet]

/-- C26 (amended) at the override `web:PORT=8080`. -/
theorem C26_parse_single_override_witness :
    parseOverrides ["web" ++ ":" ++ "PORT" ++ "=" ++ "8080"] =
      .ok [{ ContainerName := "web", EnvironmentOverrides := [("PORT", "8080")] }] :=
  (C26_parse_single_override "web" "PORT" "8080" (by decide) (by decide) (by decide)
    (by decide) (by decide) (by decide)).2

/-! ## The tag daemon -/

theorem daemonLoop_spec (store : TagStore) (m : String → Bool) (tags : List Tag) :
    ∀ k : Nat,
      (∃ rest, tags.filter (fun tag => !m tag.EntityID) =
        (daemonLoop store m tags k).2 ++ rest) ∧
      ((daemonLoop store m tags k).1 = none →
        (daemonLoop store m tags k).2 = tags.filter (fun tag => !m tag.EntityID)) ∧
      (∀ err, (daemonLoop store m tags k).1 = some err →
        ∃ done tag rest, tags.filter (fun tag => !m tag.EntityID) = done ++ tag :: rest ∧
          (daemonLoop store m tags k).2 = done ++ [tag] ∧
          store.Delete (k + done.length) tag.EntityType tag.EntityID tag.Key = some err ∧
          ∀ i tag0, done[i]? = some tag0 →
            store.Delete (k + i) tag0.EntityType tag0.EntityID tag0.Key = none) ∧
      ((∀ i a b c, store.Delete i a b c = none) →
        daemonLoop store m tags k = (none, tags.filter (fun tag => !m tag.EntityID))) := by
  induction tags with
  | nil =>
    intro k
    refine ⟨⟨[], rfl⟩, fun _ => rfl, ?_, fun _ => rfl⟩
    intro err h
    simp [daemonLoop] at h
  | cons tag tags ih =>
    intro k
    cases hm : m tag.EntityID
    · cases hdel : store.Delete k tag.EntityType tag.EntityID tag.Key with
      | some err0 =>
        have hloop : daemonLoop store m (tag :: tags) k = (some err0, [tag]) := by
          simp [daemonLoop, hm, hdel]
        rw [hloop]
        refine ⟨⟨tags.filter (fun t => !m t.EntityID), by simp [List.filter_cons, hm]⟩,
          fun h => (by cases h), ?_, ?_⟩
        · intro err h
          simp only [Option.some.injEq] at h
          subst h
          refine ⟨[], tag, tags.filter (fun t => !m t.EntityID),
            by simp [List.filter_cons, hm], rfl, by simpa using hdel, ?_⟩
          intro i tag0 h0
          simp at h0
        · intro hall
          rw [hall] at hdel
          cases hdel
      | none =>
        have hloop : daemonLoop store m (tag :: tags) k =
            ((daemonLoop store m tags (k + 1)).1, tag :: (daemonLoop store m tags (k + 1)).2) := by
          simp [daemonLoop, hm, hdel]
        obtain ⟨⟨rest, hrest⟩, hnone, herr, hall⟩ := ih (k + 1)
        rw [hloop]
        refine ⟨⟨rest, by simp [List.filter_cons, hm, hrest]⟩, ?_, ?_, ?_⟩
        · intro h
          simp only at h
          simp [List.filter_cons, hm, hnone h]
        · intro err h
          obtain ⟨done, tag1, rest1, hsplit, hdeletes, hfail, hearlier⟩ := herr err h
          refine ⟨tag :: done, tag1, rest1, by simp [List.filter_cons, hm, hsplit],
            by simp [hdeletes], ?_, ?_⟩
          · have harith : k + (tag :: done).length = k + 1 + done.length := by
              simp only [List.length_cons]
              omega
            rw [harith]
            exact hfail
          · intro i tag0 h0
            cases i with
            | zero =>
              simp only [List.getElem?_cons_zero, Option.some.injEq] at h0
              subst h0
              exact hdel
            | succ i =>
              simp only [List.getElem?_cons_succ] at h0
              have harith : k + (i + 1) = k + 1 + i := by omega
              rw [harith]
              exact hearlier i tag0 h0
        · intro hallok
          rw [hall hallok]
          simp [List.filter_cons, hm]
    · have hloop : daemonLoop store m (tag :: tags) k = daemonLoop store m tags k := by
        simp [daemonLoop, hm]
      rw [hloop]
      have hfilter : (tag :: tags).filter (fun t => !m t.EntityID) =
          tags.filter (fun t => !m t.EntityID) := by
        simp [List.filter_cons, hm]
      rw [hfilter]
      exact ih k

/-- C29: the function returned by `NewDaemonFN` returns the error of `List`, or else
the error of `SelectByType`, without any `Delete` call.  Otherwise it calls `Delete`
for tags whose `EntityID` is not the `TaskID` of a listed task, in tag order, and for
no other tag: the calls made are an initial part of the orphaned tags.  When it
returns nil it has called `Delete` for exactly the orphaned tags; when every call
succeeds it returns nil; and when it returns an error, that is the error of the last
`Delete` call it made, every earlier call succeeded, and no later tag was tried. -/
theorem C29_daemon_deletes_orphans (store : TagStore)
    (taskList : Except String (List TaskSummary)) :
    (∀ err, taskList = .error err → NewDaemonFN store taskList = (some err, [])) ∧
    (∀ tasks tags err, taskList = .ok tasks → store.SelectByType "task" = (tags, some err) →
      NewDaemonFN store taskList = (some err, [])) ∧
    (∀ tasks tags, taskList = .ok tasks → store.SelectByType "task" = (tags, none) →
      (∃ rest, orphanedTags tasks tags = (NewDaemonFN store taskList).2 ++ rest) ∧
      (∀ tag ∈ (NewDaemonFN store taskList).2,
        tag ∈ tags ∧ ∀ task ∈ tasks, task.TaskID ≠ tag.EntityID) ∧
      ((NewDaemonFN store taskList).1 = none →
        (NewDaemonFN store taskList).2 = orphanedTags tasks tags) ∧
      ((∀ i a b c, store.Delete i a b c = none) →
        NewDaemonFN store taskList = (none, orphanedTags tasks tags)) ∧
      (∀ err, (NewDaemonFN store taskList).1 = some err →
        ∃ done tag rest, orphanedTags tasks tags = done ++ tag :: rest ∧
          (NewDaemonFN store taskList).2 = done ++ [tag] ∧
          store.Delete done.length tag.EntityType tag.EntityID tag.Key = some err ∧
          ∀ i tag0, done[i]? = some tag0 →
            store.Delete i tag0.EntityType tag0.EntityID tag0.Key = none)) := by
  refine ⟨?_, ?_, ?_⟩
  · intro err h
    rw [h]
    rfl
  · intro tasks tags err h hsel
    rw [h]
    simp only [NewDaemonFN, hsel]
  · intro tasks tags h hsel
    have hfn : NewDaemonFN store taskList =
        daemonLoop store (fun id => tasks.any (fun task => task.TaskID == id)) tags 0 := by
      rw [h]
      simp only [NewDaemonFN, hsel]
    obtain ⟨⟨rest, hrest⟩, hnone, herr, hall⟩ :=
      daemonLoop_spec store (fun id => tasks.any (fun task => task.TaskID == id)) tags 0
    rw [hfn]
    refine ⟨⟨rest, hrest⟩, ?_, hnone, hall, ?_⟩
    · intro tag htag
      have hmem : tag ∈ orphanedTags tasks tags := by
        unfold orphanedTags
        rw [hrest]
        exact List.mem_append_left _ htag
      have hfilter := List.mem_filter.1 hmem
      refine ⟨hfilter.1, ?_⟩
      intro task htask heq
      have hany : tasks.any (fun task => task.TaskID == tag.EntityID) = true :=
        List.any_eq_true.2 ⟨task, htask, by simp [heq]⟩
      simp [hany] at hfilter
    · intro err h2
      obtain ⟨done, tag, rest2, hsplit, hdeletes, hfail, hearlier⟩ := herr err h2
      refine ⟨done, tag, rest2, hsplit, hdeletes, by simpa using hfail, ?_⟩
      intro i tag0 h0
      simpa using hearlier i tag0 h0

/-- C29 at the tasks `[t1]` and a store with tags for `t1`, `gone1` and `gone2` whose
first `Delete` fails: the daemon calls `Delete` for `gone1` only and returns its
error. -/
theorem C29_daemon_deletes_orphans_witness :
    NewDaemonFN exampleTagStore (.ok [{ TaskID := "t1" }]) =
        (some "delete failed",
          [{ EntityID := "gone1", EntityType := "task", Key := "name", Value := "b" }]) ∧
    ∀ tag ∈ (NewDaemonFN exampleTagStore (.ok [{ TaskID := "t1" }])).2,
      tag ∈ (exampleTagStore.SelectByType "task").1 ∧
      ∀ task ∈ [({ TaskID := "t1" } : TaskSummary)], task.TaskID ≠ tag.EntityID :=
  ⟨by rfl,
    ((C29_daemon_deletes_orphans exampleTagStore (.ok [{ TaskID := "t1" }])).2.2
      [{ TaskID := "t1" }] (exampleTagStore.SelectByType "task").1 rfl rfl).2.1⟩

/-! ## The tag janitor -/

theorem pulseLoop_orphans (store : TagStore) (taskExists : String → Bool) (tags : List Tag) :
    ∀ k : Nat, pulseLoop store taskExists tags k =
      pulseLoop store (fun _ => false) (tags.filter (fun tag => !taskExists tag.EntityID)) k := by
  induction tags with
  | nil => intro k; rfl
  | cons tag tags ih =>
    intro k
    cases hexists : taskExists tag.EntityID
    · cases hdel : store.Delete k tag.EntityType tag.EntityID tag.Key <;>
        simp [pulseLoop, hexists, hdel, List.filter_cons, ih (k + 1)]
    · simp [pulseLoop, hexists, List.filter_cons, ih k]

theorem deleteCalls_pulseLoop (store : TagStore) (tags : List Tag) :
    ∀ k : Nat, deleteCalls (pulseLoop store (fun _ => false) tags k) = tags := by
  induction tags with
  | nil => intro k; rfl
  | cons tag tags ih =>
    intro k
    cases hdel : store.Delete k tag.EntityType tag.EntityID tag.Key <;>
      simp [pulseLoop, hdel, deleteCalls, ih (k + 1)]

theorem deleteCalls_append (a b : List JanitorEvent) :
    deleteCalls (a ++ b) = deleteCalls a ++ deleteCalls b := by
  induction a with
  | nil => rfl
  | cons ev a ih =>
    cases ev <;> simp [deleteCalls, ih]

/-- C30: `TagJanitor.pulse` returns a non-nil error exactly when `ListTasks` fails, and
then it returns that error after logging it.  When `ListTasks` succeeds it returns
nil whatever `SelectByType` and `Delete` answer: a failure of `SelectByType` is
logged, and the loop then runs over the tags that came with it; `Delete` is called
for every orphaned tag in tag order, also after an earlier `Delete` failed, and the
events of the loop are those of the same loop run over the orphaned tags alone.
With a store whose first `Delete` fails, the second orphaned tag is still deleted. -/
theorem C30_pulse_swallows_errors (store : TagStore)
    (taskList : Except String (List TaskSummary)) :
    (∀ err, taskList = .error err →
      pulse store taskList = (some [err], [JanitorEvent.logListFailed err])) ∧
    (∀ tasks, taskList = .ok tasks →
      (pulse store taskList).1 = none ∧
      deleteCalls (pulse store taskList).2 =
        orphanedTags tasks (store.SelectByType "task").1 ∧
      (∀ err, (store.SelectByType "task").2 = some err →
        (pulse store taskList).2 = JanitorEvent.logQueryFailed err ::
          pulseLoop store (fun _ => false)
            (orphanedTags tasks (store.SelectByType "task").1) 0) ∧
      ((store.SelectByType "task").2 = none →
        (pulse store taskList).2 =
          pulseLoop store (fun _ => false)
            (orphanedTags tasks (store.SelectByType "task").1) 0)) ∧
    ((pulse store taskList).1 ≠ none ↔ ∃ err, taskList = .error err) ∧
    (pulse exampleTagStore (.ok [{ TaskID := "t1" }]) =
      (none,
        [JanitorEvent.callDelete
            { EntityID := "gone1", EntityType := "task", Key := "name", Value := "b" },
          JanitorEvent.logDeleteFailed
            { EntityID := "gone1", EntityType := "task", Key := "name", Value := "b" }
            "delete failed",
          JanitorEvent.callDelete
            { EntityID := "gone2", EntityType := "task", Key := "name", Value := "c" },
          JanitorEvent.logDeleted "gone2"])) := by
  have hok : ∀ tasks, taskList = .ok tasks →
      (pulse store taskList).1 = none ∧
      (pulse store taskList).2 =
        (match (store.SelectByType "task").2 with
          | some err => [JanitorEvent.logQueryFailed err]
          | none => []) ++
        pulseLoop store (fun _ => false)
          (orphanedTags tasks (store.SelectByType "task").1) 0 := by
    intro tasks h
    rw [h]
    refine ⟨rfl, ?_⟩
    simp only [pulse, orphanedTags]
    rw [pulseLoop_orphans store (fun id => tasks.any (fun task => task.TaskID == id))]
  refine ⟨?_, ?_, ?_, by rfl⟩
  · intro err h
    rw [h]
    rfl
  · intro tasks h
    obtain ⟨hnone, hevents⟩ := hok tasks h
    refine ⟨hnone, ?_, ?_, ?_⟩
    · rw [hevents, deleteCalls_append, deleteCalls_pulseLoop]
      cases (store.SelectByType "task").2 <;> simp [deleteCalls]
    · intro err herr
      rw [hevents, herr]
      rfl
    · intro hsel
      rw [hevents, hsel]
      rfl
  · constructor
    · intro hne
      cases htl : taskList with
      | error err => exact ⟨err, rfl⟩
      | ok tasks => exact absurd (hok tasks htl).1 hne
    · rintro ⟨err, h⟩
      rw [h]
      simp [pulse]

/-- C30 at a failing `ListTasks`: the error is logged and returned, and nothing is
deleted. -/
theorem C30_pulse_swallows_errors_witness :
    pulse exampleTagStore (.error "list failed") =
      (some ["list failed"], [JanitorEvent.logListFailed "list failed"]) :=
  (C30_pulse_swallows_errors exampleTagStore (.error "list failed")).1 "list failed" rfl

/-! ## Unfittable consumers and the text of their error -/

/-- Formatting with no operand copies a text without `%` unchanged. -/
theorem fmtNoOperands_literal (s : List Char) :
    ∀ fuel : Nat, s.length < fuel → (∀ c ∈ s, c ≠ '%') → fmtNoOperands fuel s = s := by
  induction s with
  | nil => intro fuel hfuel _; cases fuel with
    | zero => cases hfuel
    | succ n => rfl
  | cons c rest ih =>
    intro fuel hfuel hfree
    cases fuel with
    | zero => cases hfuel
    | succ n =>
      have hc : c ≠ '%' := hfree c (List.mem_cons_self _ _)
      have hrest : fmtNoOperands n rest = rest :=
        ih n (by simpa using hfuel) (fun x hx => hfree x (List.mem_cons_of_mem _ hx))
      simp [fmtNoOperands, hc, hrest]

/-- The error `fmt.Errorf(format)` has the format itself as its text when the format
holds no `%`. -/
theorem errorf_of_no_percent (format : String) (hfree : ∀ c ∈ format.data, c ≠ '%') :
    Errorf format = format := by
  obtain ⟨data⟩ := format
  show String.mk (fmtNoOperands (data.length + 1) data) = String.mk data
  rw [fmtNoOperands_literal data (data.length + 1) (Nat.lt_succ_self _) hfree]

/-- The error recorded for an unfittable consumer whose ID holds no `%` is the text
of lines 120-122, which names the ID between quotes. -/
theorem unfittableText_of_no_percent (c : ResourceConsumer)
    (hfree : ∀ x ∈ c.ID.data, x ≠ '%') : unfittableText c = unfittableFormat c := by
  apply errorf_of_no_percent
  intro x hx
  simp only [unfittableFormat, String.data_append, List.mem_append] at hx
  rcases hx with ((((hx | hx) | hx) | hx) | hx)
  · intro h; subst h; revert hx; decide
  · exact hfree x hx
  · intro h; subst h; revert hx; decide
  · intro h; subst h; revert hx; decide
  · intro h; subst h; revert hx; decide

/-- The iteration for a consumer `c` that fits neither a provider of the current
list nor the fresh prototype: it records exactly one error, `fmt.Errorf` of the
text that names the ID of `c`, appends nothing (the list after the iteration is
the scanned list, a reordering of the list before it), and does not abort; the
loop goes on with the later consumers, and if they are packed the pass ends with
the `ScaleTo` call and returns a `ScalerRunInfo` together with a non-nil error that
holds the recorded one. -/
theorem unfittable_recorded (pm : ProviderManager) (env : String) (st : LoopState)
    (c : ResourceConsumer) (proto : ResourceProvider)
    (hnone : ∀ q ∈ st.providers, HasResourcesFor q c = false)
    (hproto : pm.CalculateNewProvider env st.calls = .ok proto)
    (hsmall : HasResourcesFor proto c = false) :
    packConsumer pm env st c =
        .ok { providers := sortedProviders st.providers,
              errs := st.errs ++ [unfittableText c], calls := st.calls + 1 } ∧
      unfittableText c = Errorf ("Resource '" ++ c.ID ++ "' cannot fit into an empty provider!"
        ++ "\nThe instance size in your environment is too small to run this resource."
        ++ "\nPlease increase the instance size for your environment") ∧
      (scanProviders c (sortedProviders st.providers)).1 = sortedProviders st.providers ∧
      (sortedProviders st.providers).Perm st.providers ∧
      (sortedProviders st.providers).length = st.providers.length ∧
      (∀ (providers : List ResourceProvider) (pre post : List ResourceConsumer),
        packConsumers pm env (initialState providers) pre = .ok st →
        packConsumers pm env (initialState providers) (pre ++ c :: post) =
          packConsumers pm env
            { providers := sortedProviders st.providers,
              errs := st.errs ++ [unfittableText c], calls := st.calls + 1 } post) ∧
      (∀ (providers : List ResourceProvider) (pre post : List ResourceConsumer)
          (last : LoopState),
        packConsumers pm env (initialState providers) pre = .ok st →
        packConsumers pm env
            { providers := sortedProviders st.providers,
              errs := st.errs ++ [unfittableText c], calls := st.calls + 1 } post = .ok last →
        RunBasicScaler env providers (pre ++ c :: post) pm =
            .ok (finishRun pm env (providers.length : Int) (pre ++ c :: post) last) ∧
          ∃ errs, (finishRun pm env (providers.length : Int) (pre ++ c :: post) last).err =
              some errs ∧
            (finishRun pm env (providers.length : Int) (pre ++ c :: post) last).errs = errs ∧
            unfittableText c ∈ errs) := by
  have hstep : packConsumer pm env st c =
      .ok { providers := sortedProviders st.providers,
            errs := st.errs ++ [unfittableText c], calls := st.calls + 1 } := by
    rw [packConsumer_nofit pm env st c hnone, hproto]
    simp [hsmall]
  have hrun : ∀ (providers : List ResourceProvider) (pre post : List ResourceConsumer),
      packConsumers pm env (initialState providers) pre = .ok st →
      packConsumers pm env (initialState providers) (pre ++ c :: post) =
        packConsumers pm env
          { providers := sortedProviders st.providers,
            errs := st.errs ++ [unfittableText c], calls := st.calls + 1 } post := by
    intro providers pre post hpre
    rw [packConsumers_append pm env _ pre (c :: post) st hpre]
    exact packConsumers_cons pm env st _ c post hstep
  have hscan : scanProviders c (sortedProviders st.providers) =
      (sortedProviders st.providers, false) :=
    scan_none c _ (fun q hq => hnone q ((mem_sortedProviders _ q).1 hq))
  refine ⟨hstep, rfl, by rw [hscan], sortedProviders_perm _, sortedProviders_length _,
    hrun, ?_⟩
  intro providers pre post last hpre hpost
  refine ⟨?_, ?_⟩
  · unfold RunBasicScaler
    rw [hrun providers pre post hpre, hpost]
  · obtain ⟨extra, hextra, _⟩ := packConsumers_errs pm env _ last post hpost
    have hmem : unfittableText c ∈ last.errs := by rw [hextra]; simp
    have hfin : unfittableText c ∈
        (finishRun pm env (providers.length : Int) (pre ++ c :: post) last).errs := by
      simp only [finishRun]
      split
      · exact List.mem_append_left _ hmem
      · exact hmem
    refine ⟨_, ?_, rfl, hfin⟩
    have hne : (finishRun pm env (providers.length : Int) (pre ++ c :: post) last).errs ≠ [] :=
      List.ne_nil_of_mem hfin
    show MultiError _ = _
    unfold MultiError
    rw [if_neg]
    · rfl
    · simpa [List.isEmpty_iff] using hne

set_option maxRecDepth 100000 in
/-- The error text recorded for a consumer whose ID is `job-100%d`: `fmt.Errorf`
reads the `%d` inside the ID as a verb without operand. -/
theorem unfittableText_percent :
    unfittableText (task "job-100%d" (4 * GB)) =
      "Resource 'job-100%!d(MISSING)' cannot fit into an empty provider!"
        ++ "\nThe instance size in your environment is too small to run this resource."
        ++ "\nPlease increase the instance size for your environment" := by
  rfl

set_option maxRecDepth 100000 in
/-- The error text recorded for a consumer whose ID is `t1` names that ID. -/
theorem unfittableText_plain :
    unfittableText (task "t1" (4 * GB)) =
      "Resource 't1' cannot fit into an empty provider!"
        ++ "\nThe instance size in your environment is too small to run this resource."
        ++ "\nPlease increase the instance size for your environment" := by
  rfl

set_option maxRecDepth 100000 in
/-- The ID `job-100%d` occurs nowhere in the error text recorded for it. -/
theorem unfittableText_percent_not_named :
    ¬ ("job-100%d".data <:+:
      ("Resource 'job-100%!d(MISSING)' cannot fit into an empty provider!"
        ++ "\nThe instance size in your environment is too small to run this resource."
        ++ "\nPlease increase the instance size for your environment").data) := by
  decide

/-- C3: the pass for no providers, a fresh 1 GB prototype and one 4 GB consumer
whose ID is `job-100%d`.  The consumer fits nowhere; the pass records exactly one
error, appends nothing, reports desired 0, calls `ScaleTo(env, 0, [])` and returns a
`ScalerRunInfo` with that one error as its non-nil error.  The recorded error does
not name the ID of the consumer: line 123 hands the text to `fmt.Errorf` as a
format, so the text reads `job-100%!d(MISSING)` and the ID `job-100%d` occurs
nowhere in it.  For the ID `t1` of scenario S3, which holds no `%`, the same pass
records the text that names `t1`. -/
theorem C3_unfittable_id_rewritten :
    (∃ out, RunBasicScaler "env" [] [task "job-100%d" (4 * GB)] exampleManager = .ok out ∧
      out.errs = ["Resource 'job-100%!d(MISSING)' cannot fit into an empty provider!"
        ++ "\nThe instance size in your environment is too small to run this resource."
        ++ "\nPlease increase the instance size for your environment"] ∧
      out.err = some out.errs ∧
      (∀ text ∈ out.errs, ¬ ((task "job-100%d" (4 * GB)).ID.data <:+: text.data)) ∧
      out.info.DesiredScaleAfterRun = 0 ∧ out.info.ResourceProviders = [] ∧
      out.providers = [] ∧ out.scaleToDesired = 0 ∧ out.scaleToUnused = []) ∧
    (∃ out, RunBasicScaler "env" [] [task "t1" (4 * GB)] exampleManager = .ok out ∧
      out.errs = ["Resource 't1' cannot fit into an empty provider!"
        ++ "\nThe instance size in your environment is too small to run this resource."
        ++ "\nPlease increase the instance size for your environment"] ∧
      out.err = some out.errs ∧
      out.info.DesiredScaleAfterRun = 0 ∧ out.info.ResourceProviders = [] ∧
      out.providers = [] ∧ out.scaleToDesired = 0 ∧ out.scaleToUnused = []) := by
  have hrun : ∀ id : String, RunBasicScaler "env" [] [task id (4 * GB)] exampleManager =
      .ok (finishRun exampleManager "env" 0 [task id (4 * GB)]
        { providers := [], errs := [unfittableText (task id (4 * GB))], calls := 1 }) := by
    intro id
    rfl
  refine ⟨⟨_, hrun _, ?_, ?_, ?_, by decide, by decide, by decide, by decide, by decide⟩,
    ⟨_, hrun _, ?_, ?_, by decide, by decide, by decide, by decide, by decide⟩⟩
  · show [unfittableText (task "job-100%d" (4 * GB))] = _
    rw [unfittableText_percent]
  · rfl
  · intro text htext
    have h : text = unfittableText (task "job-100%d" (4 * GB)) := by
      simpa [finishRun, exampleManager, constManager] using htext
    rw [h, unfittableText_percent]
    exact unfittableText_percent_not_named
  · show [unfittableText (task "t1" (4 * GB))] = _
    rw [unfittableText_plain]
  · rfl

/-! ## Calls and runs, statement by statement -/

theorem stepTimeout_due (s : RaceState) (c : Nat) (run : ScheduledRun) (now : Int)
    (hwait : s.dispatcher.waiting c = some run) (hdue : fireTime run ≤ now) :
    stepTimeout s c now =
      some { s with
        dispatcher :=
          { s.dispatcher with
            scheduledRuns := fun e => if e = run.environmentID then none
              else s.dispatcher.scheduledRuns e,
            waiting := fun c2 => if c2 = c then none else s.dispatcher.waiting c2,
            actions := s.dispatcher.actions ++ [RunAction.deleteEntry run.environmentID] },
        firing := fun c2 => if c2 = c then
            some (FiringRun.mk run.environmentID FirePoint.deleted now)
          else s.firing c2 } := by
  simp only [stepTimeout, hwait, hdue, if_true]

theorem stepTimeout_early (s : RaceState) (c : Nat) (run : ScheduledRun) (now : Int)
    (hwait : s.dispatcher.waiting c = some run) (hearly : now < fireTime run) :
    stepTimeout s c now = none := by
  have hnot : ¬ (fireTime run ≤ now) := not_le.mpr hearly
  simp only [stepTimeout, hwait, hnot, if_false]

theorem stepTimeout_idle (s : RaceState) (c : Nat) (now : Int)
    (hwait : s.dispatcher.waiting c = none) : stepTimeout s c now = none := by
  simp only [stepTimeout, hwait]

theorem stepTimeout_some (s s2 : RaceState) (c : Nat) (now : Int)
    (h : stepTimeout s c now = some s2) :
    ∃ run, s.dispatcher.waiting c = some run ∧ fireTime run ≤ now := by
  cases hwait : s.dispatcher.waiting c with
  | none => rw [stepTimeout_idle s c now hwait] at h; cases h
  | some run =>
    by_cases hdue : fireTime run ≤ now
    · exact ⟨run, rfl, hdue⟩
    · rw [stepTimeout_early s c run now hwait (not_le.mp hdue)] at h; cases h

theorem stepClose_deleted (s : RaceState) (c : Nat) (e : String) (since : Int)
    (h : s.firing c = some (FiringRun.mk e FirePoint.deleted since)) :
    stepClose s c =
      some { s with
        dispatcher :=
          { s.dispatcher with
            actions := s.dispatcher.actions ++ [RunAction.closeChannel c] },
        closed := c :: s.closed,
        firing := fun c2 => if c2 = c then some (FiringRun.mk e FirePoint.closed since)
          else s.firing c2 } := by
  simp only [stepClose, h]

theorem stepClose_some (s s2 : RaceState) (c : Nat) (h : stepClose s c = some s2) :
    ∃ e since, s.firing c = some (FiringRun.mk e FirePoint.deleted since) := by
  cases hf : s.firing c with
  | none => simp [stepClose, hf] at h
  | some v =>
    obtain ⟨e, point, since⟩ := v
    cases point with
    | deleted => exact ⟨e, since, rfl⟩
    | closed => simp [stepClose, hf] at h

theorem stepClose_none (s : RaceState) (c : Nat)
    (h : ∀ e since, s.firing c ≠ some (FiringRun.mk e FirePoint.deleted since)) :
    stepClose s c = none := by
  cases hstep : stepClose s c with
  | none => rfl
  | some s2 =>
    obtain ⟨e, since, hf⟩ := stepClose_some s s2 c hstep
    exact absurd hf (h e since)

theorem stepScale_closed (r : L0EnvironmentScaler) (s : RaceState) (c : Nat) (e : String)
    (since now : Int) (h : s.firing c = some (FiringRun.mk e FirePoint.closed since))
    (hnow : since ≤ now) :
    stepScale r s c now =
      some { s with
        dispatcher :=
          { s.dispatcher with
            actions := s.dispatcher.actions ++
              ([RunAction.logScalingNow e, RunAction.invokeScale e] ++
                match scaleError r e with
                | some err => [RunAction.logScaleError e err]
                | none => []),
            scaleCalls := s.dispatcher.scaleCalls ++ [(e, now)] },
        firing := fun c2 => if c2 = c then none else s.firing c2,
        scaleRuns := s.scaleRuns ++
          [{ environmentID := e, instant := now, result := Scale r e }] } := by
  simp only [stepScale, h, hnow, if_true]

theorem stepScale_some (r : L0EnvironmentScaler) (s s2 : RaceState) (c : Nat) (now : Int)
    (h : stepScale r s c now = some s2) :
    ∃ e since, s.firing c = some (FiringRun.mk e FirePoint.closed since) ∧ since ≤ now := by
  cases hf : s.firing c with
  | none => simp [stepScale, hf] at h
  | some v =>
    obtain ⟨e, point, since⟩ := v
    cases point with
    | deleted => simp [stepScale, hf] at h
    | closed =>
      by_cases hnow : since ≤ now
      · exact ⟨e, since, rfl, hnow⟩
      · simp [stepScale, hf, hnow] at h

theorem stepScale_none (r : L0EnvironmentScaler) (s : RaceState) (c : Nat) (now : Int)
    (h : ∀ e since, s.firing c = some (FiringRun.mk e FirePoint.closed since) → now < since) :
    stepScale r s c now = none := by
  cases hstep : stepScale r s c now with
  | none => rfl
  | some s2 =>
    obtain ⟨e, since, hf, hnow⟩ := stepScale_some r s s2 c now hstep
    exact absurd hnow (not_le.mpr (h e since hf))

theorem channelsInOrder_step (r : L0EnvironmentScaler) (e : String) (delay : Int)
    (s s2 : RaceState) (step : RaceStep) (hinv : ChannelsInOrder s)
    (h : raceStep r e delay s step = some s2) : ChannelsInOrder s2 := by
  obtain ⟨h1, h2⟩ := hinv
  have htimeout : ∀ (t t2 : RaceState) (c : Nat) (now : Int), ChannelsInOrder t →
      stepTimeout t c now = some t2 → ChannelsInOrder t2 := by
    intro t t2 c now ht hstep
    obtain ⟨run, hwait, hdue⟩ := stepTimeout_some t t2 c now hstep
    rw [stepTimeout_due t c run now hwait hdue] at hstep
    cases hstep
    refine ⟨?_, ?_⟩
    · intro c2 hc2
      have hc := ht.1 c2 hc2
      have hne : c2 ≠ c := by
        intro heq
        rw [heq, hwait] at hc
        cases hc.1
      simp only [hne, if_false]
      exact hc
    · intro c2 run2 hw
      by_cases heq : c2 = c
      · simp [heq] at hw
      · simp only [heq, if_false] at hw ⊢
        exact ht.2 c2 run2 hw
  have hclose : ∀ (t t2 : RaceState) (c : Nat), ChannelsInOrder t →
      stepClose t c = some t2 → ChannelsInOrder t2 := by
    intro t t2 c ht hstep
    obtain ⟨env, since, hf⟩ := stepClose_some t t2 c hstep
    rw [stepClose_deleted t c env since hf] at hstep
    cases hstep
    refine ⟨?_, ?_⟩
    · intro c2 hc2
      have hc := ht.1 c2 hc2
      have hne : c2 ≠ c := by
        intro heq
        rw [heq, hf] at hc
        cases hc.2
      simp only [hne, if_false]
      exact hc
    · intro c2 run2 hw
      have hnone := ht.2 c2 run2 hw
      have hne : c2 ≠ c := by
        intro heq
        rw [heq, hf] at hnone
        cases hnone
      simp only [hne, if_false]
      exact hnone
  have hscale : ∀ (t t2 : RaceState) (c : Nat) (now : Int), ChannelsInOrder t →
      stepScale r t c now = some t2 → ChannelsInOrder t2 := by
    intro t t2 c now ht hstep
    obtain ⟨env, since, hf, hnow⟩ := stepScale_some r t t2 c now hstep
    rw [stepScale_closed r t c env since now hf hnow] at hstep
    cases hstep
    refine ⟨?_, ?_⟩
    · intro c2 hc2
      have hc := ht.1 c2 hc2
      refine ⟨hc.1, ?_⟩
      by_cases heq : c2 = c
      · simp [heq]
      · simp only [heq, if_false]
        exact hc.2
    · intro c2 run2 hw
      by_cases heq : c2 = c
      · simp [heq]
      · simp only [heq, if_false]
        exact ht.2 c2 run2 hw
  cases step with
  | lookup =>
    simp only [raceStep] at h
    split at h
    · split at h <;> (cases h; exact ⟨h1, h2⟩)
    · cases h
  | send now =>
    simp only [raceStep] at h
    split at h
    · rename_i c hcall
      split at h
      · cases h; exact ⟨h1, h2⟩
      · split at h
        · rename_i run hwait
          cases h
          refine ⟨?_, ?_⟩
          · intro c2 hc2
            have hc := h1 c2 hc2
            have hne : c2 ≠ c := by
              intro heq
              rw [heq, hwait] at hc
              cases hc.1
            simp only [hne, if_false]
            exact hc
          · intro c2 run2 hw
            by_cases heq : c2 = c
            · rw [heq]
              exact h2 c run hwait
            · simp only [heq, if_false] at hw
              exact h2 c2 run2 hw
        · cases h
    · cases h
  | start now =>
    simp only [raceStep] at h
    split at h
    · cases h
      refine ⟨?_, ?_⟩
      · intro c2 hc2
        have hc2b : s.dispatcher.nextChannel + 1 ≤ c2 := hc2
        have hne : c2 ≠ s.dispatcher.nextChannel := by omega
        simp only [hne, if_false]
        exact h1 c2 (by omega)
      · intro c2 run2 hw
        by_cases heq : c2 = s.dispatcher.nextChannel
        · rw [heq]
          exact (h1 _ (le_refl _)).2
        · simp only [heq, if_false] at hw
          exact h2 c2 run2 hw
    · cases h
  | register =>
    simp only [raceStep] at h
    split at h
    · cases h; exact ⟨h1, h2⟩
    · cases h
  | timeout c now => exact htimeout s s2 c now ⟨h1, h2⟩ h
  | close c => exact hclose s s2 c ⟨h1, h2⟩ h
  | scale c now => exact hscale s s2 c now ⟨h1, h2⟩ h
  | timer c now =>
    simp only [raceStep] at h
    split at h
    · cases h
    · rename_i t1 ht1
      split at h
      · cases h
      · rename_i t2 ht2
        exact hscale t2 s2 c now (hclose t1 t2 c (htimeout s t1 c now ⟨h1, h2⟩ ht1) ht2) h

theorem channelsInOrder_reachable (r : L0EnvironmentScaler) (s : RaceState)
    (h : Reachable r s) : ChannelsInOrder s := by
  induction h with
  | initial => exact ⟨fun c _ => ⟨rfl, rfl⟩, fun c run hw => rfl⟩
  | step s s2 e delay step _ hstep ih => exact channelsInOrder_step r e delay s s2 step ih hstep
  | next s _ _ ih => exact ih

theorem runEnded_step (r : L0EnvironmentScaler) (e : String) (delay : Int)
    (s s2 : RaceState) (step : RaceStep) (c : Nat) (hend : RunEnded s c)
    (h : raceStep r e delay s step = some s2) : RunEnded s2 c := by
  obtain ⟨h1, h2, h3⟩ := hend
  have htimeout : ∀ (t t2 : RaceState) (c2 : Nat) (now : Int), RunEnded t c →
      stepTimeout t c2 now = some t2 → RunEnded t2 c := by
    intro t t2 c2 now ht hstep
    obtain ⟨run, hwait, hdue⟩ := stepTimeout_some t t2 c2 now hstep
    rw [stepTimeout_due t c2 run now hwait hdue] at hstep
    cases hstep
    have hne : c ≠ c2 := by
      intro heq
      rw [← heq, ht.2.1] at hwait
      cases hwait
    exact ⟨ht.1, by simp only [hne, if_false]; exact ht.2.1,
      by simp only [hne, if_false]; exact ht.2.2⟩
  have hclose : ∀ (t t2 : RaceState) (c2 : Nat), RunEnded t c →
      stepClose t c2 = some t2 → RunEnded t2 c := by
    intro t t2 c2 ht hstep
    obtain ⟨env, since, hf⟩ := stepClose_some t t2 c2 hstep
    rw [stepClose_deleted t c2 env since hf] at hstep
    cases hstep
    have hne : c ≠ c2 := by
      intro heq
      rw [← heq, ht.2.2] at hf
      cases hf
    exact ⟨ht.1, ht.2.1, by simp only [hne, if_false]; exact ht.2.2⟩
  have hscale : ∀ (t t2 : RaceState) (c2 : Nat) (now : Int), RunEnded t c →
      stepScale r t c2 now = some t2 → RunEnded t2 c := by
    intro t t2 c2 now ht hstep
    obtain ⟨env, since, hf, hnow⟩ := stepScale_some r t t2 c2 now hstep
    rw [stepScale_closed r t c2 env since now hf hnow] at hstep
    cases hstep
    have hne : c ≠ c2 := by
      intro heq
      rw [← heq, ht.2.2] at hf
      cases hf
    exact ⟨ht.1, ht.2.1, by simp only [hne, if_false]; exact ht.2.2⟩
  cases step with
  | lookup =>
    simp only [raceStep] at h
    split at h
    · split at h <;> (cases h; exact ⟨h1, h2, h3⟩)
    · cases h
  | send now =>
    simp only [raceStep] at h
    split at h
    · rename_i c2 hcall
      split at h
      · cases h; exact ⟨h1, h2, h3⟩
      · split at h
        · rename_i run hwait
          cases h
          have hne : c ≠ c2 := by
            intro heq
            rw [← heq, h2] at hwait
            cases hwait
          exact ⟨h1, by simp only [hne, if_false]; exact h2, h3⟩
        · cases h
    · cases h
  | start now =>
    simp only [raceStep] at h
    split at h
    · cases h
      have hne : c ≠ s.dispatcher.nextChannel := by omega
      exact ⟨Nat.lt_succ_of_lt h1, by simp only [hne, if_false]; exact h2, h3⟩
    · cases h
  | register =>
    simp only [raceStep] at h
    split at h
    · cases h; exact ⟨h1, h2, h3⟩
    · cases h
  | timeout c2 now => exact htimeout s s2 c2 now ⟨h1, h2, h3⟩ h
  | close c2 => exact hclose s s2 c2 ⟨h1, h2, h3⟩ h
  | scale c2 now => exact hscale s s2 c2 now ⟨h1, h2, h3⟩ h
  | timer c2 now =>
    simp only [raceStep] at h
    split at h
    · cases h
    · rename_i t1 ht1
      split at h
      · cases h
      · rename_i t2 ht2
        exact hscale t2 s2 c2 now (hclose t1 t2 c2 (htimeout s t1 c2 now ⟨h1, h2, h3⟩ ht1) ht2) h

theorem runEnded_disabled (r : L0EnvironmentScaler) (e : String) (delay : Int)
    (s : RaceState) (c : Nat) (hend : RunEnded s c) (now : Int) :
    raceStep r e delay s (.timeout c now) = none ∧ raceStep r e delay s (.close c) = none ∧
      raceStep r e delay s (.scale c now) = none ∧
      raceStep r e delay s (.timer c now) = none := by
  obtain ⟨_, h2, h3⟩ := hend
  refine ⟨?_, ?_, ?_, ?_⟩
  · exact stepTimeout_idle s c now h2
  · simp [raceStep, stepClose, h3]
  · simp [raceStep, stepScale, h3]
  · simp [raceStep, stepTimeout_idle s c now h2]

theorem reachable_steps (r : L0EnvironmentScaler) (e : String) (delay : Int)
    (steps : List RaceStep) :
    ∀ s s2 : RaceState, Reachable r s → raceSteps r e delay s steps = some s2 →
      Reachable r s2 := by
  induction steps with
  | nil =>
    intro s s2 hs h
    simp only [raceSteps] at h
    cases h
    exact hs
  | cons step rest ih =>
    intro s s2 hs h
    simp only [raceSteps] at h
    cases hstep : raceStep r e delay s step with
    | none => rw [hstep] at h; cases h
    | some s1 =>
      rw [hstep] at h
      exact ih s1 s2 (Reachable.step s s1 e delay step hs hstep) h

/-- The statements of a run are taken in program order under every interleaving: a
run is at the `close` only through its own timeout branch, which deletes the entry
of its environment; and it is at the call of `Scale` only through its own `close`,
which closes its channel. -/
theorem run_order_step (r : L0EnvironmentScaler) (e : String) (delay : Int)
    (s s2 : RaceState) (step : RaceStep) (c : Nat) (env : String) (since : Int)
    (h : raceStep r e delay s step = some s2) :
    (s2.firing c = some (FiringRun.mk env FirePoint.deleted since) →
      s.firing c = some (FiringRun.mk env FirePoint.deleted since) ∨
        (step = .timeout c since ∧ s2.dispatcher.scheduledRuns env = none ∧
          ∃ run, s.dispatcher.waiting c = some run ∧ fireTime run ≤ since)) ∧
    (s2.firing c = some (FiringRun.mk env FirePoint.closed since) →
      s.firing c = some (FiringRun.mk env FirePoint.closed since) ∨
        (step = .close c ∧ s.firing c = some (FiringRun.mk env FirePoint.deleted since) ∧
          c ∈ s2.closed)) := by
  have htimeout : ∀ (t t2 : RaceState) (c2 : Nat) (now : Int),
      stepTimeout t c2 now = some t2 →
      (t2.firing c = some (FiringRun.mk env FirePoint.deleted since) →
        t.firing c = some (FiringRun.mk env FirePoint.deleted since) ∨
          (c2 = c ∧ now = since ∧ t2.dispatcher.scheduledRuns env = none ∧
            ∃ run, t.dispatcher.waiting c = some run ∧ fireTime run ≤ since)) ∧
      (t2.firing c = some (FiringRun.mk env FirePoint.closed since) →
        t.firing c = some (FiringRun.mk env FirePoint.closed since)) := by
    intro t t2 c2 now hstep
    obtain ⟨run, hwait, hdue⟩ := stepTimeout_some t t2 c2 now hstep
    rw [stepTimeout_due t c2 run now hwait hdue] at hstep
    cases hstep
    by_cases heq : c = c2
    · refine ⟨fun hf => Or.inr ?_, fun hf => ?_⟩
      · simp only [heq, if_true, Option.some.injEq, FiringRun.mk.injEq, true_and] at hf
        refine ⟨heq.symm, hf.2, by simp [hf.1], run, by rw [heq]; exact hwait, ?_⟩
        rw [← hf.2]
        exact hdue
      · simp [heq] at hf
    · refine ⟨fun hf => Or.inl ?_, fun hf => ?_⟩
      · simpa [heq] using hf
      · simpa [heq] using hf
  have hclose : ∀ (t t2 : RaceState) (c2 : Nat),
      stepClose t c2 = some t2 →
      (t2.firing c = some (FiringRun.mk env FirePoint.deleted since) →
        t.firing c = some (FiringRun.mk env FirePoint.deleted since)) ∧
      (t2.firing c = some (FiringRun.mk env FirePoint.closed since) →
        t.firing c = some (FiringRun.mk env FirePoint.closed since) ∨
          (c2 = c ∧ t.firing c = some (FiringRun.mk env FirePoint.deleted since) ∧
            c ∈ t2.closed)) := by
    intro t t2 c2 hstep
    obtain ⟨env2, since2, hf2⟩ := stepClose_some t t2 c2 hstep
    rw [stepClose_deleted t c2 env2 since2 hf2] at hstep
    cases hstep
    by_cases heq : c = c2
    · refine ⟨fun hf => ?_, fun hf => Or.inr ⟨heq.symm, ?_, ?_⟩⟩
      · simp [heq] at hf
      · simp only [heq, if_true, Option.some.injEq, FiringRun.mk.injEq, true_and] at hf
        rw [heq, hf2, hf.1, hf.2]
      · simp [heq]
    · refine ⟨fun hf => ?_, fun hf => Or.inl ?_⟩
      · simpa [heq] using hf
      · simpa [heq] using hf
  have hscale : ∀ (t t2 : RaceState) (c2 : Nat) (now : Int),
      stepScale r t c2 now = some t2 →
      ∀ point, t2.firing c = some (FiringRun.mk env point since) →
        t.firing c = some (FiringRun.mk env point since) := by
    intro t t2 c2 now hstep point hf
    obtain ⟨env2, since2, hf2, hnow⟩ := stepScale_some r t t2 c2 now hstep
    rw [stepScale_closed r t c2 env2 since2 now hf2 hnow] at hstep
    cases hstep
    by_cases heq : c = c2
    · simp [heq] at hf
    · simpa [heq] using hf
  cases step with
  | lookup =>
    simp only [raceStep] at h
    split at h
    · split at h <;> (cases h; exact ⟨Or.inl, Or.inl⟩)
    · cases h
  | send now =>
    simp only [raceStep] at h
    split at h
    · split at h
      · cases h; exact ⟨Or.inl, Or.inl⟩
      · split at h
        · cases h; exact ⟨Or.inl, Or.inl⟩
        · cases h
    · cases h
  | start now =>
    simp only [raceStep] at h
    split at h
    · cases h; exact ⟨Or.inl, Or.inl⟩
    · cases h
  | register =>
    simp only [raceStep] at h
    split at h
    · cases h; exact ⟨Or.inl, Or.inl⟩
    · cases h
  | timeout c2 now =>
    obtain ⟨hd, hc⟩ := htimeout s s2 c2 now h
    refine ⟨fun hf => ?_, fun hf => Or.inl (hc hf)⟩
    rcases hd hf with hold | ⟨heq, hnow, hreg, hrun⟩
    · exact Or.inl hold
    · exact Or.inr ⟨by rw [heq, hnow], hreg, hrun⟩
  | close c2 =>
    obtain ⟨hd, hc⟩ := hclose s s2 c2 h
    refine ⟨fun hf => Or.inl (hd hf), fun hf => ?_⟩
    rcases hc hf with hold | ⟨heq, hdel, hmem⟩
    · exact Or.inl hold
    · exact Or.inr ⟨by rw [heq], hdel, hmem⟩
  | scale c2 now =>
    exact ⟨fun hf => Or.inl (hscale s s2 c2 now h _ hf),
      fun hf => Or.inl (hscale s s2 c2 now h _ hf)⟩
  | timer c2 now =>
    simp only [raceStep] at h
    split at h
    · cases h
    · rename_i t1 ht1
      split at h
      · cases h
      · rename_i t2 ht2
        obtain ⟨env1, since1, hf1⟩ := stepClose_some t1 t2 c2 ht2
        obtain ⟨run, hwait, hdue⟩ := stepTimeout_some s t1 c2 now ht1
        have hne : ∀ point, s2.firing c = some (FiringRun.mk env point since) → c ≠ c2 := by
          intro point hf heq
          obtain ⟨env2, since2, hf2, hnow⟩ := stepScale_some r t2 s2 c2 now h
          rw [stepScale_closed r t2 c2 env2 since2 now hf2 hnow] at h
          cases h
          simp [heq] at hf
        have hback : ∀ point, s2.firing c = some (FiringRun.mk env point since) →
            s.firing c = some (FiringRun.mk env point since) := by
          intro point hf
          have hcne := hne point hf
          have h2 := hscale t2 s2 c2 now h point hf
          rw [stepClose_deleted t1 c2 env1 since1 hf1] at ht2
          cases ht2
          rw [stepTimeout_due s c2 run now hwait hdue] at ht1
          cases ht1
          simpa [hcne] using h2
        exact ⟨fun hf => Or.inl (hback _ hf), fun hf => Or.inl (hback _ hf)⟩

/-- The step `timer` is the timeout branch, the `close` and the call of `Scale` taken
in a row at one instant. -/
theorem timer_as_steps (r : L0EnvironmentScaler) (e : String) (delay : Int) (s : RaceState)
    (c : Nat) (now : Int) :
    raceStep r e delay s (.timer c now) =
      raceSteps r e delay s [.timeout c now, .close c, .scale c now] := by
  simp only [raceSteps, raceStep]
  cases stepTimeout s c now with
  | none => rfl
  | some s1 =>
    simp only
    cases stepClose s1 c with
    | none => rfl
    | some s2 =>
      simp only
      cases stepScale r s2 c now <;> rfl

theorem raceStep_lookup_none (r : L0EnvironmentScaler) (e : String) (delay : Int)
    (s : RaceState) (hcall : s.call = .notStarted) (hnone : s.dispatcher.scheduledRuns e = none) :
    raceStep r e delay s .lookup = some { s with call := .creating } := by
  simp only [raceStep, hcall, hnone]

theorem raceStep_lookup_some (r : L0EnvironmentScaler) (e : String) (delay : Int)
    (s : RaceState) (c : Nat) (hcall : s.call = .notStarted)
    (hreg : s.dispatcher.scheduledRuns e = some c) :
    raceStep r e delay s .lookup = some { s with call := .sending c } := by
  simp only [raceStep, hcall, hreg]

theorem raceStep_start (r : L0EnvironmentScaler) (e : String) (delay now : Int)
    (s : RaceState) (hcall : s.call = .creating) :
    raceStep r e delay s (.start now) =
      some { s with
        dispatcher :=
          { s.dispatcher with
            waiting := fun c2 => if c2 = s.dispatcher.nextChannel then
                some (ScheduledRun.mk e s.dispatcher.nextChannel delay now)
              else s.dispatcher.waiting c2,
            nextChannel := s.dispatcher.nextChannel + 1,
            actions := s.dispatcher.actions ++ [RunAction.logScalingIn e delay] },
        call := .registering s.dispatcher.nextChannel } := by
  simp only [raceStep, hcall]

theorem raceStep_register (r : L0EnvironmentScaler) (e : String) (delay : Int)
    (s : RaceState) (c : Nat) (hcall : s.call = .registering c) :
    raceStep r e delay s .register =
      some { s with
        dispatcher :=
          { s.dispatcher with
            scheduledRuns := fun e2 => if e2 = e then some c
              else s.dispatcher.scheduledRuns e2 },
        call := .returned } := by
  simp only [raceStep, hcall]

theorem raceStep_send_received (r : L0EnvironmentScaler) (e : String) (delay now : Int)
    (s : RaceState) (c : Nat) (run : ScheduledRun) (hcall : s.call = .sending c)
    (hopen : c ∉ s.closed) (hwait : s.dispatcher.waiting c = some run) :
    raceStep r e delay s (.send now) =
      some { s with
        dispatcher :=
          { s.dispatcher with
            waiting := fun c2 => if c2 = c then some (receiveDelay run delay now).1
              else s.dispatcher.waiting c2,
            actions := s.dispatcher.actions ++ (receiveDelay run delay now).2 },
        call := .returned } := by
  simp only [raceStep, hcall, hopen, hwait, if_false]

theorem raceStep_send_closed (r : L0EnvironmentScaler) (e : String) (delay now : Int)
    (s : RaceState) (c : Nat) (hcall : s.call = .sending c) (hclosed : c ∈ s.closed) :
    raceStep r e delay s (.send now) = some { s with call := .panicked } := by
  simp only [raceStep, hcall, hclosed, if_true]

theorem raceStep_send_blocked (r : L0EnvironmentScaler) (e : String) (delay now : Int)
    (s : RaceState) (c : Nat) (hcall : s.call = .sending c) (hopen : c ∉ s.closed)
    (hwait : s.dispatcher.waiting c = none) :
    raceStep r e delay s (.send now) = none := by
  simp only [raceStep, hcall, hopen, hwait, if_false]

theorem raceSteps_cons (r : L0EnvironmentScaler) (e : String) (delay : Int)
    (s s1 : RaceState) (step : RaceStep) (rest : List RaceStep)
    (h : raceStep r e delay s step = some s1) :
    raceSteps r e delay s (step :: rest) = raceSteps r e delay s1 rest := by
  simp only [raceSteps, h]

theorem raceSteps_cons_none (r : L0EnvironmentScaler) (e : String) (delay : Int)
    (s : RaceState) (step : RaceStep) (rest : List RaceStep)
    (h : raceStep r e delay s step = none) :
    raceSteps r e delay s (step :: rest) = none := by
  simp only [raceSteps, h]

/-- The timeout branch and the `close` of a run blocked in its `select` whose timer
has elapsed at instant `now`. -/
theorem run_timeout_close (r : L0EnvironmentScaler) (e : String) (delay : Int)
    (s : RaceState) (c : Nat) (run : ScheduledRun) (now : Int)
    (hwait : s.dispatcher.waiting c = some run) (hdue : fireTime run ≤ now) :
    ∃ s2, raceSteps r e delay s [.timeout c now, .close c] = some s2 ∧
      s2.firing c = some (FiringRun.mk run.environmentID FirePoint.closed now) ∧
      s2.scaleRuns = s.scaleRuns ∧ s2.dispatcher.scaleCalls = s.dispatcher.scaleCalls ∧
      s2.dispatcher.scheduledRuns run.environmentID = none ∧
      (∀ e2, e2 ≠ run.environmentID →
        s2.dispatcher.scheduledRuns e2 = s.dispatcher.scheduledRuns e2) ∧
      s2.dispatcher.waiting c = none ∧
      s2.dispatcher.nextChannel = s.dispatcher.nextChannel ∧
      s2.closed = c :: s.closed ∧ s2.call = s.call := by
  obtain ⟨s1, h1, hf1, hruns1, hcalls1, hreg1, hother1, hwait1, hnext1, hclosed1, hcall1⟩ :
      ∃ s1, raceStep r e delay s (.timeout c now) = some s1 ∧
        s1.firing c = some (FiringRun.mk run.environmentID FirePoint.deleted now) ∧
        s1.scaleRuns = s.scaleRuns ∧ s1.dispatcher.scaleCalls = s.dispatcher.scaleCalls ∧
        s1.dispatcher.scheduledRuns run.environmentID = none ∧
        (∀ e2, e2 ≠ run.environmentID →
          s1.dispatcher.scheduledRuns e2 = s.dispatcher.scheduledRuns e2) ∧
        s1.dispatcher.waiting c = none ∧
        s1.dispatcher.nextChannel = s.dispatcher.nextChannel ∧
        s1.closed = s.closed ∧ s1.call = s.call :=
    ⟨_, stepTimeout_due s c run now hwait hdue, by simp, rfl, rfl, by simp,
      fun e2 he2 => by simp [he2], by simp, rfl, rfl, rfl⟩
  obtain ⟨s2, h2, hf2, hruns2, hcalls2, hreg2, hwait2, hnext2, hclosed2, hcall2⟩ :
      ∃ s2, raceStep r e delay s1 (.close c) = some s2 ∧
        s2.firing c = some (FiringRun.mk run.environmentID FirePoint.closed now) ∧
        s2.scaleRuns = s1.scaleRuns ∧ s2.dispatcher.scaleCalls = s1.dispatcher.scaleCalls ∧
        s2.dispatcher.scheduledRuns = s1.dispatcher.scheduledRuns ∧
        s2.dispatcher.waiting = s1.dispatcher.waiting ∧
        s2.dispatcher.nextChannel = s1.dispatcher.nextChannel ∧
        s2.closed = c :: s1.closed ∧ s2.call = s1.call :=
    ⟨_, stepClose_deleted s1 c run.environmentID now hf1, by simp, rfl, rfl, rfl, rfl, rfl, rfl,
      rfl⟩
  refine ⟨s2, ?_, hf2, by rw [hruns2, hruns1], by rw [hcalls2, hcalls1], by rw [hreg2, hreg1],
    fun e2 he2 => by rw [hreg2, hother1 e2 he2], by rw [hwait2, hwait1],
    by rw [hnext2, hnext1], by rw [hclosed2, hclosed1], by rw [hcall2, hcall1]⟩
  rw [raceSteps_cons r e delay s s1 _ _ h1, raceSteps_cons r e delay s1 s2 _ _ h2]
  rfl

theorem raceSteps_append (r : L0EnvironmentScaler) (e : String) (delay : Int)
    (steps1 steps2 : List RaceStep) :
    ∀ s s1 : RaceState, raceSteps r e delay s steps1 = some s1 →
      raceSteps r e delay s (steps1 ++ steps2) = raceSteps r e delay s1 steps2 := by
  induction steps1 with
  | nil =>
    intro s s1 h
    simp only [raceSteps] at h
    cases h
    rfl
  | cons step rest ih =>
    intro s s1 h
    simp only [raceSteps] at h
    cases hstep : raceStep r e delay s step with
    | none => rw [hstep] at h; cases h
    | some t =>
      rw [hstep] at h
      simp only [List.cons_append, raceSteps, hstep]
      exact ih t s1 h

/-- A run blocked in its `select` cannot call `Scale` at an instant before its timer
elapses, at whatever instant its timeout branch is tried. -/
theorem scale_not_before (r : L0EnvironmentScaler) (e : String) (delay : Int)
    (s : RaceState) (c : Nat) (run : ScheduledRun) (now now2 : Int)
    (hwait : s.dispatcher.waiting c = some run) (hearly : now2 < fireTime run) :
    raceSteps r e delay s [.timeout c now, .close c, .scale c now2] = none := by
  by_cases hdue : fireTime run ≤ now
  · obtain ⟨s2, hs2, hf2, _⟩ := run_timeout_close r e delay s c run now hwait hdue
    have happ := raceSteps_append r e delay [.timeout c now, .close c] [.scale c now2] s s2 hs2
    simp only [List.cons_append, List.nil_append] at happ
    rw [happ]
    apply raceSteps_cons_none
    apply stepScale_none
    intro env since hf
    rw [hf2] at hf
    cases hf
    omega
  · apply raceSteps_cons_none
    exact stepTimeout_early s c run now hwait (not_le.mp hdue)

/-- A run blocked in its `select` whose timer has elapsed at instant `now` takes its
timeout branch, closes its channel and calls `Scale` at any instant `now2` from
`now` on; it has ended afterwards. -/
theorem run_fires (r : L0EnvironmentScaler) (e : String) (delay : Int)
    (s : RaceState) (c : Nat) (run : ScheduledRun) (now now2 : Int)
    (hwait : s.dispatcher.waiting c = some run) (hdue : fireTime run ≤ now)
    (hlater : now ≤ now2) :
    ∃ s3, raceSteps r e delay s [.timeout c now, .close c, .scale c now2] = some s3 ∧
      s3.scaleRuns = s.scaleRuns ++
        [ScaleRun.mk run.environmentID now2 (Scale r run.environmentID)] ∧
      s3.dispatcher.scaleCalls = s.dispatcher.scaleCalls ++ [(run.environmentID, now2)] ∧
      s3.dispatcher.scheduledRuns run.environmentID = none ∧
      (∀ e2, e2 ≠ run.environmentID →
        s3.dispatcher.scheduledRuns e2 = s.dispatcher.scheduledRuns e2) ∧
      s3.dispatcher.waiting c = none ∧ s3.firing c = none ∧
      s3.dispatcher.nextChannel = s.dispatcher.nextChannel ∧
      s3.closed = c :: s.closed ∧ s3.call = s.call := by
  obtain ⟨s2, hs2, hf2, hruns2, hcalls2, hreg2, hother2, hwait2, hnext2, hclosed2, hcall2⟩ :=
    run_timeout_close r e delay s c run now hwait hdue
  obtain ⟨s3, h3, hruns3, hcalls3, hreg3, hwait3, hf3, hnext3, hclosed3, hcall3⟩ :
      ∃ s3, raceStep r e delay s2 (.scale c now2) = some s3 ∧
        s3.scaleRuns = s2.scaleRuns ++
          [ScaleRun.mk run.environmentID now2 (Scale r run.environmentID)] ∧
        s3.dispatcher.scaleCalls = s2.dispatcher.scaleCalls ++ [(run.environmentID, now2)] ∧
        s3.dispatcher.scheduledRuns = s2.dispatcher.scheduledRuns ∧
        s3.dispatcher.waiting = s2.dispatcher.waiting ∧ s3.firing c = none ∧
        s3.dispatcher.nextChannel = s2.dispatcher.nextChannel ∧
        s3.closed = s2.closed ∧ s3.call = s2.call :=
    ⟨_, stepScale_closed r s2 c run.environmentID now now2 hf2 hlater, rfl, rfl, rfl, rfl,
      by simp, rfl, rfl, rfl⟩
  have happ := raceSteps_append r e delay [.timeout c now, .close c] [.scale c now2] s s2 hs2
  simp only [List.cons_append, List.nil_append] at happ
  refine ⟨s3, ?_, by rw [hruns3, hruns2], by rw [hcalls3, hcalls2], by rw [hreg3, hreg2],
    fun e2 he2 => by rw [hreg3, hother2 e2 he2], by rw [hwait3, hwait2], hf3,
    by rw [hnext3, hnext2], by rw [hclosed3, hclosed2], by rw [hcall3, hcall2]⟩
  rw [happ, raceSteps_cons r e delay s2 s3 _ _ h3]
  rfl

theorem closedChannelsMade_step (r : L0EnvironmentScaler) (e : String) (delay : Int)
    (s s2 : RaceState) (step : RaceStep) (hinv : ChannelsInOrder s)
    (hclosed : ClosedChannelsMade s) (h : raceStep r e delay s step = some s2) :
    ClosedChannelsMade s2 := by
  have htimeout : ∀ (t t2 : RaceState) (c : Nat) (now : Int), ClosedChannelsMade t →
      stepTimeout t c now = some t2 → ClosedChannelsMade t2 := by
    intro t t2 c now ht hstep
    obtain ⟨run, hwait, hdue⟩ := stepTimeout_some t t2 c now hstep
    rw [stepTimeout_due t c run now hwait hdue] at hstep
    cases hstep
    exact ht
  have hclose : ∀ (t t2 : RaceState) (c : Nat), ChannelsInOrder t → ClosedChannelsMade t →
      stepClose t c = some t2 → ClosedChannelsMade t2 := by
    intro t t2 c hord ht hstep
    obtain ⟨env, since, hf⟩ := stepClose_some t t2 c hstep
    rw [stepClose_deleted t c env since hf] at hstep
    cases hstep
    intro c2 hc2
    rcases List.mem_cons.1 hc2 with heq | hmem
    · by_contra hnot
      have hnone := (hord.1 c (not_lt.mp (by rw [← heq]; exact hnot))).2
      rw [hf] at hnone
      cases hnone
    · exact ht c2 hmem
  have hscale : ∀ (t t2 : RaceState) (c : Nat) (now : Int), ClosedChannelsMade t →
      stepScale r t c now = some t2 → ClosedChannelsMade t2 := by
    intro t t2 c now ht hstep
    obtain ⟨env, since, hf, hnow⟩ := stepScale_some r t t2 c now hstep
    rw [stepScale_closed r t c env since now hf hnow] at hstep
    cases hstep
    exact ht
  cases step with
  | lookup =>
    simp only [raceStep] at h
    split at h
    · split at h <;> (cases h; exact hclosed)
    · cases h
  | send now =>
    simp only [raceStep] at h
    split at h
    · split at h
      · cases h; exact hclosed
      · split at h
        · cases h; exact hclosed
        · cases h
    · cases h
  | start now =>
    simp only [raceStep] at h
    split at h
    · cases h
      intro c hc
      exact Nat.lt_succ_of_lt (hclosed c hc)
    · cases h
  | register =>
    simp only [raceStep] at h
    split at h
    · cases h; exact hclosed
    · cases h
  | timeout c now => exact htimeout s s2 c now hclosed h
  | close c => exact hclose s s2 c hinv hclosed h
  | scale c now => exact hscale s s2 c now hclosed h
  | timer c now =>
    simp only [raceStep] at h
    split at h
    · cases h
    · rename_i t1 ht1
      split at h
      · cases h
      · rename_i t2 ht2
        have hord1 : ChannelsInOrder t1 :=
          channelsInOrder_step r e delay s t1 (.timeout c now) hinv ht1
        exact hscale t2 s2 c now (hclose t1 t2 c hord1 (htimeout s t1 c now hclosed ht1) ht2) h

theorem closedChannelsMade_reachable (r : L0EnvironmentScaler) (s : RaceState)
    (h : Reachable r s) : ClosedChannelsMade s := by
  induction h with
  | initial => intro c hc; cases hc
  | step s s2 e delay step hs hstep ih =>
    exact closedChannelsMade_step r e delay s s2 step (channelsInOrder_reachable r s hs) ih
      hstep
  | next s _ _ ih => exact ih

/-- The statements of a `ScheduleRun(e, d)` call that finds no entry for `e`, taken
in a row at instant `now`: the run is blocked on the channel made, and it is
registered. -/
theorem call_creates (r : L0EnvironmentScaler) (e : String) (delay now : Int)
    (s : RaceState) (hcall : s.call = .notStarted)
    (hnone : s.dispatcher.scheduledRuns e = none) :
    ∃ sm sa, raceSteps r e delay s [.lookup, .start now] = some sm ∧
      sm.call = .registering s.dispatcher.nextChannel ∧
      sm.dispatcher.scheduledRuns = s.dispatcher.scheduledRuns ∧
      sm.dispatcher.waiting s.dispatcher.nextChannel =
        some (ScheduledRun.mk e s.dispatcher.nextChannel delay now) ∧
      raceStep r e delay sm .register = some sa ∧
      raceSteps r e delay s [.lookup, .start now, .register] = some sa ∧
      sa.call = .returned ∧
      sa.dispatcher.scheduledRuns e = some s.dispatcher.nextChannel ∧
      (∀ e2, e2 ≠ e → sa.dispatcher.scheduledRuns e2 = s.dispatcher.scheduledRuns e2) ∧
      sa.dispatcher.waiting s.dispatcher.nextChannel =
        some (ScheduledRun.mk e s.dispatcher.nextChannel delay now) ∧
      (∀ c2, c2 ≠ s.dispatcher.nextChannel →
        sa.dispatcher.waiting c2 = s.dispatcher.waiting c2) ∧
      sa.dispatcher.nextChannel = s.dispatcher.nextChannel + 1 ∧
      sa.closed = s.closed ∧ sa.firing = s.firing ∧ sa.scaleRuns = s.scaleRuns ∧
      sa.dispatcher.scaleCalls = s.dispatcher.scaleCalls := by
  obtain ⟨s1, hs1, hcall1, hd1, hclosed1, hfiring1, hruns1⟩ :
      ∃ s1, raceStep r e delay s .lookup = some s1 ∧ s1.call = .creating ∧
        s1.dispatcher = s.dispatcher ∧ s1.closed = s.closed ∧ s1.firing = s.firing ∧
        s1.scaleRuns = s.scaleRuns :=
    ⟨_, raceStep_lookup_none r e delay s hcall hnone, rfl, rfl, rfl, rfl, rfl⟩
  obtain ⟨sm, hsm, hcallm, hregm, hwaitm, hotherm, hnextm, hclosedm, hfiringm, hrunsm,
      hcallsm⟩ :
      ∃ sm, raceStep r e delay s1 (.start now) = some sm ∧
        sm.call = .registering s1.dispatcher.nextChannel ∧
        sm.dispatcher.scheduledRuns = s1.dispatcher.scheduledRuns ∧
        sm.dispatcher.waiting s1.dispatcher.nextChannel =
          some (ScheduledRun.mk e s1.dispatcher.nextChannel delay now) ∧
        (∀ c2, c2 ≠ s1.dispatcher.nextChannel →
          sm.dispatcher.waiting c2 = s1.dispatcher.waiting c2) ∧
        sm.dispatcher.nextChannel = s1.dispatcher.nextChannel + 1 ∧
        sm.closed = s1.closed ∧ sm.firing = s1.firing ∧ sm.scaleRuns = s1.scaleRuns ∧
        sm.dispatcher.scaleCalls = s1.dispatcher.scaleCalls :=
    ⟨_, raceStep_start r e delay now s1 hcall1, rfl, rfl, by simp,
      fun c2 hc2 => by simp [hc2], rfl, rfl, rfl, rfl, rfl⟩
  obtain ⟨sa, hsa, hcalla, hrega, hothera, hwaita, hnexta, hcloseda, hfiringa, hrunsa,
      hcallsa⟩ :
      ∃ sa, raceStep r e delay sm .register = some sa ∧ sa.call = .returned ∧
        sa.dispatcher.scheduledRuns e = some s1.dispatcher.nextChannel ∧
        (∀ e2, e2 ≠ e → sa.dispatcher.scheduledRuns e2 = sm.dispatcher.scheduledRuns e2) ∧
        sa.dispatcher.waiting = sm.dispatcher.waiting ∧
        sa.dispatcher.nextChannel = sm.dispatcher.nextChannel ∧
        sa.closed = sm.closed ∧ sa.firing = sm.firing ∧ sa.scaleRuns = sm.scaleRuns ∧
        sa.dispatcher.scaleCalls = sm.dispatcher.scaleCalls :=
    ⟨_, raceStep_register r e delay sm _ hcallm, rfl, by simp, fun e2 he2 => by simp [he2],
      rfl, rfl, rfl, rfl, rfl, rfl⟩
  rw [hd1] at hcallm hregm hwaitm hotherm hnextm hrega hcallsm
  have hm : raceSteps r e delay s [.lookup, .start now] = some sm := by
    rw [raceSteps_cons r e delay s s1 _ _ hs1, raceSteps_cons r e delay s1 sm _ _ hsm]
    rfl
  have ha : raceSteps r e delay s [.lookup, .start now, .register] = some sa := by
    have happ := raceSteps_append r e delay [.lookup, .start now] [.register] s sm hm
    simp only [List.cons_append, List.nil_append] at happ
    rw [happ, raceSteps_cons r e delay sm sa _ _ hsa]
    rfl
  refine ⟨sm, sa, hm, hcallm, hregm, hwaitm, hsa, ha, hcalla, hrega, ?_, ?_, ?_, ?_, ?_, ?_,
    ?_, ?_⟩
  · intro e2 he2
    rw [hothera e2 he2, hregm]
  · rw [hwaita, hwaitm]
  · intro c2 hc2
    rw [hwaita, hotherm c2 hc2]
  · rw [hnexta, hnextm]
  · rw [hcloseda, hclosedm, hclosed1]
  · rw [hfiringa, hfiringm, hfiring1]
  · rw [hrunsa, hrunsm, hruns1]
  · rw [hcallsa, hcallsm]

/-- The statements of a `ScheduleRun(e, d)` call that finds a channel for `e` on
which a run is blocked, taken in a row at instant `now`: the run takes the delay
and its timer is armed anew. -/
theorem call_rearms (r : L0EnvironmentScaler) (e : String) (delay now : Int)
    (s : RaceState) (c : Nat) (run : ScheduledRun) (hcall : s.call = .notStarted)
    (hreg : s.dispatcher.scheduledRuns e = some c) (hopen : c ∉ s.closed)
    (hwait : s.dispatcher.waiting c = some run) :
    ∃ sb, raceSteps r e delay s [.lookup, .send now] = some sb ∧ sb.call = .returned ∧
      sb.dispatcher.waiting c = some { run with delay := delay, armedAt := now } ∧
      (∀ c2, c2 ≠ c → sb.dispatcher.waiting c2 = s.dispatcher.waiting c2) ∧
      sb.dispatcher.scheduledRuns = s.dispatcher.scheduledRuns ∧
      sb.dispatcher.nextChannel = s.dispatcher.nextChannel ∧
      sb.closed = s.closed ∧ sb.firing = s.firing ∧ sb.scaleRuns = s.scaleRuns ∧
      sb.dispatcher.scaleCalls = s.dispatcher.scaleCalls := by
  obtain ⟨s1, hs1, hcall1, hd1, hclosed1, hfiring1, hruns1⟩ :
      ∃ s1, raceStep r e delay s .lookup = some s1 ∧ s1.call = .sending c ∧
        s1.dispatcher = s.dispatcher ∧ s1.closed = s.closed ∧ s1.firing = s.firing ∧
        s1.scaleRuns = s.scaleRuns :=
    ⟨_, raceStep_lookup_some r e delay s c hcall hreg, rfl, rfl, rfl, rfl, rfl⟩
  have hopen1 : c ∉ s1.closed := by rw [hclosed1]; exact hopen
  have hwait1 : s1.dispatcher.waiting c = some run := by rw [hd1]; exact hwait
  obtain ⟨sb, hsb, hcallb, hwaitb, hotherb, hregb, hnextb, hclosedb, hfiringb, hrunsb,
      hcallsb⟩ :
      ∃ sb, raceStep r e delay s1 (.send now) = some sb ∧ sb.call = .returned ∧
        sb.dispatcher.waiting c = some { run with delay := delay, armedAt := now } ∧
        (∀ c2, c2 ≠ c → sb.dispatcher.waiting c2 = s1.dispatcher.waiting c2) ∧
        sb.dispatcher.scheduledRuns = s1.dispatcher.scheduledRuns ∧
        sb.dispatcher.nextChannel = s1.dispatcher.nextChannel ∧
        sb.closed = s1.closed ∧ sb.firing = s1.firing ∧ sb.scaleRuns = s1.scaleRuns ∧
        sb.dispatcher.scaleCalls = s1.dispatcher.scaleCalls :=
    ⟨_, raceStep_send_received r e delay now s1 c run hcall1 hopen1 hwait1, rfl,
      by simp [receiveDelay], fun c2 hc2 => by simp [hc2], rfl, rfl, rfl, rfl, rfl, rfl⟩
  rw [hd1] at hotherb hregb hnextb hcallsb
  refine ⟨sb, ?_, hcallb, hwaitb, hotherb, hregb, hnextb, by rw [hclosedb, hclosed1],
    by rw [hfiringb, hfiring1], by rw [hrunsb, hruns1], hcallsb⟩
  rw [raceSteps_cons r e delay s s1 _ _ hs1, raceSteps_cons r e delay s1 sb _ _ hsb]
  rfl

theorem armedRaceState_reachable (r : L0EnvironmentScaler) : Reachable r armedRaceState :=
  reachable_steps r "e" 5 [.lookup, .start 0, .register] initialRaceState armedRaceState
    Reachable.initial (by rfl)

/-- C20: let a run for an environment be blocked in its `select` on channel `c`, in
any state the program can reach, with its timer elapsed at instant `now`.  While it
is blocked neither its `close` nor its call of `Scale` can be taken.  Its timeout
branch deletes the registry entry of its environment and nothing else of the
registry; after it the call of `Scale` still cannot be taken, only the `close`,
which closes channel `c`; only then can the call of `Scale` be taken, at an instant
not before `now`.  That step records `Scale r environmentID` itself, logs the error
exactly when `Scale` returned one (the collaborator error of an aborted pass, or
the multi-error of a pass with recorded errors), and for every outcome of `Scale`
leaves the registry, the blocked runs, the channels and the call under way the
same: the error is not propagated.  The run has then ended, and in every state
from which it has ended it stays ended whatever steps follow and none of its steps
can be taken again, so it calls `Scale` exactly once.  Under every interleaving
with other steps, the call of `Scale` of a run is taken only by a run that has
closed its channel, a run gets there only by its own `close`, and to the `close`
only by its own timeout branch, which deletes the entry.  With a scaler whose
provider lookup fails, the run armed with delay 5 at instant 0 calls `Scale`, which
returns that error after the one lookup; the error is logged and goes nowhere
else. -/
theorem C20_fire_order (r : L0EnvironmentScaler) (s : RaceState) (c : Nat)
    (run : ScheduledRun) (now now2 : Int) (e : String) (delay : Int)
    (hreach : Reachable r s)
    (hwait : s.dispatcher.waiting c = some run) (hdue : fireTime run ≤ now)
    (hlater : now ≤ now2) :
    (raceStep r e delay s (.close c) = none ∧ raceStep r e delay s (.scale c now2) = none) ∧
    (∃ s1 s2 s3 tail,
      raceStep r e delay s (.timeout c now) = some s1 ∧
      s1.dispatcher.scheduledRuns run.environmentID = none ∧
      (∀ e2, e2 ≠ run.environmentID →
        s1.dispatcher.scheduledRuns e2 = s.dispatcher.scheduledRuns e2) ∧
      s1.closed = s.closed ∧ s1.scaleRuns = s.scaleRuns ∧
      raceStep r e delay s1 (.scale c now2) = none ∧
      raceStep r e delay s1 (.close c) = some s2 ∧
      s2.closed = c :: s.closed ∧
      s2.dispatcher.scheduledRuns = s1.dispatcher.scheduledRuns ∧
      s2.scaleRuns = s.scaleRuns ∧
      (∀ now3, now3 < now → raceStep r e delay s2 (.scale c now3) = none) ∧
      raceStep r e delay s2 (.scale c now2) = some s3 ∧
      s3.scaleRuns = s.scaleRuns ++
        [ScaleRun.mk run.environmentID now2 (Scale r run.environmentID)] ∧
      s3.dispatcher.actions = s.dispatcher.actions ++
        ([RunAction.deleteEntry run.environmentID, RunAction.closeChannel c,
          RunAction.logScalingNow run.environmentID,
          RunAction.invokeScale run.environmentID] ++ tail) ∧
      (∀ err, (Scale r run.environmentID).1 = .error err →
        tail = [RunAction.logScaleError run.environmentID [err]]) ∧
      (∀ out, (Scale r run.environmentID).1 = .ok out → out.err = none → tail = []) ∧
      (∀ out errs, (Scale r run.environmentID).1 = .ok out → out.err = some errs →
        tail = [RunAction.logScaleError run.environmentID errs]) ∧
      s3.dispatcher.scheduledRuns = s1.dispatcher.scheduledRuns ∧
      s3.dispatcher.waiting = s1.dispatcher.waiting ∧
      s3.dispatcher.nextChannel = s.dispatcher.nextChannel ∧
      s3.closed = c :: s.closed ∧ s3.call = s.call ∧
      (∀ r2 : L0EnvironmentScaler, ∃ s4, raceStep r2 e delay s2 (.scale c now2) = some s4 ∧
        s4.dispatcher.scheduledRuns = s3.dispatcher.scheduledRuns ∧
        s4.dispatcher.waiting = s3.dispatcher.waiting ∧
        s4.dispatcher.nextChannel = s3.dispatcher.nextChannel ∧
        s4.closed = s3.closed ∧ s4.call = s3.call ∧ s4.firing = s3.firing) ∧
      RunEnded s3 c) ∧
    (∀ t : RaceState, RunEnded t c →
      RunEnded (nextCall t) c ∧
      (∀ (e2 : String) (d2 : Int) (step : RaceStep) (t2 : RaceState),
        raceStep r e2 d2 t step = some t2 → RunEnded t2 c) ∧
      (∀ (e2 : String) (d2 now3 : Int),
        raceStep r e2 d2 t (.timeout c now3) = none ∧ raceStep r e2 d2 t (.close c) = none ∧
        raceStep r e2 d2 t (.scale c now3) = none ∧
        raceStep r e2 d2 t (.timer c now3) = none)) ∧
    (∀ (t t2 : RaceState) (e2 : String) (d2 : Int) (step : RaceStep),
      raceStep r e2 d2 t step = some t2 →
      (∀ now3, step = .scale c now3 →
        ∃ env since, t.firing c = some (FiringRun.mk env FirePoint.closed since) ∧
          since ≤ now3 ∧
          t2.scaleRuns = t.scaleRuns ++ [ScaleRun.mk env now3 (Scale r env)]) ∧
      (∀ env since, t2.firing c = some (FiringRun.mk env FirePoint.closed since) →
        t.firing c = some (FiringRun.mk env FirePoint.closed since) ∨
          (step = .close c ∧ t.firing c = some (FiringRun.mk env FirePoint.deleted since) ∧
            c ∈ t2.closed)) ∧
      (∀ env since, t2.firing c = some (FiringRun.mk env FirePoint.deleted since) →
        t.firing c = some (FiringRun.mk env FirePoint.deleted since) ∨
          (step = .timeout c since ∧ t2.dispatcher.scheduledRuns env = none ∧
            ∃ run2, t.dispatcher.waiting c = some run2 ∧ fireTime run2 ≤ since)) ∧
      (∀ now3, step = .timer c now3 →
        raceSteps r e2 d2 t [.timeout c now3, .close c, .scale c now3] = some t2)) ∧
    (∃ s3, raceSteps brokenScaler "e" 5 armedRaceState [.timeout 0 5, .close 0, .scale 0 5] =
        some s3 ∧
      s3.scaleRuns =
        [ScaleRun.mk "e" 5 (.error "provider lookup failed", [ScaleCall.getProviders])] ∧
      s3.dispatcher.actions =
        [RunAction.logScalingIn "e" 5, RunAction.deleteEntry "e", RunAction.closeChannel 0,
          RunAction.logScalingNow "e", RunAction.invokeScale "e",
          RunAction.logScaleError "e" ["provider lookup failed"]] ∧
      s3.call = armedRaceState.call ∧ s3.dispatcher.scheduledRuns "e" = none) := by
  have hinv := channelsInOrder_reachable r s hreach
  have hfiring : s.firing c = none := hinv.2 c run hwait
  have hbelow : c < s.dispatcher.nextChannel := by
    by_contra hnot
    have hnone := (hinv.1 c (not_lt.mp hnot)).1
    rw [hwait] at hnone
    cases hnone
  obtain ⟨s1, hs1, hreg1, hother1, hclosed1, hruns1, hfire1, hact1, hwait1, hnext1, hcall1⟩ :
      ∃ s1, stepTimeout s c now = some s1 ∧
        s1.dispatcher.scheduledRuns run.environmentID = none ∧
        (∀ e2, e2 ≠ run.environmentID →
          s1.dispatcher.scheduledRuns e2 = s.dispatcher.scheduledRuns e2) ∧
        s1.closed = s.closed ∧ s1.scaleRuns = s.scaleRuns ∧
        s1.firing c = some (FiringRun.mk run.environmentID FirePoint.deleted now) ∧
        s1.dispatcher.actions =
          s.dispatcher.actions ++ [RunAction.deleteEntry run.environmentID] ∧
        s1.dispatcher.waiting c = none ∧
        s1.dispatcher.nextChannel = s.dispatcher.nextChannel ∧ s1.call = s.call :=
    ⟨_, stepTimeout_due s c run now hwait hdue, by simp, fun e2 he2 => by simp [he2], rfl, rfl,
      by simp, rfl, by simp, rfl, rfl⟩
  obtain ⟨s2, hs2, hclosed2, hreg2, hruns2, hfire2, hact2, hwait2, hnext2, hcall2⟩ :
      ∃ s2, stepClose s1 c = some s2 ∧ s2.closed = c :: s1.closed ∧
        s2.dispatcher.scheduledRuns = s1.dispatcher.scheduledRuns ∧
        s2.scaleRuns = s1.scaleRuns ∧
        s2.firing c = some (FiringRun.mk run.environmentID FirePoint.closed now) ∧
        s2.dispatcher.actions = s1.dispatcher.actions ++ [RunAction.closeChannel c] ∧
        s2.dispatcher.waiting = s1.dispatcher.waiting ∧
        s2.dispatcher.nextChannel = s1.dispatcher.nextChannel ∧ s2.call = s1.call :=
    ⟨_, stepClose_deleted s1 c run.environmentID now hfire1, rfl, rfl, rfl, by simp, rfl, rfl,
      rfl, rfl⟩
  have hstep3 : ∀ r2 : L0EnvironmentScaler, ∃ s4, stepScale r2 s2 c now2 = some s4 ∧
      s4.scaleRuns = s2.scaleRuns ++
        [ScaleRun.mk run.environmentID now2 (Scale r2 run.environmentID)] ∧
      s4.dispatcher.actions = s2.dispatcher.actions ++
        ([RunAction.logScalingNow run.environmentID,
          RunAction.invokeScale run.environmentID] ++
          match scaleError r2 run.environmentID with
          | some err => [RunAction.logScaleError run.environmentID err]
          | none => []) ∧
      s4.dispatcher.scheduledRuns = s2.dispatcher.scheduledRuns ∧
      s4.dispatcher.waiting = s2.dispatcher.waiting ∧
      s4.dispatcher.nextChannel = s2.dispatcher.nextChannel ∧
      s4.closed = s2.closed ∧ s4.call = s2.call ∧
      s4.firing = (fun c2 => if c2 = c then none else s2.firing c2) := by
    intro r2
    exact ⟨_, stepScale_closed r2 s2 c run.environmentID now now2 hfire2 hlater, rfl, rfl, rfl,
      rfl, rfl, rfl, rfl, rfl⟩
  obtain ⟨s3, hs3, hruns3, hact3, hreg3, hwait3, hnext3, hclosed3, hcall3, hfire3⟩ := hstep3 r
  refine ⟨⟨?_, ?_⟩, ⟨s1, s2, s3,
    (match scaleError r run.environmentID with
      | some err => [RunAction.logScaleError run.environmentID err]
      | none => []),
    hs1, hreg1, hother1, hclosed1, hruns1, ?_, hs2, by rw [hclosed2, hclosed1], hreg2,
    by rw [hruns2, hruns1], ?_, hs3, by rw [hruns3, hruns2, hruns1], ?_, ?_, ?_, ?_,
    by rw [hreg3, hreg2], by rw [hwait3, hwait2], by rw [hnext3, hnext2, hnext1],
    by rw [hclosed3, hclosed2, hclosed1], by rw [hcall3, hcall2, hcall1], ?_, ?_⟩, ?_, ?_,
    ⟨_, by rfl, by rfl, by rfl, by rfl, by rfl⟩⟩
  · simp [raceStep, stepClose, hfiring]
  · simp [raceStep, stepScale, hfiring]
  · simp [raceStep, stepScale, hfire1]
  · intro now3 hnow3
    apply stepScale_none
    intro env since hf
    rw [hfire2] at hf
    cases hf
    exact hnow3
  · rw [hact3, hact2, hact1]
    simp
  · intro err herr
    simp [scaleError, herr]
  · intro out hout herr
    simp [scaleError, hout, herr]
  · intro out errs hout herr
    simp [scaleError, hout, herr]
  · intro r2
    obtain ⟨s4, hs4, _, _, hreg4, hwait4, hnext4, hclosed4, hcall4, hfire4⟩ := hstep3 r2
    exact ⟨s4, hs4, by rw [hreg4, hreg3], by rw [hwait4, hwait3], by rw [hnext4, hnext3],
      by rw [hclosed4, hclosed3], by rw [hcall4, hcall3], by rw [hfire4, hfire3]⟩
  · refine ⟨by rw [hnext3, hnext2, hnext1]; exact hbelow, by rw [hwait3, hwait2]; exact hwait1,
      ?_⟩
    rw [hfire3]
    simp
  · intro t ht
    exact ⟨ht, fun e2 d2 step t2 hstep => runEnded_step r e2 d2 t t2 step c ht hstep,
      fun e2 d2 now3 => runEnded_disabled r e2 d2 t c ht now3⟩
  · intro t t2 e2 d2 step hstep
    refine ⟨?_, ?_, ?_, ?_⟩
    · intro now3 heq
      rw [heq] at hstep
      obtain ⟨env, since, hf, hnow⟩ := stepScale_some r t t2 c now3 hstep
      have hstep2 : stepScale r t c now3 = some t2 := hstep
      rw [stepScale_closed r t c env since now3 hf hnow] at hstep2
      cases hstep2
      exact ⟨env, since, hf, hnow, rfl⟩
    · intro env since
      exact (run_order_step r e2 d2 t t2 step c env since hstep).2
    · intro env since
      exact (run_order_step r e2 d2 t t2 step c env since hstep).1
    · intro now3 heq
      rw [← timer_as_steps, ← heq]
      exact hstep

/-- C20 at the run armed with delay 5 at instant 0 whose timer has elapsed at instant
5: the timeout branch deletes the entry for `e`, then the channel is closed, then
`Scale` is called, once. -/
theorem C20_fire_order_witness :
    ∃ s1 s2 s3, raceStep idleScaler "e" 5 armedRaceState (.timeout 0 5) = some s1 ∧
      s1.dispatcher.scheduledRuns "e" = none ∧
      raceStep idleScaler "e" 5 s1 (.close 0) = some s2 ∧
      raceStep idleScaler "e" 5 s2 (.scale 0 5) = some s3 ∧
      s3.scaleRuns = armedRaceState.scaleRuns ++ [ScaleRun.mk "e" 5 (Scale idleScaler "e")] := by
  obtain ⟨s1, s2, s3, _, h1, hreg, _, _, _, _, h2, _, _, _, _, h3, hruns, _⟩ :=
    (C20_fire_order idleScaler armedRaceState 0
      { environmentID := "e", channel := 0, delay := 5, armedAt := 0 } 5 5 "e" 5
      (armedRaceState_reachable idleScaler) rfl (by decide) (le_refl _)).2.1
  exact ⟨s1, s2, s3, h1, hreg, h2, h3, hruns⟩

/-- C21: a `ScheduleRun(e, d)` call, statement by statement, on the registry.  With
no entry for `e` the lookup and line 41 leave the registry as it is and line 42
writes one entry, for `e`, holding the channel made in line 41; every other entry
is as before, and the three statements taken in a row are the call `ScheduleRun`.
With an entry for `e` the call can take neither line 41 nor line 42; it sends on
the channel of the entry, and whether the send is received or panics the registry
is as before.  In whatever state a statement of the call is taken, the lookup, the
send and line 41 leave the registry unchanged and line 42 changes it at `e` only.
The registry maps an environment to one channel, so in every state the program can
reach it holds at most one entry per environment. -/
theorem C21_registry_entries (r : L0EnvironmentScaler) (s : RaceState) (e : String)
    (delay now : Int) (hcall : s.call = .notStarted) :
    (s.dispatcher.scheduledRuns e = none →
      ∃ s1 s2 s3, raceStep r e delay s .lookup = some s1 ∧ s1.call = .creating ∧
        s1.dispatcher.scheduledRuns = s.dispatcher.scheduledRuns ∧
        raceStep r e delay s1 (.send now) = none ∧
        raceStep r e delay s1 (.start now) = some s2 ∧
        s2.call = .registering s.dispatcher.nextChannel ∧
        s2.dispatcher.scheduledRuns = s.dispatcher.scheduledRuns ∧
        s2.dispatcher.waiting s.dispatcher.nextChannel =
          some { environmentID := e, channel := s.dispatcher.nextChannel, delay := delay,
                 armedAt := now } ∧
        raceStep r e delay s2 .register = some s3 ∧ s3.call = .returned ∧
        s3.dispatcher.scheduledRuns e = some s.dispatcher.nextChannel ∧
        (∀ e2, e2 ≠ e → s3.dispatcher.scheduledRuns e2 = s.dispatcher.scheduledRuns e2) ∧
        ScheduleRun s.dispatcher e delay now = some s3.dispatcher) ∧
    (∀ c, s.dispatcher.scheduledRuns e = some c →
      ∃ s1, raceStep r e delay s .lookup = some s1 ∧ s1.call = .sending c ∧
        s1.dispatcher.scheduledRuns = s.dispatcher.scheduledRuns ∧
        raceStep r e delay s1 (.start now) = none ∧
        raceStep r e delay s1 .register = none ∧
        (∀ s2, raceStep r e delay s1 (.send now) = some s2 →
          s2.dispatcher.scheduledRuns = s.dispatcher.scheduledRuns ∧
          (s2.call = .returned ∨ s2.call = .panicked) ∧
          (s2.call = .returned →
            ScheduleRun s.dispatcher e delay now = some s2.dispatcher))) ∧
    (∀ (t t2 : RaceState) (step : RaceStep), raceStep r e delay t step = some t2 →
      (step = .lookup ∨ (∃ n, step = .send n) ∨ (∃ n, step = .start n) →
        t2.dispatcher.scheduledRuns = t.dispatcher.scheduledRuns) ∧
      (step = .register →
        ∃ c, t.call = .registering c ∧ t2.dispatcher.scheduledRuns e = some c ∧
          ∀ e2, e2 ≠ e → t2.dispatcher.scheduledRuns e2 = t.dispatcher.scheduledRuns e2)) ∧
    (∀ t : RaceState, Reachable r t → ∀ (e2 : String) (c1 c2 : Nat),
      t.dispatcher.scheduledRuns e2 = some c1 → t.dispatcher.scheduledRuns e2 = some c2 →
      c1 = c2) := by
  refine ⟨?_, ?_, ?_, ?_⟩
  · intro hnone
    obtain ⟨s1, hs1, hcall1, hd1⟩ :
        ∃ s1, raceStep r e delay s .lookup = some s1 ∧ s1.call = .creating ∧
          s1.dispatcher = s.dispatcher :=
      ⟨_, raceStep_lookup_none r e delay s hcall hnone, rfl, rfl⟩
    obtain ⟨s2, hs2, hcall2, hreg2, hwait2, hd2⟩ :
        ∃ s2, raceStep r e delay s1 (.start now) = some s2 ∧
          s2.call = .registering s1.dispatcher.nextChannel ∧
          s2.dispatcher.scheduledRuns = s1.dispatcher.scheduledRuns ∧
          s2.dispatcher.waiting s1.dispatcher.nextChannel =
            some (ScheduledRun.mk e s1.dispatcher.nextChannel delay now) ∧
          s2.dispatcher =
            { s1.dispatcher with
              waiting := fun c2 => if c2 = s1.dispatcher.nextChannel then
                  some (ScheduledRun.mk e s1.dispatcher.nextChannel delay now)
                else s1.dispatcher.waiting c2,
              nextChannel := s1.dispatcher.nextChannel + 1,
              actions := s1.dispatcher.actions ++ [RunAction.logScalingIn e delay] } :=
      ⟨_, raceStep_start r e delay now s1 hcall1, rfl, rfl, by simp, rfl⟩
    obtain ⟨s3, hs3, hcall3, hreg3, hother3, hd3⟩ :
        ∃ s3, raceStep r e delay s2 .register = some s3 ∧ s3.call = .returned ∧
          s3.dispatcher.scheduledRuns e = some s1.dispatcher.nextChannel ∧
          (∀ e2, e2 ≠ e → s3.dispatcher.scheduledRuns e2 = s2.dispatcher.scheduledRuns e2) ∧
          s3.dispatcher =
            { s2.dispatcher with
              scheduledRuns := fun e2 => if e2 = e then some s1.dispatcher.nextChannel
                else s2.dispatcher.scheduledRuns e2 } :=
      ⟨_, raceStep_register r e delay s2 _ hcall2, rfl, by simp, fun e2 he2 => by simp [he2],
        rfl⟩
    rw [hd1] at hcall2 hwait2 hreg3 hreg2
    refine ⟨s1, s2, s3, hs1, hcall1, by rw [hd1], by simp only [raceStep, hcall1], hs2, hcall2,
      hreg2, hwait2, hs3, hcall3, hreg3, ?_, ?_⟩
    · intro e2 he2
      rw [hother3 e2 he2, hreg2]
    · rw [scheduleRun_new s.dispatcher e delay now hnone, hd3, hd2, hd1]
  · intro c hreg
    obtain ⟨s1, hs1, hcall1, hd1, hclosed1⟩ :
        ∃ s1, raceStep r e delay s .lookup = some s1 ∧ s1.call = .sending c ∧
          s1.dispatcher = s.dispatcher ∧ s1.closed = s.closed :=
      ⟨_, raceStep_lookup_some r e delay s c hcall hreg, rfl, rfl, rfl⟩
    refine ⟨s1, hs1, hcall1, by rw [hd1], by simp only [raceStep, hcall1],
      by simp only [raceStep, hcall1], ?_⟩
    intro s2 hs2
    by_cases hclosed : c ∈ s1.closed
    · rw [raceStep_send_closed r e delay now s1 c hcall1 hclosed] at hs2
      cases hs2
      exact ⟨by rw [hd1], Or.inr rfl, fun h => by cases h⟩
    · cases hwait : s1.dispatcher.waiting c with
      | none =>
        rw [raceStep_send_blocked r e delay now s1 c hcall1 hclosed hwait] at hs2
        cases hs2
      | some run =>
        rw [raceStep_send_received r e delay now s1 c run hcall1 hclosed hwait] at hs2
        cases hs2
        refine ⟨by rw [hd1], Or.inl rfl, fun _ => ?_⟩
        rw [hd1] at hwait
        rw [scheduleRun_existing s.dispatcher e c run delay now hreg hwait, hd1]
  · intro t t2 step hstep
    refine ⟨?_, ?_⟩
    · intro hkind
      rcases hkind with h | ⟨n, h⟩ | ⟨n, h⟩
      · rw [h] at hstep
        simp only [raceStep] at hstep
        split at hstep
        · split at hstep <;> (cases hstep; rfl)
        · cases hstep
      · rw [h] at hstep
        simp only [raceStep] at hstep
        split at hstep
        · split at hstep
          · cases hstep; rfl
          · split at hstep
            · cases hstep; rfl
            · cases hstep
        · cases hstep
      · rw [h] at hstep
        simp only [raceStep] at hstep
        split at hstep
        · cases hstep; rfl
        · cases hstep
    · intro h
      rw [h] at hstep
      simp only [raceStep] at hstep
      split at hstep
      · rename_i c hc
        cases hstep
        exact ⟨c, hc, by simp, fun e2 he2 => by simp [he2]⟩
      · cases hstep
  · intro t _ e2 c1 c2 h1 h2
    rw [h1] at h2
    exact Option.some.inj h2

/-- C21 at the initial state: the three statements of `ScheduleRun("e", 5)` at
instant 0 register channel 0 for `e`. -/
theorem C21_registry_entries_witness :
    ∃ s1 s2 s3, raceStep idleScaler "e" 5 initialRaceState .lookup = some s1 ∧
      raceStep idleScaler "e" 5 s1 (.start 0) = some s2 ∧
      raceStep idleScaler "e" 5 s2 .register = some s3 ∧
      s3.dispatcher.scheduledRuns "e" = some initialRaceState.dispatcher.nextChannel := by
  obtain ⟨s1, s2, s3, h1, _, _, _, h2, _, _, _, h3, _, hreg, _⟩ :=
    (C21_registry_entries idleScaler initialRaceState "e" 5 0 rfl).1 rfl
  exact ⟨s1, s2, s3, h1, h2, h3, hreg⟩

/-- C22 as stated fails for a negative second delay: after `ScheduleRun(e, 5)` at
instant 0 and `ScheduleRun(e, -3)` accepted at instant 1, the instant `t + d2` of
the invocation of `Scale(e)` would be `1 + (-3) = -2`, before the second call was
made.  The timer armed at instant 1 with a negative delay elapses at instant 1: at
instant -2 the timeout branch cannot be taken, `Scale` cannot be called at instant
-2 at whatever instant the timeout branch is tried, and `Scale` is called at
instant 1 when the run takes its steps as soon as it can. -/
theorem C22_negative_delay_counterexample :
    ∃ sa sb sc,
      raceSteps idleScaler "e" 5 initialRaceState [.lookup, .start 0, .register] = some sa ∧
      raceSteps idleScaler "e" (-3) (nextCall sa) [.lookup, .send 1] = some sb ∧
      sb.call = .returned ∧
      sb.dispatcher.waiting 0 =
        some { environmentID := "e", channel := 0, delay := -3, armedAt := 1 } ∧
      (1 : Int) < 5 ∧ (1 : Int) + (-3) = -2 ∧
      raceStep idleScaler "e" (-3) sb (.timeout 0 (1 + (-3))) = none ∧
      raceStep idleScaler "e" (-3) sb (.timer 0 (1 + (-3))) = none ∧
      (∀ now : Int, raceSteps idleScaler "e" (-3) sb
        [.timeout 0 now, .close 0, .scale 0 (1 + (-3))] = none) ∧
      raceSteps idleScaler "e" (-3) sb [.timeout 0 1, .close 0, .scale 0 1] = some sc ∧
      sc.scaleRuns = [ScaleRun.mk "e" 1 (Scale idleScaler "e")] ∧
      sc.dispatcher.scaleCalls = [("e", 1)] := by
  have hsa : raceSteps idleScaler "e" 5 initialRaceState [.lookup, .start 0, .register] =
      some armedRaceState := by rfl
  obtain ⟨sb, hsb, hcallb, hwaitb⟩ :
      ∃ sb, raceSteps idleScaler "e" (-3) (nextCall armedRaceState) [.lookup, .send 1] =
          some sb ∧ sb.call = .returned ∧
        sb.dispatcher.waiting 0 = some (ScheduledRun.mk "e" 0 (-3) 1) :=
    ⟨_, by rfl, by rfl, by rfl⟩
  obtain ⟨sc, hsc, hrunsc, hcallsc⟩ :
      ∃ sc, raceSteps idleScaler "e" (-3) (nextCall armedRaceState)
          [.lookup, .send 1, .timeout 0 1, .close 0, .scale 0 1] = some sc ∧
        sc.scaleRuns = [ScaleRun.mk "e" 1 (Scale idleScaler "e")] ∧
        sc.dispatcher.scaleCalls = [("e", 1)] :=
    ⟨_, by rfl, by rfl, by rfl⟩
  have happ := raceSteps_append idleScaler "e" (-3) [.lookup, .send 1]
    [.timeout 0 1, .close 0, .scale 0 1] (nextCall armedRaceState) sb hsb
  simp only [List.cons_append, List.nil_append] at happ
  rw [happ] at hsc
  refine ⟨armedRaceState, sb, sc, hsa, hsb, hcallb, hwaitb, by decide, by decide, ?_, ?_, ?_,
    hsc, hrunsc, hcallsc⟩
  · exact stepTimeout_early sb 0 _ _ hwaitb (by decide)
  · have h := stepTimeout_early sb 0 _ (1 + (-3)) hwaitb (by decide)
    simp only [raceStep, h]
  · intro now
    exact scale_not_before idleScaler "e" (-3) sb 0 _ now _ hwaitb (by decide)

/-- C22, amended: from any state the program can reach in which no call is under way
and the registry has no entry for `e`, let `ScheduleRun(e, d1)` be made at instant
0 and `ScheduleRun(e, d2)` at an instant `t` with `0 ≤ t < d1`, and let `c` be the
channel made by the first call.  The run cannot take its timeout branch before
instant `d1`, neither between lines 41 and 42 of the first call nor after it.  The
second call finds channel `c`, its send is received, and the run is armed with `d2`
from instant `t`.  From then on the run cannot take its timeout branch before
instant `t + max d2 0`, and it cannot call `Scale` at an instant before that,
whenever its timeout branch is tried; the timer armed by the first call plays no
part.  At every instant from `t + max d2 0` on the run can take its timeout
branch; when it does and goes on to its end, `Scale r e` is called once, at an
instant not before that of the timeout branch, the registry has no entry for `e`,
and the run has ended for good: none of its steps can be taken again, whatever
steps follow. -/
theorem C22_debounce_not_before (r : L0EnvironmentScaler) (s0 : RaceState) (e : String)
    (d1 d2 t : Int) (hreach : Reachable r s0) (hcall : s0.call = .notStarted)
    (hnone : s0.dispatcher.scheduledRuns e = none) (ht0 : 0 ≤ t) (ht : t < d1) :
    ∃ sm sa sb,
      raceSteps r e d1 s0 [.lookup, .start 0] = some sm ∧
      (∀ now, now < d1 →
        raceStep r e d1 sm (.timeout s0.dispatcher.nextChannel now) = none) ∧
      raceStep r e d1 sm .register = some sa ∧
      raceSteps r e d1 s0 [.lookup, .start 0, .register] = some sa ∧
      sa.call = .returned ∧
      sa.dispatcher.scheduledRuns e = some s0.dispatcher.nextChannel ∧
      sa.dispatcher.waiting s0.dispatcher.nextChannel =
        some (ScheduledRun.mk e s0.dispatcher.nextChannel d1 0) ∧
      (∀ now, now < d1 →
        raceStep r e d1 sa (.timeout s0.dispatcher.nextChannel now) = none) ∧
      raceSteps r e d2 (nextCall sa) [.lookup, .send t] = some sb ∧
      sb.call = .returned ∧
      sb.dispatcher.scheduledRuns e = some s0.dispatcher.nextChannel ∧
      sb.dispatcher.waiting s0.dispatcher.nextChannel =
        some (ScheduledRun.mk e s0.dispatcher.nextChannel d2 t) ∧
      sb.scaleRuns = s0.scaleRuns ∧
      (∀ now, now < t + max d2 0 →
        raceStep r e d2 sb (.timeout s0.dispatcher.nextChannel now) = none ∧
        raceStep r e d2 sb (.timer s0.dispatcher.nextChannel now) = none) ∧
      (∀ now now2, now2 < t + max d2 0 →
        raceSteps r e d2 sb
          [.timeout s0.dispatcher.nextChannel now, .close s0.dispatcher.nextChannel,
            .scale s0.dispatcher.nextChannel now2] = none) ∧
      (∀ now now2, t + max d2 0 ≤ now → now ≤ now2 →
        ∃ sc, raceSteps r e d2 sb
            [.timeout s0.dispatcher.nextChannel now, .close s0.dispatcher.nextChannel,
              .scale s0.dispatcher.nextChannel now2] = some sc ∧
          sc.scaleRuns = s0.scaleRuns ++ [ScaleRun.mk e now2 (Scale r e)] ∧
          sc.dispatcher.scheduledRuns e = none ∧
          RunEnded sc s0.dispatcher.nextChannel) ∧
      (∀ u : RaceState, RunEnded u s0.dispatcher.nextChannel →
        RunEnded (nextCall u) s0.dispatcher.nextChannel ∧
        (∀ (e2 : String) (delay2 : Int) (step : RaceStep) (u2 : RaceState),
          raceStep r e2 delay2 u step = some u2 → RunEnded u2 s0.dispatcher.nextChannel) ∧
        (∀ (e2 : String) (delay2 now3 : Int),
          raceStep r e2 delay2 u (.timeout s0.dispatcher.nextChannel now3) = none ∧
          raceStep r e2 delay2 u (.close s0.dispatcher.nextChannel) = none ∧
          raceStep r e2 delay2 u (.scale s0.dispatcher.nextChannel now3) = none ∧
          raceStep r e2 delay2 u (.timer s0.dispatcher.nextChannel now3) = none)) := by
  have hmade := closedChannelsMade_reachable r s0 hreach
  have hopen0 : s0.dispatcher.nextChannel ∉ s0.closed := fun hmem =>
    absurd (hmade _ hmem) (lt_irrefl _)
  obtain ⟨sm, sa, hsm, _, _, hwaitm, hreg, hsa, hcalla, hrega, _, hwaita, _, hnexta,
    hcloseda, _, hrunsa, _⟩ := call_creates r e d1 0 s0 hcall hnone
  have hfire1 : fireTime (ScheduledRun.mk e s0.dispatcher.nextChannel d1 0) = d1 := by
    unfold fireTime
    simp only
    rw [max_eq_left (by omega)]
    omega
  have hfire2 : fireTime (ScheduledRun.mk e s0.dispatcher.nextChannel d2 t) =
      t + max d2 0 := rfl
  obtain ⟨sb, hsb, hcallb, hwaitb, _, hregb, hnextb, _, _, hrunsb, _⟩ :=
    call_rearms r e d2 t (nextCall sa) s0.dispatcher.nextChannel
      (ScheduledRun.mk e s0.dispatcher.nextChannel d1 0) rfl hrega
      (by rw [show (nextCall sa).closed = sa.closed from rfl, hcloseda]; exact hopen0) hwaita
  have hwaitb2 : sb.dispatcher.waiting s0.dispatcher.nextChannel =
      some (ScheduledRun.mk e s0.dispatcher.nextChannel d2 t) := hwaitb
  refine ⟨sm, sa, sb, hsm, ?_, hreg, hsa, hcalla, hrega, hwaita, ?_, hsb, hcallb,
    by rw [hregb]; exact hrega, hwaitb2, by rw [hrunsb]; exact hrunsa, ?_, ?_, ?_, ?_⟩
  · intro now hnow
    exact stepTimeout_early sm _ _ now hwaitm (by rw [hfire1]; exact hnow)
  · intro now hnow
    exact stepTimeout_early sa _ _ now hwaita (by rw [hfire1]; exact hnow)
  · intro now hnow
    have h := stepTimeout_early sb _ _ now hwaitb2 (by rw [hfire2]; exact hnow)
    exact ⟨h, by simp only [raceStep, h]⟩
  · intro now now2 hnow2
    exact scale_not_before r e d2 sb _ _ now now2 hwaitb2 (by rw [hfire2]; exact hnow2)
  · intro now now2 hdue hlater
    obtain ⟨sc, hsc, hrunsc, _, hregc, _, hwaitc, hfiringc, hnextc, _, _⟩ :=
      run_fires r e d2 sb _ _ now now2 hwaitb2 (by rw [hfire2]; exact hdue) hlater
    refine ⟨sc, hsc, ?_, hregc, ?_, hwaitc, hfiringc⟩
    · rw [hrunsc, hrunsb]
      exact congrArg (fun l => l ++ [ScaleRun.mk e now2 (Scale r e)]) hrunsa
    · rw [hnextc, hnextb]
      show s0.dispatcher.nextChannel < sa.dispatcher.nextChannel
      rw [hnexta]
      exact Nat.lt_succ_self _
  · intro u hu
    exact ⟨hu, fun e2 delay2 step u2 hstep => runEnded_step r e2 delay2 u u2 step _ hu hstep,
      fun e2 delay2 now3 => runEnded_disabled r e2 delay2 u _ hu now3⟩

/-- C22 (amended) at scenario S5: `ScheduleRun(e, 5)` at instant 0 and
`ScheduleRun(e, 2)` at instant 1 on the initial state.  The run cannot take its
timeout branch at instant 2; taken at instant 3, it leads to one call of `Scale`. -/
theorem C22_debounce_not_before_witness :
    ∃ sa sb sc,
      raceSteps idleScaler "e" 5 initialRaceState [.lookup, .start 0, .register] = some sa ∧
      raceSteps idleScaler "e" 2 (nextCall sa) [.lookup, .send 1] = some sb ∧
      raceStep idleScaler "e" 2 sb (.timeout 0 2) = none ∧
      raceSteps idleScaler "e" 2 sb [.timeout 0 3, .close 0, .scale 0 3] = some sc ∧
      sc.scaleRuns = [ScaleRun.mk "e" 3 (Scale idleScaler "e")] ∧
      sc.dispatcher.scheduledRuns "e" = none := by
  obtain ⟨_, sa, sb, _, _, _, hsa, _, _, _, _, hsb, _, _, _, _, hearly, _, hfire, _⟩ :=
    C22_debounce_not_before idleScaler initialRaceState "e" 5 2 1 Reachable.initial rfl rfl
      (by decide) (by decide)
  obtain ⟨sc, hsc, hruns, hreg, _⟩ := hfire 3 3 (by decide) (le_refl _)
  exact ⟨sa, sb, sc, hsa, hsb, (hearly 2 (by decide)).1, hsc, hruns, hreg⟩

/-- C24: `ScheduleRun("e", -3)` at instant 0 on the initial state, where the
goroutine started in line 41 finds its timer elapsed and runs its timeout branch,
its `close` and its call of `Scale` before the caller executes line 42.  The run
has taken its timeout step and has called `Scale`, and it has ended; line 42 then
writes its channel into the registry, so the registry has an entry for `e`, and the
channel of that entry is closed (the entry is there as soon as the timeout branch
alone comes before line 42).  The next call `ScheduleRun("e", 5)` at instant 1
finds that entry, cannot take the creation branch, sends on the closed channel and
panics: no run is blocked or under way afterwards, none of the steps of any run can
be taken, and `Scale` has been called once only.  When line 42 comes before the
timeout branch, the same two calls lead to a second run on channel 1 and a second
call of `Scale`. -/
theorem C24_stale_entry_after_fire :
    (∃ s1 s2,
      raceSteps idleScaler "e" (-3) initialRaceState
        [.lookup, .start 0, .timeout 0 0, .close 0, .scale 0 0, .register] = some s1 ∧
      s1.call = .returned ∧
      s1.scaleRuns = [ScaleRun.mk "e" 0 (Scale idleScaler "e")] ∧
      s1.dispatcher.actions =
        [RunAction.logScalingIn "e" (-3), RunAction.deleteEntry "e", RunAction.closeChannel 0,
          RunAction.logScalingNow "e", RunAction.invokeScale "e"] ∧
      RunEnded s1 0 ∧
      s1.dispatcher.scheduledRuns "e" = some 0 ∧ s1.closed = [0] ∧
      raceSteps idleScaler "e" 5 (nextCall s1) [.lookup, .start 1] = none ∧
      raceSteps idleScaler "e" 5 (nextCall s1) [.lookup, .send 1] = some s2 ∧
      s2.call = .panicked ∧
      s2.dispatcher.scheduledRuns "e" = some 0 ∧
      (∀ c, s2.dispatcher.waiting c = none ∧ s2.firing c = none) ∧
      (∀ (e2 : String) (d2 : Int) (c : Nat) (now : Int),
        raceStep idleScaler e2 d2 s2 (.timeout c now) = none ∧
        raceStep idleScaler e2 d2 s2 (.close c) = none ∧
        raceStep idleScaler e2 d2 s2 (.scale c now) = none ∧
        raceStep idleScaler e2 d2 s2 (.timer c now) = none) ∧
      s2.scaleRuns = [ScaleRun.mk "e" 0 (Scale idleScaler "e")]) ∧
    (∃ s1, raceSteps idleScaler "e" (-3) initialRaceState
        [.lookup, .start 0, .timeout 0 0, .register] = some s1 ∧
      s1.call = .returned ∧ s1.dispatcher.waiting 0 = none ∧
      s1.firing 0 = some (FiringRun.mk "e" FirePoint.deleted 0) ∧
      s1.dispatcher.scheduledRuns "e" = some 0) ∧
    (∃ s1 s2 s3,
      raceSteps idleScaler "e" (-3) initialRaceState
        [.lookup, .start 0, .register, .timeout 0 0, .close 0, .scale 0 0] = some s1 ∧
      s1.dispatcher.scheduledRuns "e" = none ∧
      raceSteps idleScaler "e" 5 (nextCall s1) [.lookup, .start 1, .register] = some s2 ∧
      s2.dispatcher.scheduledRuns "e" = some 1 ∧
      s2.dispatcher.waiting 1 =
        some { environmentID := "e", channel := 1, delay := 5, armedAt := 1 } ∧
      raceSteps idleScaler "e" 5 s2 [.timeout 1 6, .close 1, .scale 1 6] = some s3 ∧
      s3.scaleRuns =
        [ScaleRun.mk "e" 0 (Scale idleScaler "e"), ScaleRun.mk "e" 6 (Scale idleScaler "e")]) := by
  refine ⟨?_, ⟨_, by rfl, by rfl, by rfl, by rfl, by rfl⟩,
    ⟨_, _, _, by rfl, by rfl, by rfl, by rfl, by rfl, by rfl, by rfl⟩⟩
  obtain ⟨s1, hs1, hcall1, hruns1, hact1, hnext1, hwait1, hfiring1, hreg1, hclosed1, hnew1⟩ :
      ∃ s1, raceSteps idleScaler "e" (-3) initialRaceState
          [.lookup, .start 0, .timeout 0 0, .close 0, .scale 0 0, .register] = some s1 ∧
        s1.call = .returned ∧
        s1.scaleRuns = [ScaleRun.mk "e" 0 (Scale idleScaler "e")] ∧
        s1.dispatcher.actions =
          [RunAction.logScalingIn "e" (-3), RunAction.deleteEntry "e",
            RunAction.closeChannel 0, RunAction.logScalingNow "e",
            RunAction.invokeScale "e"] ∧
        s1.dispatcher.nextChannel = 1 ∧ s1.dispatcher.waiting 0 = none ∧
        s1.firing 0 = none ∧
        s1.dispatcher.scheduledRuns "e" = some 0 ∧ s1.closed = [0] ∧
        raceSteps idleScaler "e" 5 (nextCall s1) [.lookup, .start 1] = none :=
    ⟨_, by rfl, by rfl, by rfl, by rfl, by rfl, by rfl, by rfl, by rfl, by rfl, by rfl⟩
  obtain ⟨s2, hs2, hcall2, hreg2, hnext2, hwait2, hfiring2, hruns2⟩ :
      ∃ s2, raceSteps idleScaler "e" 5 (nextCall s1) [.lookup, .send 1] = some s2 ∧
        s2.call = .panicked ∧ s2.dispatcher.scheduledRuns "e" = some 0 ∧
        s2.dispatcher.nextChannel = s1.dispatcher.nextChannel ∧
        s2.dispatcher.waiting = s1.dispatcher.waiting ∧ s2.firing = s1.firing ∧
        s2.scaleRuns = s1.scaleRuns := by
    have hlook := raceStep_lookup_some idleScaler "e" 5 (nextCall s1) 0 rfl hreg1
    have hsend := raceStep_send_closed idleScaler "e" 5 1
      { nextCall s1 with call := .sending 0 } 0 rfl
      (by show 0 ∈ s1.closed; rw [hclosed1]; exact List.mem_singleton.2 rfl)
    refine ⟨RaceState.mk s1.dispatcher s1.closed CallPoint.panicked s1.firing s1.scaleRuns,
      ?_, rfl, hreg1, rfl, rfl, rfl, rfl⟩
    rw [raceSteps_cons _ _ _ _ _ _ _ hlook, raceSteps_cons _ _ _ _ _ _ _ hsend]
    rfl
  have hreach1 : Reachable idleScaler s1 :=
    reachable_steps idleScaler "e" (-3) _ initialRaceState s1 Reachable.initial hs1
  have hreach2 : Reachable idleScaler s2 :=
    reachable_steps idleScaler "e" 5 _ (nextCall s1) s2
      (Reachable.next s1 hreach1 (Or.inl hcall1)) hs2
  have hord2 := channelsInOrder_reachable idleScaler s2 hreach2
  have hnone : ∀ c, s2.dispatcher.waiting c = none ∧ s2.firing c = none := by
    intro c
    by_cases hc : c = 0
    · rw [hc, hwait2, hfiring2]
      exact ⟨hwait1, hfiring1⟩
    · exact hord2.1 c (by rw [hnext2, hnext1]; omega)
  refine ⟨s1, s2, hs1, hcall1, hruns1, hact1, ⟨by rw [hnext1]; decide, hwait1, hfiring1⟩,
    hreg1, hclosed1, hnew1, hs2, hcall2, hreg2, hnone, ?_, by rw [hruns2, hruns1]⟩
  intro e2 d2 c now
  have hw := (hnone c).1
  have hf := (hnone c).2
  refine ⟨stepTimeout_idle s2 c now hw, ?_, ?_, ?_⟩
  · simp [raceStep, stepClose, hf]
  · simp [raceStep, stepScale, hf]
  · simp [raceStep, stepTimeout_idle s2 c now hw]

/-! ## Delays of a scheduled run -/

/-- C19 as stated fails: a run for `e` armed at instant 0 with delay 5 would fire at
instant 5; after `ScheduleRun(e, 10)` at instant 1 its timer has not elapsed at
instant 5 and elapses at instant 11. -/
theorem C19_longer_delay_counterexample :
    ∃ d1 d2 run1 run2,
      ScheduleRun emptyDispatcher "e" 5 0 = some d1 ∧ d1.waiting 0 = some run1 ∧
      ScheduleRun d1 "e" 10 1 = some d2 ∧ d2.waiting 0 = some run2 ∧
      run1.delay < 10 ∧ fireTime run1 = 5 ∧ fireTime run2 = 11 ∧
      ¬ (fireTime run2 ≤ fireTime run1) ∧
      (timerElapses idleScaler d1 0 5).isSome = true ∧
      (timerElapses idleScaler d2 0 5).isSome = false ∧
      (timerElapses idleScaler d2 0 11).isSome = true := by
  refine ⟨armedDispatcher, _, { environmentID := "e", channel := 0, delay := 5, armedAt := 0 },
    { environmentID := "e", channel := 0, delay := 10, armedAt := 1 },
    rfl, rfl, scheduleRun_existing armedDispatcher "e" 0 _ 10 1 rfl rfl, rfl,
    by decide, by decide, by decide, by decide, rfl, rfl, rfl⟩

/-- C19, amended: for every environment with an armed scheduled run, a further
`ScheduleRun(e, d')` accepted at instant `t` replaces the armed delay by `d'`
whatever it was and arms the timer anew from `t`.  The run then cannot take its
timeout branch before instant `t + max d' 0`, and can take it at every instant from
then on.  The earliest firing instant moves forward when `t + max d' 0` is before
the old one, and it moves back, so that the request lengthens the wait, whenever
`d'` is positive and greater than the armed delay and `t` is not before the instant
at which the old timer was armed; in every case it moves by
`(t - armedAt) + (max d' 0 - max d 0)`.  Statement by statement: the run cannot call
`Scale` at an instant before `t + max d' 0`, at whatever instant its timeout branch
is tried, and from that instant on its timeout branch, its `close` and its call of
`Scale` can be taken, which records `Scale r e` once. -/
theorem C19_request_replaces_delay (d : Dispatcher) (e : String) (c : Nat)
    (run : ScheduledRun) (newDelay now : Int)
    (hreg : d.scheduledRuns e = some c) (hwait : d.waiting c = some run) :
    ∃ d2 run2, ScheduleRun d e newDelay now = some d2 ∧ d2.waiting c = some run2 ∧
      run2.delay = newDelay ∧ run2.armedAt = now ∧
      fireTime run2 = now + max newDelay 0 ∧
      (∀ (r : L0EnvironmentScaler) (t : Int), t < now + max newDelay 0 →
        timerElapses r d2 c t = none) ∧
      (∀ (r : L0EnvironmentScaler) (t : Int), now + max newDelay 0 ≤ t →
        (timerElapses r d2 c t).isSome = true) ∧
      (now + max newDelay 0 < fireTime run → fireTime run2 < fireTime run) ∧
      (run.armedAt ≤ now → run.delay < newDelay → 0 < newDelay →
        fireTime run < fireTime run2) ∧
      fireTime run2 - fireTime run =
        (now - run.armedAt) + (max newDelay 0 - max run.delay 0) ∧
      (∀ (r : L0EnvironmentScaler) (s : RaceState) (t t2 : Int), s.dispatcher = d2 →
        t2 < now + max newDelay 0 →
        raceSteps r e newDelay s [.timeout c t, .close c, .scale c t2] = none) ∧
      (∀ (r : L0EnvironmentScaler) (s : RaceState) (t t2 : Int), s.dispatcher = d2 →
        now + max newDelay 0 ≤ t → t ≤ t2 →
        ∃ s3, raceSteps r e newDelay s [.timeout c t, .close c, .scale c t2] = some s3 ∧
          s3.scaleRuns = s.scaleRuns ++
            [ScaleRun.mk run.environmentID t2 (Scale r run.environmentID)]) := by
  have hfire : fireTime { run with delay := newDelay, armedAt := now } =
      now + max newDelay 0 := rfl
  obtain ⟨d2, hd2, hwait2⟩ :
      ∃ d2, ScheduleRun d e newDelay now = some d2 ∧
        d2.waiting c = some { run with delay := newDelay, armedAt := now } :=
    ⟨_, scheduleRun_existing d e c run newDelay now hreg hwait, by simp [receiveDelay]⟩
  refine ⟨d2, { run with delay := newDelay, armedAt := now }, hd2, hwait2, rfl, rfl,
    hfire, ?_, ?_, ?_, ?_, ?_, ?_, ?_⟩
  rotate_left 5
  · intro r s t t2 hs ht2
    exact scale_not_before r e newDelay s c _ t t2 (by rw [hs]; exact hwait2)
      (by rw [hfire]; exact ht2)
  · intro r s t t2 hs ht hlater
    obtain ⟨s3, hs3, hruns3, _⟩ := run_fires r e newDelay s c _ t t2
      (by rw [hs]; exact hwait2) (by rw [hfire]; exact ht) hlater
    exact ⟨s3, hs3, hruns3⟩
  · intro r t ht
    exact timerElapses_early r d2 c _ t hwait2 (by rw [hfire]; exact ht)
  · intro r t ht
    rw [timerElapses_due r d2 c _ t hwait2 (by rw [hfire]; exact ht)]
    rfl
  · intro h
    rw [hfire]
    exact h
  · intro harmed hlonger hpos
    rw [hfire]
    unfold fireTime
    rw [max_eq_left (le_of_lt hpos)]
    rcases le_total run.delay 0 with hneg | hnonneg
    · rw [max_eq_right hneg]
      omega
    · rw [max_eq_left hnonneg]
      omega
  · rw [hfire]
    unfold fireTime
    ring

/-- C19 (amended) at the run armed with delay 5 at instant 0 and a request with
delay 10 at instant 1: the earliest firing instant of the run is then 11. -/
theorem C19_request_replaces_delay_witness :
    ∃ d2 run2, ScheduleRun armedDispatcher "e" 10 1 = some d2 ∧ d2.waiting 0 = some run2 ∧
      fireTime run2 = 1 + max 10 0 := by
  obtain ⟨d2, run2, hd2, hwait, _, _, hfire, _⟩ :=
    C19_request_replaces_delay armedDispatcher "e" 0
      { environmentID := "e", channel := 0, delay := 5, armedAt := 0 } 10 1 rfl rfl
  exact ⟨d2, run2, hd2, hwait, hfire⟩

/-- C23 as stated fails: `ScheduleRun(e, 5)` at instant 0 followed by
`ScheduleRun(e, 4)` at instant 3 (a shorter delay, accepted before the run fires at
instant 5) fires at instant 7, later than the minimum delay 4 measured from the
first call; at instant 4 the timer has not elapsed. -/
theorem C23_first_call_counterexample :
    ∃ d2 run, scheduleCalls emptyDispatcher "e" [(5, 0), (4, 3)] = some d2 ∧
      d2.waiting 0 = some run ∧ (4 : Int) < 5 ∧
      (3 : Int) < fireTime { environmentID := "e", channel := 0, delay := 5, armedAt := 0 } ∧
      fireTime run = 7 ∧ ¬ (fireTime run ≤ 0 + 4) ∧
      (timerElapses idleScaler d2 0 4).isSome = false ∧
      (timerElapses idleScaler d2 0 7).isSome = true := by
  refine ⟨_, ScheduledRun.mk "e" 0 4 3, by rfl, by rfl, by decide, by decide, by decide,
    by decide, by rfl, by rfl⟩

/-- C23, amended: for every sequence of `ScheduleRun(e, d_i)` calls, with decreasing
delays or not, each accepted before the run fires, the delay and the timer of the
run are those of the last call: the run cannot take its timeout branch before
`max d_n 0` measured from the instant at which the last call was accepted, and can
take it at every instant from then on; taken at such an instant it invokes
`Scale(e)`.  Statement by statement: the run cannot call `Scale` at an instant before
that, at whatever instant its timeout branch is tried, and from that instant on its
timeout branch, its `close` and its call of `Scale` can be taken, which records
`Scale r e` once.  The delays and the instants of the earlier calls play no part. -/
theorem C23_last_call_decides (r : L0EnvironmentScaler) (d0 : Dispatcher) (e : String)
    (first : Int × Int) (rest : List (Int × Int)) (last : Int × Int)
    (hnone : d0.scheduledRuns e = none)
    (hlast : (first :: rest).getLast? = some last) :
    ∃ d2 run, scheduleCalls d0 e (first :: rest) = some d2 ∧
      d2.waiting d0.nextChannel = some run ∧
      run.delay = last.1 ∧ run.armedAt = last.2 ∧
      fireTime run = last.2 + max last.1 0 ∧
      (0 ≤ last.1 → fireTime run = last.2 + last.1) ∧
      (∀ now, now < last.2 + max last.1 0 → timerElapses r d2 d0.nextChannel now = none) ∧
      (∀ now, last.2 + max last.1 0 ≤ now →
        ∃ d3, timerElapses r d2 d0.nextChannel now = some d3 ∧
          d3.scaleCalls = d0.scaleCalls ++ [(e, now)] ∧
          d3.actions = d2.actions ++ fireActions r e d0.nextChannel) ∧
      (∀ (s : RaceState) (now now2 : Int), s.dispatcher = d2 →
        now2 < last.2 + max last.1 0 →
        raceSteps r e last.1 s
          [.timeout d0.nextChannel now, .close d0.nextChannel, .scale d0.nextChannel now2] =
          none) ∧
      (∀ (s : RaceState) (now now2 : Int), s.dispatcher = d2 →
        last.2 + max last.1 0 ≤ now → now ≤ now2 →
        ∃ s3, raceSteps r e last.1 s
            [.timeout d0.nextChannel now, .close d0.nextChannel, .scale d0.nextChannel now2] =
            some s3 ∧
          s3.scaleRuns = s.scaleRuns ++ [ScaleRun.mk e now2 (Scale r e)]) := by
  obtain ⟨d1, hd1, hreg1, hwait1, hcalls1⟩ :
      ∃ d1, ScheduleRun d0 e first.1 first.2 = some d1 ∧
        d1.scheduledRuns e = some d0.nextChannel ∧
        d1.waiting d0.nextChannel =
          some (ScheduledRun.mk e d0.nextChannel first.1 first.2) ∧
        d1.scaleCalls = d0.scaleCalls :=
    ⟨_, scheduleRun_new d0 e first.1 first.2 hnone, by simp, by simp, rfl⟩
  obtain ⟨d2, run, hd2, hreg2, hwait2, hcalls2, henv2, hlast2, hnil2⟩ :=
    scheduleCalls_existing e d0.nextChannel rest d1 _ hreg1 hwait1
  have hrun : run.delay = last.1 ∧ run.armedAt = last.2 ∧ run.environmentID = e := by
    cases rest with
    | nil =>
      simp only [List.getLast?_singleton, Option.some.injEq] at hlast
      rw [hnil2 rfl, ← hlast]
      exact ⟨rfl, rfl, rfl⟩
    | cons x xs =>
      rw [List.getLast?_cons_cons] at hlast
      obtain ⟨h1, h2⟩ := hlast2 last hlast
      exact ⟨h1, h2, henv2⟩
  have hfire : fireTime run = last.2 + max last.1 0 := by
    unfold fireTime
    rw [hrun.1, hrun.2.1]
  refine ⟨d2, run, by simp only [scheduleCalls, hd1, hd2], hwait2, hrun.1, hrun.2.1, hfire,
    fun hpos => by rw [hfire, max_eq_left hpos], ?_, ?_, ?_, ?_⟩
  rotate_left 2
  · intro s now now2 hs hnow2
    exact scale_not_before r e last.1 s d0.nextChannel run now now2 (by rw [hs]; exact hwait2)
      (by rw [hfire]; exact hnow2)
  · intro s now now2 hs hnow hlater
    obtain ⟨s3, hs3, hruns3, _⟩ := run_fires r e last.1 s d0.nextChannel run now now2
      (by rw [hs]; exact hwait2) (by rw [hfire]; exact hnow) hlater
    rw [hrun.2.2] at hruns3
    exact ⟨s3, hs3, hruns3⟩
  · intro now hnow
    exact timerElapses_early r d2 d0.nextChannel run now hwait2 (by rw [hfire]; exact hnow)
  · intro now hnow
    refine ⟨_, timerElapses_due r d2 d0.nextChannel run now hwait2 (by rw [hfire]; exact hnow),
      ?_, ?_⟩
    · show d2.scaleCalls ++ [(run.environmentID, now)] = _
      rw [hcalls2, hcalls1, hrun.2.2]
    · show d2.actions ++ fireActions r run.environmentID d0.nextChannel = _
      rw [hrun.2.2]

/-- C23 (amended) at the calls `ScheduleRun(e, 5)` at instant 0 and `ScheduleRun(e, 4)`
at instant 3: the run fires at instant 3 + 4. -/
theorem C23_last_call_decides_witness :
    ∃ d2 run, scheduleCalls emptyDispatcher "e" ((5, 0) :: [(4, 3)]) = some d2 ∧
      d2.waiting emptyDispatcher.nextChannel = some run ∧
      fireTime run = (4, 3).2 + max (4, 3).1 0 := by
  obtain ⟨d2, run, hd2, hwait, _, _, hfire, _⟩ :=
    C23_last_call_decides idleScaler emptyDispatcher "e" (5, 0) [(4, 3)] (4, 3) rfl rfl
  exact ⟨d2, run, hd2, hwait, hfire⟩

/-- The statements of a call taken in a row, with no step of a run in between, are the
call `ScheduleRun`: the creation branch when the registry has no entry, the send
when it has one and a run is blocked on its channel; a send that finds no run
blocked on an open channel waits, and `ScheduleRun` has no result. -/
theorem race_sequential (r : L0EnvironmentScaler) (s : RaceState) (e : String)
    (delay now : Int) (hcall : s.call = .notStarted) :
    (s.dispatcher.scheduledRuns e = none →
      ∃ s2, raceSteps r e delay s [.lookup, .start now, .register] = some s2 ∧
        s2.call = .returned ∧ ScheduleRun s.dispatcher e delay now = some s2.dispatcher) ∧
    (∀ c run, s.dispatcher.scheduledRuns e = some c → c ∉ s.closed →
      s.dispatcher.waiting c = some run →
      ∃ s2, raceSteps r e delay s [.lookup, .send now] = some s2 ∧
        s2.call = .returned ∧ ScheduleRun s.dispatcher e delay now = some s2.dispatcher) ∧
    (∀ c, s.dispatcher.scheduledRuns e = some c → c ∉ s.closed →
      s.dispatcher.waiting c = none →
      raceSteps r e delay s [.lookup, .send now] = none ∧
        ScheduleRun s.dispatcher e delay now = none) := by
  refine ⟨?_, ?_, ?_⟩
  · intro hnone
    obtain ⟨s1, hs1, hcall1, hd1⟩ :
        ∃ s1, raceStep r e delay s .lookup = some s1 ∧ s1.call = .creating ∧
          s1.dispatcher = s.dispatcher :=
      ⟨_, raceStep_lookup_none r e delay s hcall hnone, rfl, rfl⟩
    obtain ⟨s2, hs2, hcall2, hd2⟩ :
        ∃ s2, raceStep r e delay s1 (.start now) = some s2 ∧
          s2.call = .registering s1.dispatcher.nextChannel ∧
          s2.dispatcher =
            { s1.dispatcher with
              waiting := fun c2 => if c2 = s1.dispatcher.nextChannel then
                  some (ScheduledRun.mk e s1.dispatcher.nextChannel delay now)
                else s1.dispatcher.waiting c2,
              nextChannel := s1.dispatcher.nextChannel + 1,
              actions := s1.dispatcher.actions ++ [RunAction.logScalingIn e delay] } :=
      ⟨_, raceStep_start r e delay now s1 hcall1, rfl, rfl⟩
    obtain ⟨s3, hs3, hcall3, hd3⟩ :
        ∃ s3, raceStep r e delay s2 .register = some s3 ∧ s3.call = .returned ∧
          s3.dispatcher =
            { s2.dispatcher with
              scheduledRuns := fun e2 => if e2 = e then some s1.dispatcher.nextChannel
                else s2.dispatcher.scheduledRuns e2 } :=
      ⟨_, raceStep_register r e delay s2 _ hcall2, rfl, rfl⟩
    refine ⟨s3, ?_, hcall3, ?_⟩
    · rw [raceSteps_cons r e delay s s1 _ _ hs1, raceSteps_cons r e delay s1 s2 _ _ hs2,
        raceSteps_cons r e delay s2 s3 _ _ hs3]
      rfl
    · rw [scheduleRun_new s.dispatcher e delay now hnone, hd3, hd2, hd1]
  · intro c run hreg hopen hwait
    obtain ⟨s1, hs1, hcall1, hd1, hclosed1⟩ :
        ∃ s1, raceStep r e delay s .lookup = some s1 ∧ s1.call = .sending c ∧
          s1.dispatcher = s.dispatcher ∧ s1.closed = s.closed :=
      ⟨_, raceStep_lookup_some r e delay s c hcall hreg, rfl, rfl, rfl⟩
    obtain ⟨s2, hs2, hcall2, hd2⟩ :
        ∃ s2, raceStep r e delay s1 (.send now) = some s2 ∧ s2.call = .returned ∧
          s2.dispatcher =
            { s1.dispatcher with
              waiting := fun c2 => if c2 = c then some (receiveDelay run delay now).1
                else s1.dispatcher.waiting c2,
              actions := s1.dispatcher.actions ++ (receiveDelay run delay now).2 } :=
      ⟨_, raceStep_send_received r e delay now s1 c run hcall1 (by rw [hclosed1]; exact hopen)
        (by rw [hd1]; exact hwait), rfl, rfl⟩
    refine ⟨s2, ?_, hcall2, ?_⟩
    · rw [raceSteps_cons r e delay s s1 _ _ hs1, raceSteps_cons r e delay s1 s2 _ _ hs2]
      rfl
    · rw [scheduleRun_existing s.dispatcher e c run delay now hreg hwait, hd2, hd1]
  · intro c hreg hopen hwait
    obtain ⟨s1, hs1, hcall1, hd1, hclosed1⟩ :
        ∃ s1, raceStep r e delay s .lookup = some s1 ∧ s1.call = .sending c ∧
          s1.dispatcher = s.dispatcher ∧ s1.closed = s.closed :=
      ⟨_, raceStep_lookup_some r e delay s c hcall hreg, rfl, rfl, rfl⟩
    refine ⟨?_, ?_⟩
    · rw [raceSteps_cons r e delay s s1 _ _ hs1]
      exact raceSteps_cons_none r e delay s1 _ _
        (raceStep_send_blocked r e delay now s1 c hcall1 (by rw [hclosed1]; exact hopen)
          (by rw [hd1]; exact hwait))
    · simp only [ScheduleRun, hreg, hwait]

/-- The step `timer` on a run blocked in its `select` agrees with `timerElapses` on
the dispatcher: both are enabled from the instant at which the timer elapses, and
they leave the same registry, blocked runs, actions and invocations. -/
theorem timer_agrees (r : L0EnvironmentScaler) (e : String) (delay : Int) (s : RaceState)
    (c : Nat) (run : ScheduledRun) (now : Int) (hwait : s.dispatcher.waiting c = some run) :
    (now < fireTime run →
      raceStep r e delay s (.timer c now) = none ∧ timerElapses r s.dispatcher c now = none) ∧
    (fireTime run ≤ now →
      ∃ s2 d2, raceStep r e delay s (.timer c now) = some s2 ∧
        timerElapses r s.dispatcher c now = some d2 ∧
        s2.dispatcher.scheduledRuns = d2.scheduledRuns ∧
        s2.dispatcher.waiting = d2.waiting ∧
        s2.dispatcher.nextChannel = d2.nextChannel ∧
        s2.dispatcher.actions = d2.actions ∧
        s2.dispatcher.scaleCalls = d2.scaleCalls ∧
        s2.closed = c :: s.closed ∧ s2.call = s.call) := by
  refine ⟨?_, ?_⟩
  · intro hearly
    have h := stepTimeout_early s c run now hwait hearly
    exact ⟨by simp only [raceStep, h], timerElapses_early r s.dispatcher c run now hwait hearly⟩
  · intro hdue
    obtain ⟨s1, h1, hf1, hreg1, hwait1, hnext1, hact1, hcalls1, hclosed1, hcall1⟩ :
        ∃ s1, stepTimeout s c now = some s1 ∧
          s1.firing c = some (FiringRun.mk run.environmentID FirePoint.deleted now) ∧
          s1.dispatcher.scheduledRuns =
            (fun e2 => if e2 = run.environmentID then none
              else s.dispatcher.scheduledRuns e2) ∧
          s1.dispatcher.waiting =
            (fun c2 => if c2 = c then none else s.dispatcher.waiting c2) ∧
          s1.dispatcher.nextChannel = s.dispatcher.nextChannel ∧
          s1.dispatcher.actions =
            s.dispatcher.actions ++ [RunAction.deleteEntry run.environmentID] ∧
          s1.dispatcher.scaleCalls = s.dispatcher.scaleCalls ∧
          s1.closed = s.closed ∧ s1.call = s.call :=
      ⟨_, stepTimeout_due s c run now hwait hdue, by simp, rfl, rfl, rfl, rfl, rfl, rfl, rfl⟩
    obtain ⟨s2, h2, hf2, hreg2, hwait2, hnext2, hact2, hcalls2, hclosed2, hcall2⟩ :
        ∃ s2, stepClose s1 c = some s2 ∧
          s2.firing c = some (FiringRun.mk run.environmentID FirePoint.closed now) ∧
          s2.dispatcher.scheduledRuns = s1.dispatcher.scheduledRuns ∧
          s2.dispatcher.waiting = s1.dispatcher.waiting ∧
          s2.dispatcher.nextChannel = s1.dispatcher.nextChannel ∧
          s2.dispatcher.actions = s1.dispatcher.actions ++ [RunAction.closeChannel c] ∧
          s2.dispatcher.scaleCalls = s1.dispatcher.scaleCalls ∧
          s2.closed = c :: s1.closed ∧ s2.call = s1.call :=
      ⟨_, stepClose_deleted s1 c run.environmentID now hf1, by simp, rfl, rfl, rfl, rfl, rfl,
        rfl, rfl⟩
    obtain ⟨s3, h3, hreg3, hwait3, hnext3, hact3, hcalls3, hclosed3, hcall3⟩ :
        ∃ s3, stepScale r s2 c now = some s3 ∧
          s3.dispatcher.scheduledRuns = s2.dispatcher.scheduledRuns ∧
          s3.dispatcher.waiting = s2.dispatcher.waiting ∧
          s3.dispatcher.nextChannel = s2.dispatcher.nextChannel ∧
          s3.dispatcher.actions = s2.dispatcher.actions ++
            ([RunAction.logScalingNow run.environmentID,
              RunAction.invokeScale run.environmentID] ++
              match scaleError r run.environmentID with
              | some err => [RunAction.logScaleError run.environmentID err]
              | none => []) ∧
          s3.dispatcher.scaleCalls =
            s2.dispatcher.scaleCalls ++ [(run.environmentID, now)] ∧
          s3.closed = s2.closed ∧ s3.call = s2.call :=
      ⟨_, stepScale_closed r s2 c run.environmentID now now hf2 (le_refl _), rfl, rfl, rfl, rfl,
        rfl, rfl, rfl⟩
    refine ⟨s3, _, ?_, timerElapses_due r s.dispatcher c run now hwait hdue, ?_, ?_, ?_, ?_, ?_,
      ?_, ?_⟩
    · simp only [raceStep, h1, h2, h3]
    · rw [hreg3, hreg2, hreg1]
    · rw [hwait3, hwait2, hwait1]
    · rw [hnext3, hnext2, hnext1]
    · rw [hact3, hact2, hact1]
      show _ = s.dispatcher.actions ++ fireActions r run.environmentID c
      cases hse : scaleError r run.environmentID <;> simp [fireActions, hse]
    · rw [hcalls3, hcalls2, hcalls1]
    · rw [hclosed3, hclosed2, hclosed1]
    · rw [hcall3, hcall2, hcall1]

end Layer0
